import Mathlib

/-!
# AI Discovery Files validator (`schemas/validate.mjs`)

A shallow embedding of the validation engine of `validate.mjs`, and theorems
about it.

Conventions of the embedding.

* A JavaScript string is a `List Char` (`Str`).  File contents are read with
  `readFileSync(path, 'utf-8')` and file names come from the command line, so
  they are well-formed Unicode; on well-formed strings the substring tests
  `startsWith`, `endsWith`, `includes` agree whether they are taken over
  UTF-16 code units or over code points, and only the emptiness of a length
  is ever tested on file contents.
* `String.prototype.trim` removes the ECMAScript `WhiteSpace` and
  `LineTerminator` code points from both ends; it is embedded exactly.
* `String.prototype.toLowerCase` is the Unicode default case conversion.  The
  validators take it as their first argument `toLowerCase : Str → Str`, so
  that every theorem holds for the real conversion; `asciiLower` is the
  conversion restricted to ASCII letters and is used to evaluate the
  validators on concrete ASCII inputs.
* A validator mutates the `ValidationResult` it is given; here it returns the
  updated result.
* An exception is a value: a function that can throw returns
  `Except JsError _`.  The call stack is finite: `validateJsonSchema` takes
  the number of nested calls the stack still holds, and a call that finds no
  room throws (`JsError.stackOverflow`).
-/

namespace AdfValidate

abbrev Str := List Char

instance : Coe String Str := ⟨String.toList⟩

/-! ## String primitives -/

/-- `s.startsWith(p)`. -/
def startsWith : Str → Str → Bool
  | _, [] => true
  | [], _ :: _ => false
  | c :: s, d :: p => c == d && startsWith s p

/-- `s.endsWith(p)`. -/
def endsWith (s p : Str) : Bool :=
  startsWith s.reverse p.reverse

/-- `s.includes(t)`. -/
def includes : Str → Str → Bool
  | [], t => t.isEmpty
  | c :: s, t => startsWith (c :: s) t || includes s t

/-- ECMAScript `WhiteSpace` or `LineTerminator` code point: the characters
removed by `String.prototype.trim`. -/
def isWhiteSpace (c : Char) : Bool :=
  let n := c.toNat
  n == 9 || n == 10 || n == 11 || n == 12 || n == 13 || n == 32 || n == 160 ||
  n == 5760 || (8192 ≤ n && n ≤ 8202) || n == 8232 || n == 8233 || n == 8239 ||
  n == 8287 || n == 12288 || n == 65279

/-- `s.trim()`. -/
def trim (s : Str) : Str :=
  ((s.dropWhile isWhiteSpace).reverse.dropWhile isWhiteSpace).reverse

/-- `s.split(sep)` for a one-character separator; the result is never empty. -/
def split (sep : Char) : Str → List Str
  | [] => [[]]
  | c :: s =>
    if c == sep then [] :: split sep s
    else
      match split sep s with
      | [] => [[c]]
      | l :: ls => (c :: l) :: ls

/-- Lower-casing of the ASCII letters only; agrees with `toLowerCase` on ASCII
strings. -/
def asciiLower (s : Str) : Str :=
  s.map fun c => if 65 ≤ c.toNat && c.toNat ≤ 90 then Char.ofNat (c.toNat + 32) else c

/-- `lines.findIndex(p)`, with `none` for `-1`. -/
def findIndex (p : Str → Bool) : List Str → Option Nat
  | [] => none
  | l :: ls => if p l then some 0 else (findIndex p ls).map (· + 1)

/-! ## Result helpers -/

/-- An error or warning record `{ message, line }`; `line` is `undefined`
when the call gives none. -/
structure Issue where
  message : Str
  line : Option Nat
deriving DecidableEq, Repr

/-- The class `ValidationResult`. -/
structure ValidationResult where
  file : Str
  type : Str
  errors : List Issue
  warnings : List Issue
deriving DecidableEq, Repr

namespace ValidationResult

/-- The constructor: `new ValidationResult(file, type)`. -/
def new (file type : Str) : ValidationResult :=
  ⟨file, type, [], []⟩

/-- The method `error(message, line)`: pushes onto `errors`. -/
def error (r : ValidationResult) (message : Str) (line : Option Nat) : ValidationResult :=
  ⟨r.file, r.type, r.errors ++ [⟨message, line⟩], r.warnings⟩

/-- The method `warn(message, line)`: pushes onto `warnings`. -/
def warn (r : ValidationResult) (message : Str) (line : Option Nat) : ValidationResult :=
  ⟨r.file, r.type, r.errors, r.warnings ++ [⟨message, line⟩]⟩

/-- The getter `valid`: `this.errors.length === 0`. -/
def valid (r : ValidationResult) : Bool :=
  r.errors.length == 0

end ValidationResult

/-- One call of a mutating method of `ValidationResult`. -/
inductive Call where
  | error (message : Str) (line : Option Nat)
  | warn (message : Str) (line : Option Nat)
deriving DecidableEq, Repr

/-- The call is an `error()` call. -/
def Call.isError : Call → Bool
  | .error _ _ => true
  | .warn _ _ => false

/-- Performs one method call on a result. -/
def applyCall (r : ValidationResult) : Call → ValidationResult
  | .error m l => r.error m l
  | .warn m l => r.warn m l

/-- Performs a sequence of method calls, first to last. -/
def applyCalls (r : ValidationResult) (calls : List Call) : ValidationResult :=
  calls.foldl applyCall r

/-! ## File type registry -/

/-- A value of the registry `FILE_TYPES`. -/
structure FileTypeEntry where
  code : Str
  type : Str
  tier : Str
deriving DecidableEq, Repr

/-- The registry `FILE_TYPES`, as `Object.entries` lists it (insertion
order). -/
def FILE_TYPES : List (Str × FileTypeEntry) :=
  [ ("llms.txt".toList, ⟨"ADF-001".toList, "llms-txt".toList, "essential".toList⟩),
    ("llm.txt".toList, ⟨"ADF-002".toList, "llm-txt".toList, "complete".toList⟩),
    ("llms.html".toList, ⟨"ADF-003".toList, "llms-html".toList, "complete".toList⟩),
    ("ai.txt".toList, ⟨"ADF-004".toList, "ai-txt".toList, "essential".toList⟩),
    ("ai.json".toList, ⟨"ADF-005".toList, "ai-json".toList, "recommended".toList⟩),
    ("identity.json".toList, ⟨"ADF-006".toList, "identity-json".toList, "recommended".toList⟩),
    ("brand.txt".toList, ⟨"ADF-007".toList, "brand-txt".toList, "recommended".toList⟩),
    ("faq-ai.txt".toList, ⟨"ADF-008".toList, "faq-ai-txt".toList, "recommended".toList⟩),
    ("developer-ai.txt".toList, ⟨"ADF-009".toList, "developer-ai-txt".toList, "complete".toList⟩),
    ("robots-ai.txt".toList, ⟨"ADF-010".toList, "robots-ai-txt".toList, "complete".toList⟩) ]

/-- The own property `FILE_TYPES[base]`, if there is one. -/
def lookupFileType (base : Str) : Option FileTypeEntry :=
  (FILE_TYPES.find? fun kv => kv.1 == base).map Prod.snd

/-- The property names every object literal inherits from `Object.prototype`.
`FILE_TYPES[base]` is a truthy function or object for them, and its `.type`
is `undefined`. -/
def objectPrototypeKeys : List Str :=
  [ "constructor".toList, "__defineGetter__".toList, "__defineSetter__".toList,
    "hasOwnProperty".toList, "__lookupGetter__".toList, "__lookupSetter__".toList,
    "isPrototypeOf".toList, "propertyIsEnumerable".toList, "toString".toList,
    "valueOf".toList, "__proto__".toList, "toLocaleString".toList ]

/-! ## Dispatcher: type detection -/

/-- POSIX `path.basename(path)`: trailing slashes are dropped, then what
follows the last remaining slash is returned. -/
def basename (path : Str) : Str :=
  ((path.reverse.dropWhile (· == '/')).takeWhile (· != '/')).reverse

/-- The array `Object.entries(FILE_TYPES).sort((a, b) => b[0].length - a[0].length)`:
a stable sort by key length, longest first. -/
def sortedEntries : List (Str × FileTypeEntry) :=
  List.insertionSort (fun a b => b.1.length ≤ a.1.length) FILE_TYPES

/-- The loop of `detectType` over the sorted entries: the type of the first
entry whose key the base name ends with (after a dash) or includes. -/
def detectLoop (base : Str) : List (Str × FileTypeEntry) → Option Str
  | [] => none
  | (knownName, meta) :: rest =>
    if endsWith base ('-' :: knownName) || includes base knownName then some meta.type
    else detectLoop base rest

/-- The function `detectType(filename)`; `none` stands for a `null` or
`undefined` result. -/
def detectType (filename : Str) : Option Str :=
  let base := basename filename
  match lookupFileType base with
  | some entry => some entry.type
  | none =>
    if objectPrototypeKeys.contains base then none
    else detectLoop base sortedEntries

/-! ## Messages of the plain-text validators -/

def msgFileIsEmpty : Str := "File is empty"

def msgLlmsH1 : Str := "File MUST begin with a Markdown H1 heading (# Title)"

def msgLlmsH1Text : Str := "H1 heading MUST contain text after the \"# \" prefix"

def msgLlmsBlockquote : Str := "File MUST contain a blockquote description (> ...) immediately after the H1"

def msgLlmsH2 : Str := "File SHOULD contain at least one H2 section (## Section Name)"

def msgLlmH1 : Str := "File MUST begin with a Markdown H1 heading (# Page Title)"

def msgLlmBlockquote : Str := "File SHOULD contain a blockquote description"

def msgAiIdentity : Str := "File MUST contain an [identity] section with name and url fields"

def msgAiName : Str := "[identity] section MUST contain a \"name:\" field"

def msgAiUrl : Str := "[identity] section MUST contain a \"url:\" field"

def msgAiPermissions : Str := "File MUST contain a [permissions] section"

def msgAiPermissionsItem : Str := "[permissions] section MUST contain at least one item"

def msgAiRestrictions : Str := "File MUST contain a [restrictions] section"

def msgAiRestrictionsItem : Str := "[restrictions] section MUST contain at least one item"

def msgBrandOfficial : Str := "File MUST contain an [official-names] section"

def msgBrandOfficialContent : Str := "[official-names] section MUST contain at least one name"

def msgBrandIncorrect : Str := "File MUST contain an [incorrect-names] section"

def msgBrandIncorrectContent : Str := "[incorrect-names] section MUST contain at least one entry"

def msgBrandRules : Str := "File MUST contain a [naming-rules] section"

def msgBrandRulesContent : Str := "[naming-rules] section MUST contain at least one rule"

def msgFaqNoQuestion : Str := "File MUST contain at least one question (Q: prefix)"

def msgFaqSections : Str := "File SHOULD organise FAQs into sections using headings"

def msgDeveloperTechnical : Str := "File SHOULD contain technical context (APIs, stack, architecture)"

def msgRobotsCrawler : Str := "File SHOULD reference AI crawlers or define access policies"

/-! ## Validators: plain text files -/

/-- The `replace(/^## /, '')` of `validateLlmsTxt`: drops a leading `"## "`. -/
def stripH2 (s : Str) : Str :=
  if startsWith s "## " then s.drop 3 else s

/-- The array `recommended` of `validateLlmsTxt`. -/
def recommended : List Str := ["about", "services", "contact"]

/-- The text `name.charAt(0).toUpperCase() + name.slice(1)` for the lower-case
ASCII names of `recommended`. -/
def capitalize : Str → Str
  | [] => []
  | c :: s => (if 97 ≤ c.toNat && c.toNat ≤ 122 then Char.ofNat (c.toNat - 32) else c) :: s

/-- The message of the warning for a recommended section that is not found. -/
def recommendedMessage (name : Str) : Str :=
  "Recommended section \"## " ++ capitalize name ++ "\" not found"

/-- The H2 lines of `validateLlmsTxt`, each with its 1-based number; `i` is
the 0-based index of the first line of the list. -/
def h2LinesFrom : Nat → List Str → List (Str × Nat)
  | _, [] => []
  | i, l :: ls =>
    if startsWith (trim l) "## " then (l, i + 1) :: h2LinesFrom (i + 1) ls
    else h2LinesFrom (i + 1) ls

/-- The function `validateLlmsTxt(content, result)`. -/
def validateLlmsTxt (toLowerCase : Str → Str) (content : Str) (result : ValidationResult) :
    ValidationResult :=
  let lines := split '\n' content
  match findIndex (fun l => 0 < (trim l).length) lines with
  | none => result.error msgFileIsEmpty none
  | some firstNonEmpty =>
    let firstLine := trim (lines.getD firstNonEmpty [])
    let r1 :=
      if !startsWith firstLine "# " then
        result.error msgLlmsH1 (some (firstNonEmpty + 1))
      else if firstLine == ("#" : Str) || firstLine == ("# " : Str) then
        result.error msgLlmsH1Text (some (firstNonEmpty + 1))
      else result
    let hasBlockquote := lines.any fun l => startsWith (trim l) "> "
    let r2 :=
      if !hasBlockquote then
        r1.error msgLlmsBlockquote none
      else r1
    let h2Lines := h2LinesFrom 0 lines
    let r3 :=
      if h2Lines.length == 0 then
        r2.warn msgLlmsH2 none
      else r2
    let sectionNames := h2Lines.map fun p => toLowerCase (stripH2 (trim p.1))
    recommended.foldl
      (fun r name =>
        if !(sectionNames.any fun s => includes s name) then r.warn (recommendedMessage name) none
        else r)
      r3

/-- The function `validateLlmTxt(content, result)`. -/
def validateLlmTxt (content : Str) (result : ValidationResult) : ValidationResult :=
  let lines := split '\n' content
  match findIndex (fun l => 0 < (trim l).length) lines with
  | none => result.error msgFileIsEmpty none
  | some firstNonEmpty =>
    let firstLine := trim (lines.getD firstNonEmpty [])
    let r1 :=
      if !startsWith firstLine "# " then
        result.error msgLlmH1
          (some (firstNonEmpty + 1))
      else result
    let hasBlockquote := lines.any fun l => startsWith (trim l) "> "
    if !hasBlockquote then r1.warn msgLlmBlockquote none else r1

/-- The test `trimmed.startsWith('[') && trimmed.endsWith(']')` that closes a
section. -/
def isBracketed (trimmed : Str) : Bool :=
  startsWith trimmed "[" && endsWith trimmed "]"

/-- The state `(inIdentity, hasName, hasUrl)` of the identity loop of
`validateAiTxt`. -/
structure IdentityState where
  inIdentity : Bool
  hasName : Bool
  hasUrl : Bool
deriving DecidableEq, Repr

/-- One iteration of the identity loop of `validateAiTxt`. -/
def identityStep (toLowerCase : Str → Str) (st : IdentityState) (line : Str) : IdentityState :=
  let trimmed := toLowerCase (trim line)
  if trimmed == ("[identity]" : Str) then ⟨true, st.hasName, st.hasUrl⟩
  else if isBracketed trimmed then ⟨false, st.hasName, st.hasUrl⟩
  else if st.inIdentity then
    ⟨st.inIdentity, st.hasName || startsWith trimmed "name:", st.hasUrl || startsWith trimmed "url:"⟩
  else st

/-- One iteration of the permissions loop and of the restrictions loop of
`validateAiTxt`, on the state `(inSection, count)`; `header` is
`"[permissions]"` or `"[restrictions]"`. -/
def itemStep (toLowerCase : Str → Str) (header : Str) (st : Bool × Nat) (line : Str) :
    Bool × Nat :=
  let trimmed := toLowerCase (trim line)
  if trimmed == header then (true, st.2)
  else if isBracketed trimmed then (false, st.2)
  else if st.1 && startsWith (trim line) "- " then (st.1, st.2 + 1)
  else st

/-- The number of items counted by the permissions or restrictions loop. -/
def itemCount (toLowerCase : Str → Str) (header : Str) (lines : List Str) : Nat :=
  (lines.foldl (itemStep toLowerCase header) (false, 0)).2

/-- The test `lines.some(l => l.trim().toLowerCase() === header)`. -/
def hasHeader (toLowerCase : Str → Str) (header : Str) (lines : List Str) : Bool :=
  lines.any fun l => toLowerCase (trim l) == header

/-- The function `validateAiTxt(content, result)`. -/
def validateAiTxt (toLowerCase : Str → Str) (content : Str) (result : ValidationResult) :
    ValidationResult :=
  let lines := split '\n' content
  if (trim content).length == 0 then result.error msgFileIsEmpty none
  else
    let r1 :=
      if !hasHeader toLowerCase "[identity]" lines then
        result.error msgAiIdentity none
      else
        let st := lines.foldl (identityStep toLowerCase) ⟨false, false, false⟩
        let ra :=
          if !st.hasName then
            result.error msgAiName none
          else result
        if !st.hasUrl then ra.error msgAiUrl none
        else ra
    let r2 :=
      if !hasHeader toLowerCase "[permissions]" lines then
        r1.error msgAiPermissions none
      else if itemCount toLowerCase "[permissions]" lines == 0 then
        r1.error msgAiPermissionsItem none
      else r1
    if !hasHeader toLowerCase "[restrictions]" lines then
      r2.error msgAiRestrictions none
    else if itemCount toLowerCase "[restrictions]" lines == 0 then
      r2.error msgAiRestrictionsItem none
    else r2

/-- One iteration of the loop of `sectionContentCount(sectionName)` in
`validateBrandTxt`, on the state `(inSection, count)`; `header` is the text
`[sectionName]`. -/
def contentStep (toLowerCase : Str → Str) (header : Str) (st : Bool × Nat) (line : Str) :
    Bool × Nat :=
  let trimmed := toLowerCase (trim line)
  if trimmed == header then (true, st.2)
  else if isBracketed trimmed then (false, st.2)
  else if st.1 && 0 < (trim line).length && !startsWith (trim line) "#" then (st.1, st.2 + 1)
  else st

/-- The helper `sectionContentCount(sectionName)` of `validateBrandTxt`. -/
def sectionContentCount (toLowerCase : Str → Str) (lines : List Str) (sectionName : Str) : Nat :=
  (lines.foldl (contentStep toLowerCase ("[" ++ sectionName ++ "]")) (false, 0)).2

/-- The function `validateBrandTxt(content, result)`. -/
def validateBrandTxt (toLowerCase : Str → Str) (content : Str) (result : ValidationResult) :
    ValidationResult :=
  let lines := split '\n' content
  if (trim content).length == 0 then result.error msgFileIsEmpty none
  else
    let r1 :=
      if !hasHeader toLowerCase "[official-names]" lines then
        result.error msgBrandOfficial none
      else if sectionContentCount toLowerCase lines "official-names" == 0 then
        result.error msgBrandOfficialContent none
      else result
    let r2 :=
      if !hasHeader toLowerCase "[incorrect-names]" lines then
        r1.error msgBrandIncorrect none
      else if sectionContentCount toLowerCase lines "incorrect-names" == 0 then
        r1.error msgBrandIncorrectContent none
      else r1
    if !hasHeader toLowerCase "[naming-rules]" lines then
      r2.error msgBrandRules none
    else if sectionContentCount toLowerCase lines "naming-rules" == 0 then
      r2.error msgBrandRulesContent none
    else r2

/-- The question test of `validateFaqAiTxt`, on a trimmed line. -/
def isQuestion (trimmed : Str) : Bool :=
  startsWith trimmed "Q:" || startsWith trimmed "**Q:"

/-- The answer test of `validateFaqAiTxt`, on a trimmed line. -/
def isAnswer (trimmed : Str) : Bool :=
  startsWith trimmed "A:" || startsWith trimmed "**A:"

/-- The first loop of `validateFaqAiTxt`: the arrays `questions` and `answers`
of 1-based line numbers; `i` is the 0-based index of the first line of the
list. -/
def scanFaq : Nat → List Str → List Nat × List Nat
  | _, [] => ([], [])
  | i, l :: ls =>
    let rest := scanFaq (i + 1) ls
    let trimmed := trim l
    (if isQuestion trimmed then (i + 1) :: rest.1 else rest.1,
     if isAnswer trimmed then (i + 1) :: rest.2 else rest.2)

/-- The value `questions[q + 1] || Infinity`, with `none` for `Infinity`: an
absent (`undefined`) or zero entry is falsy. -/
def orInfinity : Option Nat → Option Nat
  | some (n + 1) => some (n + 1)
  | _ => none

/-- The comparison `aLine < nextQLine`, where `none` is `Infinity`. -/
def ltInfinity (aLine : Nat) : Option Nat → Bool
  | some n => aLine < n
  | none => true

/-- The message of the error for an unanswered question. -/
def unansweredMessage (qLine : Nat) : Str :=
  "Question at line " ++ (Nat.repr qLine).toList ++ " has no corresponding answer (A:)"

/-- The second loop of `validateFaqAiTxt`, over the questions from index `q`
on: the list is `questions.slice(q)`, so that its second element is
`questions[q + 1]`. -/
def checkQuestions (answers : List Nat) : List Nat → ValidationResult → ValidationResult
  | [], r => r
  | qLine :: rest, r =>
    let nextQLine := orInfinity rest.head?
    let hasMatchingAnswer := answers.any fun aLine => qLine < aLine && ltInfinity aLine nextQLine
    checkQuestions answers rest
      (if !hasMatchingAnswer then r.error (unansweredMessage qLine) (some qLine) else r)

/-- The function `validateFaqAiTxt(content, result)`. -/
def validateFaqAiTxt (content : Str) (result : ValidationResult) : ValidationResult :=
  let lines := split '\n' content
  if (trim content).length == 0 then result.error msgFileIsEmpty none
  else
    let qa := scanFaq 0 lines
    if qa.1.length == 0 then
      result.error msgFaqNoQuestion none
    else
      let r1 := checkQuestions qa.2 qa.1 result
      let hasSections := lines.any fun l =>
        let t := trim l
        (startsWith t "[" && endsWith t "]" && !startsWith t "[//") ||
          startsWith t "## " || startsWith t "# "
      if !hasSections then
        r1.warn msgFaqSections none
      else r1

/-- The function `validateDeveloperAiTxt(content, result)`. -/
def validateDeveloperAiTxt (toLowerCase : Str → Str) (content : Str)
    (result : ValidationResult) : ValidationResult :=
  if (trim content).length == 0 then result.error msgFileIsEmpty none
  else
    let lower := toLowerCase content
    let hasTechnical :=
      includes lower "api" || includes lower "stack" || includes lower "framework" ||
      includes lower "language" || includes lower "architecture" ||
      includes lower "endpoint" || includes lower "technical" || includes lower "developer"
    if !hasTechnical then
      result.warn msgDeveloperTechnical none
    else result

/-- The function `validateRobotsAiTxt(content, result)`. -/
def validateRobotsAiTxt (toLowerCase : Str → Str) (content : Str)
    (result : ValidationResult) : ValidationResult :=
  if (trim content).length == 0 then result.error msgFileIsEmpty none
  else
    let lower := toLowerCase content
    let hasCrawlerRef :=
      includes lower "crawler" || includes lower "bot" || includes lower "agent" ||
      includes lower "gptbot" || includes lower "claudebot" || includes lower "googlebot" ||
      includes lower "allow" || includes lower "disallow" || includes lower "block"
    if !hasCrawlerRef then
      result.warn msgRobotsCrawler none
    else result

/-! ## Reference descriptions of type detection -/

/-- The entry is listed before the other one in the registry. -/
def listedBefore (a b : Str × FileTypeEntry) : Bool :=
  FILE_TYPES.indexOf a < FILE_TYPES.indexOf b

/-- The entry `a` comes before the entry `b` in the length-descending order:
its key is longer, or as long and listed earlier. -/
def triedBefore (a b : Str × FileTypeEntry) : Bool :=
  b.1.length < a.1.length || (a.1.length == b.1.length && listedBefore a b)

/-- The longest key of the list that occurs as a substring of `base`; of
several longest ones, the one listed first. -/
def longestOccurring (base : Str) : List (Str × FileTypeEntry) → Option (Str × FileTypeEntry)
  | [] => none
  | kv :: rest =>
    match longestOccurring base rest with
    | none => if includes base kv.1 then some kv else none
    | some best =>
      if includes base kv.1 && best.1.length ≤ kv.1.length then some kv else some best

/-- The reference detection: the type of the longest registry filename that
occurs as a substring of the base name of `filename`, ties going to the one
listed first in the registry. -/
def detectTypeRef (filename : Str) : Option Str :=
  (longestOccurring (basename filename) FILE_TYPES).map fun kv => kv.2.type

/-! ## Reference descriptions for the text validators -/

/-- Line `i` (0-based) is the first line that is not blank: it trims to a
non-empty text and every line before it trims to the empty text. -/
def IsFirstNonBlank (lines : List Str) (i : Nat) : Prop :=
  i < lines.length ∧ trim (lines.getD i []) ≠ [] ∧ ∀ j < i, trim (lines.getD j []) = []

/-- Some line is an H2 heading (trimmed, it starts with `"## "`) whose
remaining text, lowercased, contains `name`. -/
def HasSection (toLowerCase : Str → Str) (lines : List Str) (name : Str) : Prop :=
  ∃ l ∈ lines, startsWith (trim l) "## " = true ∧
    includes (toLowerCase ((trim l).drop 3)) name = true

/-- The lines inside the spans of the section `header`: a span starts after a
header line and ends before the next bracketed line; `inSection` tells whether
the list starts inside a span. -/
def spanLines (toLowerCase : Str → Str) (header : Str) : Bool → List Str → List Str
  | _, [] => []
  | inSection, l :: ls =>
    if toLowerCase (trim l) == header then spanLines toLowerCase header true ls
    else if isBracketed (toLowerCase (trim l)) then spanLines toLowerCase header false ls
    else if inSection then l :: spanLines toLowerCase header true ls
    else spanLines toLowerCase header false ls

/-- Some line is the section header `header`: trimmed and lowercased, it
equals `header`. -/
def HeaderPresent (toLowerCase : Str → Str) (header : Str) (lines : List Str) : Prop :=
  ∃ l ∈ lines, toLowerCase (trim l) = header

/-- The line `l` lies in a span of the section `header`: it comes after a
header line `h`, and neither `l` nor a line between `h` and `l` is bracketed
(trimmed and lowercased, starts with `[` and ends with `]`). -/
def InSection (toLowerCase : Str → Str) (header : Str) (lines : List Str) (l : Str) : Prop :=
  ∃ pre h mid post, lines = pre ++ h :: (mid ++ l :: post) ∧ toLowerCase (trim h) = header ∧
    ∀ m ∈ mid ++ [l], isBracketed (toLowerCase (trim m)) = false

/-- A span of the section `header` holds a content line: a line that, trimmed,
is not empty and does not start with `#`. -/
def HasContent (toLowerCase : Str → Str) (header : Str) (lines : List Str) : Prop :=
  ∃ l, InSection toLowerCase header lines l ∧ trim l ≠ [] ∧ startsWith (trim l) "#" = false

/-- The errors `errs` are those of one required section of brand.txt: one
error when the header is absent, one other error when the header is there but
its spans hold no content line, none otherwise. -/
def SectionVerdict (toLowerCase : Str → Str) (lines : List Str)
    (header msgAbsent msgNoContent : Str) (errs : List Issue) : Prop :=
  (¬ HeaderPresent toLowerCase header lines → errs = [⟨msgAbsent, none⟩]) ∧
  (HeaderPresent toLowerCase header lines → ¬ HasContent toLowerCase header lines →
    errs = [⟨msgNoContent, none⟩]) ∧
  (HeaderPresent toLowerCase header lines → HasContent toLowerCase header lines → errs = [])

/-- The 1-based numbers of the lines whose trimmed text satisfies `p`; `i` is
the 0-based index of the first line of the list. -/
def numberedLines (p : Str → Bool) : Nat → List Str → List Nat
  | _, [] => []
  | i, l :: ls =>
    if p (trim l) then (i + 1) :: numberedLines p (i + 1) ls else numberedLines p (i + 1) ls

/-- Line `q` (1-based) is a question line: trimmed, it starts with `Q:` or
`**Q:`. -/
def IsQuestionLine (lines : List Str) (q : Nat) : Prop :=
  1 ≤ q ∧ q ≤ lines.length ∧
    (("Q:" : Str) <+: trim (lines.getD (q - 1) []) ∨
      ("**Q:" : Str) <+: trim (lines.getD (q - 1) []))

/-- Line `a` (1-based) is an answer line: trimmed, it starts with `A:` or
`**A:`. -/
def IsAnswerLine (lines : List Str) (a : Nat) : Prop :=
  1 ≤ a ∧ a ≤ lines.length ∧
    (("A:" : Str) <+: trim (lines.getD (a - 1) []) ∨
      ("**A:" : Str) <+: trim (lines.getD (a - 1) []))

/-- Line `q'` is the next question after line `q`: the first question line
below `q`. -/
def IsNextQuestion (lines : List Str) (q q' : Nat) : Prop :=
  IsQuestionLine lines q' ∧ q < q' ∧ ∀ r, IsQuestionLine lines r → q < r → q' ≤ r

/-- Some answer line `a` satisfies `q < a < q'`, where `q'` is the line of the
next question after `q`; when there is no next question the bound is the end
of the file. -/
def AnsweredBeforeNext (lines : List Str) (q : Nat) : Prop :=
  ∃ a, IsAnswerLine lines a ∧ q < a ∧ ∀ q', IsNextQuestion lines q q' → a < q'

/-- Answer `a` comes before every line of `qs` that is below `q`. -/
def beforeLater (qs : List Nat) (q a : Nat) : Bool :=
  qs.all fun q' => !decide (q < q') || decide (a < q')

/-! ## Cross-file validation -/

def msgCrossLlms : Str := "Essential tier: llms.txt (ADF-001) is missing"

def msgCrossAiTxt : Str := "Essential tier: ai.txt (ADF-004) is missing"

def msgCrossPermissions : Str :=
  "Both ai.txt and ai.json present — ensure permissions are consistent (manual check required)"

def msgCrossName : Str :=
  "Both llms.txt and identity.json present — ensure organisation name is consistent (manual check required)"

/-- The test `fileMap.has(type)` of `crossValidate`, after the loop that sets
`fileMap.set(r.type, r)` for every result `r`. -/
def fileMapHas (results : List ValidationResult) (type : Str) : Bool :=
  results.any fun r => r.type == type

/-- The function `crossValidate(results)`. -/
def crossValidate (results : List ValidationResult) : ValidationResult :=
  let crossResult := ValidationResult.new "(cross-file)" "cross-validation"
  let r1 :=
    if !fileMapHas results "llms-txt" then crossResult.warn msgCrossLlms none else crossResult
  let r2 := if !fileMapHas results "ai-txt" then r1.warn msgCrossAiTxt none else r1
  let r3 :=
    if fileMapHas results "ai-txt" && fileMapHas results "ai-json" then
      r2.warn msgCrossPermissions none
    else r2
  if fileMapHas results "llms-txt" && fileMapHas results "identity-json" then
    r3.warn msgCrossName none
  else r3

/-- The number 1 for a true test and 0 for a false one. -/
def indicator (b : Bool) : Nat :=
  if b then 1 else 0

/-! ## JSON values

A number is a double; it is embedded by its exact value, the fraction
`num / den`, with `den = 0` for the two infinities (`JSON.parse` never yields
`NaN`).  The validator never computes with numbers; it only compares them and
tests whether they are whole, and both are exact on doubles.

An object is embedded as the list of its own members, in the order of
`Object.keys`.  A bracket lookup `data[key]` also sees the members every
object inherits from `Object.prototype`, so that the values the schema
interpreter can meet are the JSON values, the inherited functions, and
`Object.prototype` itself (the value of an inherited `__proto__`). -/

/-- A JavaScript number, by its exact value `num / den`; `den = 0` stands for
`Infinity` (`num > 0`) and `-Infinity` (`num < 0`). -/
structure JsNumber where
  num : Int
  den : Nat
deriving DecidableEq, Repr

namespace JsNumber

/-- `Number.isInteger(x)`. -/
def isInteger (x : JsNumber) : Bool :=
  x.den != 0 && x.num % (x.den : Int) == 0

/-- `x === y` on numbers. -/
def strictEq (x y : JsNumber) : Bool :=
  if x.den == 0 || y.den == 0 then
    x.den == 0 && y.den == 0 &&
      ((decide (0 < x.num) && decide (0 < y.num)) || (decide (x.num < 0) && decide (y.num < 0)))
  else x.num * (y.den : Int) == y.num * (x.den : Int)

/-- `n < x` for a length `n`. -/
def natLt (n : Nat) (x : JsNumber) : Bool :=
  if x.den == 0 then decide (0 < x.num) else decide ((n : Int) * (x.den : Int) < x.num)

/-- The number is falsy: it is zero. -/
def isFalsy (x : JsNumber) : Bool :=
  x.num == 0

end JsNumber

/-- A value produced by `JSON.parse`. -/
inductive Json where
  | null
  | bool (b : Bool)
  | num (n : JsNumber)
  | str (s : Str)
  | arr (items : List Json)
  | obj (members : List (Str × Json))

/-- A value the schema interpreter can meet as `data`. -/
inductive JsValue where
  | json (value : Json)
  | inheritedFunction (key : Str)
  | objectPrototype

/-- An exception thrown by the engine. -/
inductive JsError where
  | nullProperty (key : Str)
  | nullKeys
  | invalidRegExp (pattern : Str)
  | stackOverflow
deriving DecidableEq, Repr

deriving instance DecidableEq for Except

/-- The built-in operations the validator uses and this development does not
spell out: `String(value)`, `new RegExp(pattern).test(text)` (`none` when the
pattern is not a regular expression and the constructor throws), and the
`message` of an exception. -/
structure JsEnv where
  display : JsValue → Str
  regExpTest : Str → Str → Option Bool
  errorMessage : JsError → Str

/-- `typeof value`. -/
def typeOf : JsValue → Str
  | .json .null => "object"
  | .json (.bool _) => "boolean"
  | .json (.num _) => "number"
  | .json (.str _) => "string"
  | .json (.arr _) => "object"
  | .json (.obj _) => "object"
  | .inheritedFunction _ => "function"
  | .objectPrototype => "object"

/-- `Array.isArray(value)`. -/
def isArray : JsValue → Bool
  | .json (.arr _) => true
  | _ => false

/-- The truthiness of a value; `none` is `undefined`. -/
def truthy : Option JsValue → Bool
  | none => false
  | some (.json .null) => false
  | some (.json (.bool b)) => b
  | some (.json (.num n)) => !n.isFalsy
  | some (.json (.str s)) => !s.isEmpty
  | some _ => true

/-- `data === c` for a constant `c` of a schema.  Data and schema come from
two calls of `JSON.parse`, so an array or an object is never identical to the
constant. -/
def strictEq : JsValue → Json → Bool
  | .json .null, .null => true
  | .json (.bool a), .bool b => a == b
  | .json (.num a), .num b => a.strictEq b
  | .json (.str a), .str b => a == b
  | _, _ => false

/-- The member `key` of an object with the own members `members`; `none` is
`undefined`. -/
def getMember (members : List (Str × Json)) (key : Str) : Option JsValue :=
  match members.lookup key with
  | some v => some (.json v)
  | none =>
    if key == ("__proto__" : Str) then some .objectPrototype
    else if objectPrototypeKeys.contains key then some (.inheritedFunction key)
    else none

/-- The lookup `data[key]`, for the values on which the validator performs
it (`typeof data === 'object'` and not an array): it throws a `TypeError` on
`null`. -/
def getProperty : JsValue → Str → Except JsError (Option JsValue)
  | .json (.obj members), key => .ok (getMember members key)
  | .json .null, key => .error (.nullProperty key)
  | .objectPrototype, key =>
    .ok (if key == ("__proto__" : Str) then some (.json .null)
      else if objectPrototypeKeys.contains key then some (.inheritedFunction key)
      else none)
  | _, _ => .ok none

/-- `Object.keys(data)`, for the same values: it throws a `TypeError` on
`null`, and `Object.prototype` has no enumerable member. -/
def ownKeys : JsValue → Except JsError (List Str)
  | .json (.obj members) => .ok (members.map Prod.fst)
  | .json .null => .error .nullKeys
  | _ => .ok []

/-- `s.length`: the number of UTF-16 code units. -/
def utf16Length (s : Str) : Nat :=
  (s.map fun c => if c.toNat < 65536 then 1 else 2).sum

/-- `s.replace(pat, rep)` for a string pattern: the first occurrence of `pat`
is replaced. -/
def replaceFirst (pat rep : Str) : Str → Str
  | [] => if pat.isEmpty then rep else []
  | c :: s =>
    if startsWith (c :: s) pat then rep ++ (c :: s).drop pat.length
    else c :: replaceFirst pat rep s

/-- A string when it is truthy, that is, not empty. -/
def truthyString : Option Str → Option Str
  | some (c :: s) => some (c :: s)
  | _ => none

/-! ## JSON Schema documents

A schema is embedded with its keywords typed as the supported vocabulary has
them.  A subschema that is not an object (`true`, `false`, a number...) makes
`validateJsonSchema` return no error, like the empty object schema, or counts
as absent where the interpreter tests its truthiness; both cases are covered
by the typed form. -/

/-- A schema node.  `additionalProperties` is `some false` for the value
`false`, `some true` for any other value, `none` when the keyword is absent;
`properties` lists the entries in the order of `Object.entries`; `defs` is the
keyword `$defs` and `ref` the keyword `$ref`. -/
inductive Schema where
  | mk (oneOf : Option (List Schema)) (ref : Option Str) (type : Option Str)
      (const : Option Json) (enum : Option (List Json)) (minLength : Option JsNumber)
      (pattern : Option Str) (required : Option (List Str))
      (properties : Option (List (Str × Schema))) (additionalProperties : Option Bool)
      (minItems : Option JsNumber) (items : Option Schema)
      (defs : Option (List (Str × Schema)))

namespace Schema

def oneOf : Schema → Option (List Schema)
  | mk o _ _ _ _ _ _ _ _ _ _ _ _ => o

def ref : Schema → Option Str
  | mk _ r _ _ _ _ _ _ _ _ _ _ _ => r

def type : Schema → Option Str
  | mk _ _ t _ _ _ _ _ _ _ _ _ _ => t

def const : Schema → Option Json
  | mk _ _ _ c _ _ _ _ _ _ _ _ _ => c

def enum : Schema → Option (List Json)
  | mk _ _ _ _ e _ _ _ _ _ _ _ _ => e

def minLength : Schema → Option JsNumber
  | mk _ _ _ _ _ m _ _ _ _ _ _ _ => m

def pattern : Schema → Option Str
  | mk _ _ _ _ _ _ p _ _ _ _ _ _ => p

def required : Schema → Option (List Str)
  | mk _ _ _ _ _ _ _ r _ _ _ _ _ => r

def properties : Schema → Option (List (Str × Schema))
  | mk _ _ _ _ _ _ _ _ p _ _ _ _ => p

def additionalProperties : Schema → Option Bool
  | mk _ _ _ _ _ _ _ _ _ a _ _ _ => a

def minItems : Schema → Option JsNumber
  | mk _ _ _ _ _ _ _ _ _ _ m _ _ => m

def items : Schema → Option Schema
  | mk _ _ _ _ _ _ _ _ _ _ _ i _ => i

def defs : Schema → Option (List (Str × Schema))
  | mk _ _ _ _ _ _ _ _ _ _ _ _ d => d

/-- The schema `{}`. -/
def empty : Schema :=
  mk none none none none none none none none none none none none none

end Schema

/-- An error of the schema interpreter, `{ path, message }`. -/
structure SchemaError where
  path : Str
  message : Str
deriving DecidableEq, Repr

/-- The outcome of `rootSchema.$defs?.[refPath]`. -/
inductive RefLookup where
  | resolved (schema : Schema)
  | inherited
  | unresolved

/-- The lookup `rootSchema.$defs?.[refPath]`: a definition of `$defs`, or a
member that `$defs` inherits from `Object.prototype` (truthy, and not a schema
with keywords), or `undefined`. -/
def resolveRef (rootSchema : Schema) (refPath : Str) : RefLookup :=
  match rootSchema.defs with
  | none => .unresolved
  | some defs =>
    match defs.lookup refPath with
    | some resolved => .resolved resolved
    | none => if objectPrototypeKeys.contains refPath then .inherited else .unresolved

/-! ## Messages of the schema interpreter -/

def msgOneOf : Str := "Value does not match any oneOf schema"

def msgUnresolvedRef (ref : Str) : Str := "Unresolved $ref: " ++ ref

def msgExpectedType (expected actualType : Str) : Str :=
  "Expected " ++ expected ++ ", got " ++ actualType

def msgConst (env : JsEnv) (c : Json) (data : JsValue) : Str :=
  "Expected constant \"" ++ env.display (.json c) ++ "\", got \"" ++ env.display data ++ "\""

/-- The text `list.join(', ')`: `null` is joined as the empty text. -/
def joinDisplay (env : JsEnv) (list : List Json) : Str :=
  (", " : Str).intercalate
    (list.map fun v => match v with
      | .null => []
      | v => env.display (.json v))

def msgEnum (env : JsEnv) (list : List Json) (data : JsValue) : Str :=
  "Value \"" ++ env.display data ++ "\" not in enum [" ++ joinDisplay env list ++ "]"

def msgMinLength (env : JsEnv) (length : Nat) (minLength : JsNumber) : Str :=
  "String length " ++ (Nat.repr length).toList ++ " < minLength " ++
    env.display (.json (.num minLength))

def msgPattern (pattern : Str) : Str :=
  "String does not match pattern \"" ++ pattern ++ "\""

def msgRequired (key : Str) : Str := "Required property \"" ++ key ++ "\" is missing"

def msgAdditional (key : Str) : Str := "Additional property \"" ++ key ++ "\" is not allowed"

def msgMinItems (env : JsEnv) (length : Nat) (minItems : JsNumber) : Str :=
  "Array length " ++ (Nat.repr length).toList ++ " < minItems " ++
    env.display (.json (.num minItems))

/-! ## Validators: the schema interpreter -/

/-- The path shown for a node: `path || '(root)'`. -/
def pathOrRoot (path : Str) : Str :=
  if path.isEmpty then "(root)" else path

/-- The path of a member: `path ? path + "." + key : key`. -/
def childPath (path key : Str) : Str :=
  if path.isEmpty then key else path ++ "." ++ key

/-- The path of an element: `path + "[" + i + "]"`. -/
def itemPath (path : Str) (i : Nat) : Str :=
  path ++ "[" ++ (Nat.repr i).toList ++ "]"

/-- The type check of `validateJsonSchema`: the error it pushes before
returning, if any. -/
def typeError (data : JsValue) (schema : Schema) (path : Str) : Option SchemaError :=
  match truthyString schema.type with
  | none => none
  | some t =>
    let actualType : Str := if isArray data then "array" else typeOf data
    if t == ("integer" : Str) then
      match data with
      | .json (.num n) =>
        if n.isInteger then none
        else some ⟨pathOrRoot path, msgExpectedType "integer" actualType⟩
      | _ => some ⟨pathOrRoot path, msgExpectedType "integer" actualType⟩
    else if actualType != t then some ⟨pathOrRoot path, msgExpectedType t actualType⟩
    else none

/-- The `const` check. -/
def constErrors (env : JsEnv) (data : JsValue) (schema : Schema) (path : Str) :
    List SchemaError :=
  match schema.const with
  | some c => if !strictEq data c then [⟨pathOrRoot path, msgConst env c data⟩] else []
  | none => []

/-- The `enum` check. -/
def enumErrors (env : JsEnv) (data : JsValue) (schema : Schema) (path : Str) :
    List SchemaError :=
  match schema.enum with
  | some list =>
    if !(list.any fun v => strictEq data v) then [⟨pathOrRoot path, msgEnum env list data⟩]
    else []
  | none => []

/-- The `minLength` check, for strings. -/
def minLengthErrors (env : JsEnv) (data : JsValue) (schema : Schema) (path : Str) :
    List SchemaError :=
  match data, schema.minLength with
  | .json (.str s), some m =>
    if m.natLt (utf16Length s) then [⟨pathOrRoot path, msgMinLength env (utf16Length s) m⟩]
    else []
  | _, _ => []

/-- The `pattern` check, for strings; the `RegExp` constructor may throw. -/
def patternErrors (env : JsEnv) (data : JsValue) (schema : Schema) (path : Str) :
    Except JsError (List SchemaError) :=
  match data, truthyString schema.pattern with
  | .json (.str s), some p =>
    match env.regExpTest p s with
    | none => .error (.invalidRegExp p)
    | some true => .ok []
    | some false => .ok [⟨pathOrRoot path, msgPattern p⟩]
  | _, _ => .ok []

/-- The loop over `schema.required`. -/
def requiredErrors (data : JsValue) (path : Str) : List Str → Except JsError (List SchemaError)
  | [] => .ok []
  | key :: rest =>
    match getProperty data key with
    | .error e => .error e
    | .ok value =>
      match requiredErrors data path rest with
      | .error e => .error e
      | .ok errs =>
        .ok (if value.isNone then ⟨childPath path key, msgRequired key⟩ :: errs else errs)

/-- The loop over `Object.entries(schema.properties)`; `validate` is the
recursive call. -/
def propertyErrors (validate : JsValue → Schema → Str → Except JsError (List SchemaError))
    (data : JsValue) (path : Str) :
    List (Str × Schema) → Except JsError (List SchemaError)
  | [] => .ok []
  | (key, propSchema) :: rest =>
    match getProperty data key with
    | .error e => .error e
    | .ok none => propertyErrors validate data path rest
    | .ok (some value) =>
      match validate value propSchema (childPath path key) with
      | .error e => .error e
      | .ok errs =>
        match propertyErrors validate data path rest with
        | .error e => .error e
        | .ok more => .ok (errs ++ more)

/-- The `additionalProperties` loop over `Object.keys(data)`. -/
def additionalErrors (data : JsValue) (path : Str) (properties : List (Str × Schema)) :
    Except JsError (List SchemaError) :=
  match ownKeys data with
  | .error e => .error e
  | .ok keys =>
    .ok ((keys.filter fun key => !(properties.map Prod.fst).contains key).map
      fun key => ⟨childPath path key, msgAdditional key⟩)

/-- The object validation block, entered when `schema.type === 'object'`,
`typeof data === 'object'` and `data` is not an array. -/
def objectErrors (validate : JsValue → Schema → Str → Except JsError (List SchemaError))
    (data : JsValue) (schema : Schema) (path : Str) : Except JsError (List SchemaError) :=
  if schema.type == some ("object" : Str) && typeOf data == ("object" : Str) && !isArray data then
    match (match schema.required with
      | some required => requiredErrors data path required
      | none => .ok []) with
    | .error e => .error e
    | .ok reqErrs =>
      match (match schema.properties with
        | some properties => propertyErrors validate data path properties
        | none => .ok []) with
      | .error e => .error e
      | .ok propErrs =>
        match (match schema.additionalProperties, schema.properties with
          | some false, some properties => additionalErrors data path properties
          | _, _ => .ok []) with
        | .error e => .error e
        | .ok addErrs => .ok (reqErrs ++ propErrs ++ addErrs)
  else .ok []

/-- The loop over the elements of an array; `i` is the index of the first
element of the list. -/
def itemErrors (validate : JsValue → Schema → Str → Except JsError (List SchemaError))
    (items : Schema) (path : Str) : Nat → List Json → Except JsError (List SchemaError)
  | _, [] => .ok []
  | i, x :: xs =>
    match validate (.json x) items (itemPath path i) with
    | .error e => .error e
    | .ok errs =>
      match itemErrors validate items path (i + 1) xs with
      | .error e => .error e
      | .ok more => .ok (errs ++ more)

/-- The array validation block, entered when `schema.type === 'array'` and
`data` is an array. -/
def arrayErrors (env : JsEnv)
    (validate : JsValue → Schema → Str → Except JsError (List SchemaError))
    (data : JsValue) (schema : Schema) (path : Str) : Except JsError (List SchemaError) :=
  match data with
  | .json (.arr xs) =>
    if schema.type == some ("array" : Str) then
      let minErrs : List SchemaError :=
        match schema.minItems with
        | some m =>
          if m.natLt xs.length then [⟨pathOrRoot path, msgMinItems env xs.length m⟩] else []
        | none => []
      match schema.items with
      | some items =>
        match itemErrors validate items path 0 xs with
        | .error e => .error e
        | .ok errs => .ok (minErrs ++ errs)
      | none => .ok minErrs
    else .ok []
  | _ => .ok []

/-- The test `schema.oneOf.some(sub => validate(sub).length === 0)`; `validate`
is the recursive call on the same data and path. -/
def oneOfSome (validate : Schema → Except JsError (List SchemaError)) :
    List Schema → Except JsError Bool
  | [] => .ok false
  | sub :: rest =>
    match validate sub with
    | .error e => .error e
    | .ok subErrors => if subErrors.length == 0 then .ok true else oneOfSome validate rest

/-- The checks of `validateJsonSchema` that follow the type check: `const`,
`enum`, `minLength`, `pattern`, the object block and the array block. -/
def checksAfterType (env : JsEnv)
    (validate : JsValue → Schema → Str → Except JsError (List SchemaError))
    (data : JsValue) (schema : Schema) (path : Str) : Except JsError (List SchemaError) :=
  match patternErrors env data schema path with
  | .error e => .error e
  | .ok patErrs =>
    match objectErrors validate data schema path with
    | .error e => .error e
    | .ok objErrs =>
      match arrayErrors env validate data schema path with
      | .error e => .error e
      | .ok arrErrs =>
        .ok (constErrors env data schema path ++ enumErrors env data schema path ++
          minLengthErrors env data schema path ++ patErrs ++ objErrs ++ arrErrs)

/-- The function `validateJsonSchema(data, schema, rootSchema, path)`.  The
first argument is the number of nested calls the call stack still holds: a
call that finds no room throws a `RangeError`. -/
def validateJsonSchema (env : JsEnv) :
    Nat → JsValue → Schema → Schema → Str → Except JsError (List SchemaError)
  | 0, _, _, _, _ => .error .stackOverflow
  | fuel + 1, data, schema, rootSchema, path =>
    match schema.oneOf with
    | some branches =>
      match oneOfSome (fun sub => validateJsonSchema env fuel data sub rootSchema path)
        branches with
      | .error e => .error e
      | .ok valid => .ok (if !valid then [⟨pathOrRoot path, msgOneOf⟩] else [])
    | none =>
      match truthyString schema.ref with
      | some ref =>
        match resolveRef rootSchema (replaceFirst "#/$defs/" "" ref) with
        | .resolved resolved => validateJsonSchema env fuel data resolved rootSchema path
        | .inherited => .ok []
        | .unresolved => .ok [⟨path, msgUnresolvedRef ref⟩]
      | none =>
        match typeError data schema path with
        | some err => .ok [err]
        | none =>
          checksAfterType env
            (fun value sub subPath => validateJsonSchema env fuel value sub rootSchema subPath)
            data schema path

/-! ## Validators: JSON files -/

def msgInvalidJson (message : Str) : Str := "Invalid JSON: " ++ message

def msgRootObject : Str := "Root value MUST be a JSON object"

def msgSchemaLoad (message : Str) : Str := "Could not load JSON Schema: " ++ message

def msgSchemaError (err : SchemaError) : Str := "Schema: " ++ err.path ++ " — " ++ err.message

def msgPropertyRequired (key : Str) : Str := "Property \"" ++ key ++ "\" is REQUIRED"

def msgPermissionsEmpty : Str := "Property \"permissions\" MUST NOT be empty"

/-- The schema file of the conventional name under the schema directory:
absent (`existsSync` is false), present but `readFileSync` or `JSON.parse`
throws an exception with the given message, or loaded. -/
inductive SchemaFile where
  | absent
  | unreadable (message : Str)
  | loaded (schema : Schema)

/-- The block "Try JSON Schema validation" of the two JSON validators.  An
exception thrown inside `validateJsonSchema` is caught by the same `catch`. -/
def schemaStep (env : JsEnv) (fuel : Nat) (data : JsValue) (schemaFile : SchemaFile)
    (result : ValidationResult) : ValidationResult :=
  match schemaFile with
  | .absent => result
  | .unreadable message => result.warn (msgSchemaLoad message) none
  | .loaded schema =>
    match validateJsonSchema env fuel data schema schema [] with
    | .ok schemaErrors =>
      schemaErrors.foldl (fun r err => r.error (msgSchemaError err) none) result
    | .error e => result.warn (msgSchemaLoad (env.errorMessage e)) none

/-- A structural check `if (!data.key) result.error(...)`. -/
def requireProperty (data : JsValue) (key : Str) (result : ValidationResult) :
    Except JsError ValidationResult :=
  match getProperty data key with
  | .error e => .error e
  | .ok value => .ok (if !truthy value then result.error (msgPropertyRequired key) none else result)

/-- The structural check of `permissions` in `validateAiJson`. -/
def requirePermissions (data : JsValue) (result : ValidationResult) :
    Except JsError ValidationResult :=
  match getProperty data "permissions" with
  | .error e => .error e
  | .ok value =>
    .ok (if !truthy value then result.error (msgPropertyRequired "permissions") none
      else
        match value with
        | some (.json (.arr [])) => result.error msgPermissionsEmpty none
        | _ => result)

/-- The function `validateAiJson(content, result, schemaDir)`; `parsed` is the
outcome of `JSON.parse(content)`, the message of the exception when it
throws. -/
def validateAiJson (env : JsEnv) (fuel : Nat) (parsed : Except Str Json)
    (result : ValidationResult) (schemaFile : SchemaFile) : Except JsError ValidationResult :=
  match parsed with
  | .error message => .ok (result.error (msgInvalidJson message) none)
  | .ok data =>
    if typeOf (.json data) != ("object" : Str) || isArray (.json data) then
      .ok (result.error msgRootObject none)
    else
      (requirePermissions (.json data) (schemaStep env fuel (.json data) schemaFile result)).bind
        fun r1 => (requireProperty (.json data) "restrictions" r1).bind
          fun r2 => (requireProperty (.json data) "name" r2).bind
            fun r3 => requireProperty (.json data) "url" r3

/-- The function `validateIdentityJson(content, result, schemaDir)`. -/
def validateIdentityJson (env : JsEnv) (fuel : Nat) (parsed : Except Str Json)
    (result : ValidationResult) (schemaFile : SchemaFile) : Except JsError ValidationResult :=
  match parsed with
  | .error message => .ok (result.error (msgInvalidJson message) none)
  | .ok data =>
    if typeOf (.json data) != ("object" : Str) || isArray (.json data) then
      .ok (result.error msgRootObject none)
    else
      (requireProperty (.json data) "name"
          (schemaStep env fuel (.json data) schemaFile result)).bind
        fun r1 => (requireProperty (.json data) "url" r1).bind
          fun r2 => (requireProperty (.json data) "type" r2).bind
            fun r3 => requireProperty (.json data) "description" r3

/-- An environment for concrete inputs: `String` on `null`, booleans, strings
and whole numbers, no regular expression, and the messages of the exceptions
as Node.js words them. -/
def sampleEnv : JsEnv where
  display := fun v =>
    match v with
    | .json .null => "null"
    | .json (.bool true) => "true"
    | .json (.bool false) => "false"
    | .json (.num n) => (toString (n.num / (n.den : Int))).toList
    | .json (.str s) => s
    | _ => "[object Object]"
  regExpTest := fun _ _ => some true
  errorMessage := fun e =>
    match e with
    | .nullProperty key => "Cannot read properties of null (reading \x27" ++ key ++ "\x27)"
    | .nullKeys => "Cannot convert undefined or null to object"
    | .invalidRegExp pattern => "Invalid regular expression: /" ++ pattern ++ "/"
    | .stackOverflow => "Maximum call stack size exceeded"
/-! ## Reference definitions for the schema interpreter -/

/-- The name `actualType` of `validateJsonSchema`: `'array'` for an array, the
`typeof` name otherwise. -/
def actualType (data : JsValue) : Str :=
  if isArray data then "array" else typeOf data

/-- The data does not have the declared type `t`: for `integer`, it is not a
whole number; otherwise `t` differs from the actual type. -/
def TypeMismatch (t : Str) (data : JsValue) : Prop :=
  if t = ("integer" : Str) then ¬ ∃ n, data = .json (.num n) ∧ n.isInteger = true
  else actualType data ≠ t

namespace Schema

/-- The schema `{"type": t}`. -/
def ofType (t : Str) : Schema :=
  mk none none (some t) none none none none none none none none none none

/-- The schema `{"type": "object", "required": keys}`. -/
def ofRequired (keys : List Str) : Schema :=
  mk none none (some "object") none none none none (some keys) none none none none none

/-- The schema `{"$defs": defs, "$ref": ref}`. -/
def ofRef (defs : List (Str × Schema)) (ref : Str) : Schema :=
  mk none (some ref) none none none none none none none none none none (some defs)

/-- The schema `{"type": t, "oneOf": branches}`. -/
def ofTypeOneOf (t : Str) (branches : List Schema) : Schema :=
  mk (some branches) none (some t) none none none none none none none none none none

/-- The schema `{"type": t, "const": c}`. -/
def ofTypeConst (t : Str) (c : Json) : Schema :=
  mk none none (some t) (some c) none none none none none none none none none

/-- The schema `{"type": "object", "properties": props}`. -/
def ofProperties (props : List (Str × Schema)) : Schema :=
  mk none none (some "object") none none none none none (some props) none none none none

end Schema

/-- The number `5`. -/
def five : Json := .num ⟨5, 1⟩

/-- The schema `{"oneOf": [{"type": "string"}, {"type": "number"}]}`. -/
def stringOrNumber : Schema :=
  .mk (some [Schema.ofType "string", Schema.ofType "number"]) none none none none none none none
    none none none none none

namespace Schema

/-- The schema `{"oneOf": branches}`. -/
def ofOneOf (branches : List Schema) : Schema :=
  mk (some branches) none none none none none none none none none none none none

end Schema

/-- The schema `{"type": "object", "required": ["name"], "properties":
{"name": {"type": "string", "minLength": 1}}}`. -/
def nameSchema : Schema :=
  .mk none none (some "object") none none none none (some ["name"])
    (some [("name", .mk none none (some "string") none none (some ⟨1, 1⟩) none none none none
      none none none)])
    none none none none

/-! ## Reference definitions for the JSON validators -/

/-- The outcome of the structural check of one key on a root object: the
error `Property "key" is REQUIRED` unless the member is truthy. -/
def requiredIssue (members : List (Str × Json)) (key : Str) : List Issue :=
  if truthy ((members.lookup key).map JsValue.json) then []
  else [⟨msgPropertyRequired key, none⟩]

/-- The outcome of the structural check of `permissions`: `MUST NOT be empty`
for the empty array, and the check of a required key otherwise. -/
def permissionsIssue (members : List (Str × Json)) : List Issue :=
  match members.lookup ("permissions" : Str) with
  | some (.arr []) => [⟨msgPermissionsEmpty, none⟩]
  | _ => requiredIssue members "permissions"

/-- The structural errors of `validateAiJson` on a root object. -/
def structuralAiJson (members : List (Str × Json)) : List Issue :=
  permissionsIssue members ++ requiredIssue members "restrictions" ++
    requiredIssue members "name" ++ requiredIssue members "url"

/-- The structural errors of `validateIdentityJson` on a root object. -/
def structuralIdentityJson (members : List (Str × Json)) : List Issue :=
  requiredIssue members "name" ++ requiredIssue members "url" ++
    requiredIssue members "type" ++ requiredIssue members "description"

/-- The value is falsy: `null`, `false`, zero or the empty text. -/
def IsFalsy : Json → Prop
  | .null => True
  | .bool b => b = false
  | .num n => n.num = 0
  | .str s => s = []
  | _ => False

/-- A root object with the four keys of `ai.json`, the name being empty. -/
def emptyNameDocument : List (Str × Json) :=
  [("permissions", .arr [.str "read"]), ("restrictions", .arr [.str "train"]),
    ("name", .str ""), ("url", .str "https://example.com")]

/-! ## Reference definitions for termination -/

/-- One step of the recursion of `validateJsonSchema` that keeps the data and
the path: from a node to a branch of its `oneOf`, or from a node without
`oneOf` to the definition that its `$ref` resolves to. -/
def SameDataStep (rootSchema schema next : Schema) : Prop :=
  (∃ branches, schema.oneOf = some branches ∧ next ∈ branches) ∨
    (schema.oneOf = none ∧ ∃ ref, truthyString schema.ref = some ref ∧
      resolveRef rootSchema (replaceFirst "#/$defs/" "" ref) = .resolved next)

/-- Following `oneOf` branches and `$ref` links on the same data always comes
to an end: no chain of such steps returns to a node it has visited. -/
def RefsWellFounded (rootSchema : Schema) : Prop :=
  WellFounded fun next schema => SameDataStep rootSchema schema next

/-- A computation that depends on the capacity of the call stack terminates:
from some capacity on, its outcome is the same and is not a stack overflow. -/
def Terminates {α : Type} (run : Nat → Except JsError α) : Prop :=
  ∃ (capacity : Nat) (outcome : Except JsError α),
    outcome ≠ .error .stackOverflow ∧ ∀ fuel, capacity ≤ fuel → run fuel = outcome

mutual
/-- The size of a JSON value; an object counts for two, as it also has
`Object.prototype` below it. -/
def jsonSize : Json → Nat
  | .arr items => 1 + jsonListSize items
  | .obj members => 2 + jsonMembersSize members
  | _ => 1
/-- The size of the elements of an array. -/
def jsonListSize : List Json → Nat
  | [] => 0
  | x :: xs => jsonSize x + jsonListSize xs
/-- The size of the members of an object. -/
def jsonMembersSize : List (Str × Json) → Nat
  | [] => 0
  | (_, v) :: ms => jsonSize v + jsonMembersSize ms
end

/-- The size of a value: it decreases from a value to its members and
elements. -/
def valueSize : JsValue → Nat
  | .json v => 2 * jsonSize v
  | .inheritedFunction _ => 0
  | .objectPrototype => 3

/-- The definition `{"$ref": "#/$defs/loop"}`. -/
def loopNode : Schema :=
  .mk none (some "#/$defs/loop") none none none none none none none none none none none

/-- The root schema `{"$defs": {"loop": {"$ref": "#/$defs/loop"}}, "$ref":
"#/$defs/loop"}`, whose definition refers to itself. -/
def selfReference : Schema :=
  Schema.ofRef [("loop", loopNode)] "#/$defs/loop"

/-- The root schema `{"$defs": {"text": {"type": "string"}}, "$ref":
"#/$defs/text"}`. -/
def textReference : Schema :=
  Schema.ofRef [("text", Schema.ofType "string")] "#/$defs/text"

/-! # Theorems -/

/-! ## Result helpers -/

theorem applyCalls_cons (r : ValidationResult) (c : Call) (calls : List Call) :
    applyCalls r (c :: calls) = applyCalls (applyCall r c) calls := rfl

theorem applyCalls_errors_eq_nil (calls : List Call) (r : ValidationResult) :
    (applyCalls r calls).errors = [] ↔ r.errors = [] ∧ ∀ c ∈ calls, c.isError = false := by
  induction calls generalizing r with
  | nil => simp [applyCalls]
  | cons c calls ih =>
    rw [applyCalls_cons, ih]
    cases c <;> simp [applyCall, ValidationResult.error, ValidationResult.warn, Call.isError]

theorem valid_iff_errors_nil (r : ValidationResult) : r.valid = true ↔ r.errors = [] := by
  simp [ValidationResult.valid, List.length_eq_zero]

/-- C1: on every result reached from a fresh one by `error()` and `warn()`
calls, `valid` holds exactly when the errors list is empty, which is exactly
when no `error()` call was made; a further `warn()` changes neither `valid`
nor the errors, and a further `error()` makes `valid` false and leaves the
warnings unchanged. -/
theorem valid_iff_no_errors (file type : Str) (calls : List Call) :
    ((applyCalls (ValidationResult.new file type) calls).valid = true ↔
      (applyCalls (ValidationResult.new file type) calls).errors = []) ∧
    ((applyCalls (ValidationResult.new file type) calls).valid = true ↔
      ∀ c ∈ calls, c.isError = false) ∧
    (∀ m l,
      ((applyCalls (ValidationResult.new file type) calls).warn m l).valid =
        (applyCalls (ValidationResult.new file type) calls).valid ∧
      ((applyCalls (ValidationResult.new file type) calls).warn m l).errors =
        (applyCalls (ValidationResult.new file type) calls).errors) ∧
    (∀ m l,
      ((applyCalls (ValidationResult.new file type) calls).error m l).valid = false ∧
      ((applyCalls (ValidationResult.new file type) calls).error m l).warnings =
        (applyCalls (ValidationResult.new file type) calls).warnings) := by
  refine ⟨valid_iff_errors_nil _, ?_, ?_, ?_⟩
  · rw [valid_iff_errors_nil, applyCalls_errors_eq_nil]
    simp [ValidationResult.new]
  · intro m l
    simp [ValidationResult.warn, ValidationResult.valid]
  · intro m l
    simp [ValidationResult.error, ValidationResult.valid]

/-! ## String primitives -/

theorem startsWith_iff (s p : Str) : startsWith s p = true ↔ p <+: s := by
  induction s generalizing p with
  | nil => cases p <;> simp [startsWith]
  | cons c s ih =>
    cases p with
    | nil => simp [startsWith]
    | cons d p =>
      simp only [startsWith, Bool.and_eq_true, beq_iff_eq, ih, List.cons_prefix_cons]
      constructor
      · rintro ⟨h1, h2⟩
        exact ⟨h1.symm, h2⟩
      · rintro ⟨h1, h2⟩
        exact ⟨h1.symm, h2⟩

theorem endsWith_iff (s p : Str) : endsWith s p = true ↔ p <:+ s := by
  rw [endsWith, startsWith_iff, List.reverse_prefix]

theorem includes_iff (s t : Str) : includes s t = true ↔ t <:+: s := by
  induction s with
  | nil => cases t <;> simp [includes]
  | cons c s ih =>
    simp only [includes, Bool.or_eq_true, ih, startsWith_iff, List.infix_cons_iff]

theorem includes_of_endsWith_cons (s t : Str) (c : Char) (h : endsWith s (c :: t) = true) :
    includes s t = true := by
  rw [endsWith_iff] at h
  rw [includes_iff]
  exact ((List.suffix_cons c t).trans h).isInfix

theorem endsWith_or_includes (s t : Str) (c : Char) :
    (endsWith s (c :: t) || includes s t) = includes s t := by
  cases h : endsWith s (c :: t)
  · simp
  · simp [includes_of_endsWith_cons s t c h]

/-! ## Type detection -/

theorem dropWhile_slash_eq_self (l : Str) (hs : '/' ∉ l) :
    List.dropWhile (fun x => x == '/') l = l := by
  cases l with
  | nil => rfl
  | cons c r =>
    have hb : (c == '/') = false := by
      simp only [beq_eq_false_iff_ne, ne_eq]
      intro h
      apply hs
      simp [h]
    simp [List.dropWhile, hb]

theorem takeWhile_not_slash_append (l r : Str) (hs : '/' ∉ l) :
    List.takeWhile (fun x => x != '/') (l ++ '/' :: r) = l := by
  have hall : ∀ a ∈ l, (a != '/') = true := by
    intro a ha
    simp only [bne_iff_ne, ne_eq]
    intro h
    apply hs
    rw [h] at ha
    exact ha
  rw [List.takeWhile_append_of_pos hall]
  simp

theorem basename_dir_slash (dir k : Str) (hk : k ≠ []) (hs : '/' ∉ k) :
    basename (dir ++ '/' :: k) = k := by
  have hs' : '/' ∉ k.reverse := by simpa using hs
  obtain ⟨c, r, hr⟩ := List.exists_cons_of_ne_nil (by simpa using hk : k.reverse ≠ [])
  have h1 : (dir ++ '/' :: k).reverse = k.reverse ++ '/' :: dir.reverse := by simp
  have h2 : List.dropWhile (fun x => x == '/') (k.reverse ++ '/' :: dir.reverse) =
      k.reverse ++ '/' :: dir.reverse := by
    have := dropWhile_slash_eq_self k.reverse hs'
    rw [hr] at this ⊢
    have hb : (c == '/') = false := by
      simp only [beq_eq_false_iff_ne, ne_eq]
      intro h
      apply hs'
      simp [hr, h]
    simp [List.dropWhile, hb]
  unfold basename
  rw [h1, h2, takeWhile_not_slash_append _ _ hs']
  simp

theorem basename_of_no_slash (s : Str) (hs : '/' ∉ s) : basename s = s := by
  have hs' : '/' ∉ s.reverse := by simpa using hs
  have hall : ∀ a ∈ s.reverse, (a != '/') = true := by
    intro a ha
    simp only [bne_iff_ne, ne_eq]
    intro h
    apply hs'
    rw [h] at ha
    exact ha
  unfold basename
  rw [dropWhile_slash_eq_self _ hs', List.takeWhile_eq_self_iff.2 hall]
  simp

theorem registry_keys_plain : ∀ kv ∈ FILE_TYPES, kv.1 ≠ [] ∧ '/' ∉ kv.1 := by decide

theorem registry_lookup : ∀ kv ∈ FILE_TYPES, lookupFileType kv.1 = some kv.2 := by decide

theorem detectType_of_lookup (f : Str) (e : FileTypeEntry)
    (h : lookupFileType (basename f) = some e) : detectType f = some e.type := by
  simp [detectType, h]

/-- C2: for each of the ten canonical filenames of the registry, alone or
preceded by any directory path and a slash, `detectType` returns exactly the
type tag the registry gives for that filename. -/
theorem detectType_canonical (kv : Str × FileTypeEntry) (hkv : kv ∈ FILE_TYPES) (dir : Str) :
    detectType kv.1 = some kv.2.type ∧ detectType (dir ++ '/' :: kv.1) = some kv.2.type := by
  obtain ⟨h1, h2⟩ := registry_keys_plain kv hkv
  constructor
  · apply detectType_of_lookup
    rw [basename_of_no_slash _ h2]
    exact registry_lookup kv hkv
  · apply detectType_of_lookup
    rw [basename_dir_slash _ _ h1 h2]
    exact registry_lookup kv hkv

theorem detectType_canonical_witness :
    detectType ("faq-ai.txt" : Str) = some ("faq-ai-txt" : Str) ∧
      detectType (("/var/www" : Str) ++ '/' :: ("faq-ai.txt" : Str)) = some ("faq-ai-txt" : Str) :=
  detectType_canonical
    ("faq-ai.txt", ⟨"ADF-008", "faq-ai-txt", "recommended"⟩) (by decide) "/var/www"

theorem sortedEntries_eq :
    sortedEntries =
      [ ("developer-ai.txt".toList, ⟨"ADF-009".toList, "developer-ai-txt".toList, "complete".toList⟩),
        ("identity.json".toList, ⟨"ADF-006".toList, "identity-json".toList, "recommended".toList⟩),
        ("robots-ai.txt".toList, ⟨"ADF-010".toList, "robots-ai-txt".toList, "complete".toList⟩),
        ("faq-ai.txt".toList, ⟨"ADF-008".toList, "faq-ai-txt".toList, "recommended".toList⟩),
        ("llms.html".toList, ⟨"ADF-003".toList, "llms-html".toList, "complete".toList⟩),
        ("brand.txt".toList, ⟨"ADF-007".toList, "brand-txt".toList, "recommended".toList⟩),
        ("llms.txt".toList, ⟨"ADF-001".toList, "llms-txt".toList, "essential".toList⟩),
        ("llm.txt".toList, ⟨"ADF-002".toList, "llm-txt".toList, "complete".toList⟩),
        ("ai.json".toList, ⟨"ADF-005".toList, "ai-json".toList, "recommended".toList⟩),
        ("ai.txt".toList, ⟨"ADF-004".toList, "ai-txt".toList, "essential".toList⟩) ] := by
  decide

theorem detectLoop_eq_find (base : Str) (l : List (Str × FileTypeEntry)) :
    detectLoop base l = (l.find? fun kv => includes base kv.1).map fun kv => kv.2.type := by
  induction l with
  | nil => rfl
  | cons kv rest ih =>
    obtain ⟨k, e⟩ := kv
    simp only [detectLoop, endsWith_or_includes, List.find?, ih]
    cases includes base k <;> simp

theorem lookupFileType_mem (base : Str) (e : FileTypeEntry)
    (h : lookupFileType base = some e) : (base, e) ∈ FILE_TYPES := by
  unfold lookupFileType at h
  cases hf : List.find? (fun kv => kv.1 == base) FILE_TYPES with
  | none => simp [hf] at h
  | some kv =>
    rw [hf] at h
    have h1 := List.find?_some hf
    have h2 := List.mem_of_find?_eq_some hf
    simp only [Option.map_some', Option.some.injEq] at h
    simp only [beq_iff_eq] at h1
    obtain ⟨k, e'⟩ := kv
    simp only at h h1
    subst h h1
    exact h2

theorem detectLoop_registry_key :
    ∀ kv ∈ FILE_TYPES, detectLoop kv.1 sortedEntries = some kv.2.type := by
  decide

theorem detectLoop_prototype_key :
    ∀ k ∈ objectPrototypeKeys, detectLoop k sortedEntries = none := by
  decide

/-- The exact-match step never changes the result: `detectType` is the loop
over the sorted entries applied to the base name. -/
theorem detectType_eq_loop (f : Str) : detectType f = detectLoop (basename f) sortedEntries := by
  cases h : lookupFileType (basename f) with
  | some e =>
    have := detectLoop_registry_key _ (lookupFileType_mem _ _ h)
    simp only at this
    simp only [detectType, h, this]
  | none =>
    by_cases hp : objectPrototypeKeys.contains (basename f) = true
    · have hp' : basename f ∈ objectPrototypeKeys := by simpa using hp
      simp only [detectType, h, hp, detectLoop_prototype_key _ hp', if_true]
    · simp only [detectType, h, hp, if_false, Bool.false_eq_true]

theorem find_eq_longestOccurring (base : Str) :
    ((sortedEntries.find? fun kv => includes base kv.1).map fun kv => kv.2.type) =
      (longestOccurring base FILE_TYPES).map fun kv => kv.2.type := by
  rw [sortedEntries_eq]
  simp only [List.find?, longestOccurring, FILE_TYPES]
  generalize includes base "developer-ai.txt".toList = b1
  generalize includes base "identity.json".toList = b2
  generalize includes base "robots-ai.txt".toList = b3
  generalize includes base "faq-ai.txt".toList = b4
  generalize includes base "llms.html".toList = b5
  generalize includes base "brand.txt".toList = b6
  generalize includes base "llms.txt".toList = b7
  generalize includes base "llm.txt".toList = b8
  generalize includes base "ai.json".toList = b9
  generalize includes base "ai.txt".toList = b10
  revert b1 b2 b3 b4 b5 b6 b7 b8 b9 b10
  decide

theorem sortedEntries_split :
    ∀ kv ∈ FILE_TYPES,
      sortedEntries =
          sortedEntries.takeWhile (fun a => a != kv) ++
            kv :: (sortedEntries.dropWhile fun a => a != kv).tail ∧
        ∀ a ∈ sortedEntries.takeWhile (fun a => a != kv),
          a ∈ FILE_TYPES ∧ triedBefore a kv = true := by
  decide

theorem includes_append_cons (p k : Str) (c : Char) : includes (p ++ c :: k) k = true := by
  rw [includes_iff]
  exact ⟨p ++ [c], [], by simp⟩

/-- C3, as the code has it: for a registry filename `k` and a prefix `p` without
a path separator, `detectType(p + "-" + k)` is the type tag of `k` whenever no
registry filename tried before `k` (a longer one, or one as long and listed
earlier) occurs in `p + "-" + k`. -/
theorem detectType_dash_name (kv : Str × FileTypeEntry) (hkv : kv ∈ FILE_TYPES) (p : Str)
    (hp : '/' ∉ p)
    (hfirst : ∀ a ∈ FILE_TYPES, triedBefore a kv = true → includes (p ++ '-' :: kv.1) a.1 = false) :
    detectType (p ++ '-' :: kv.1) = some kv.2.type := by
  have hslash : '/' ∉ p ++ '-' :: kv.1 := by
    have h2 := (registry_keys_plain kv hkv).2
    simp only [List.mem_append, List.mem_cons, not_or]
    exact ⟨hp, by decide, h2⟩
  rw [detectType_eq_loop, basename_of_no_slash _ hslash, detectLoop_eq_find]
  obtain ⟨hsplit, hbefore⟩ := sortedEntries_split kv hkv
  have hfind : (sortedEntries.find? fun a => includes (p ++ '-' :: kv.1) a.1) = some kv := by
    rw [List.find?_eq_some]
    refine ⟨includes_append_cons _ _ _, _, _, hsplit, ?_⟩
    intro a ha
    obtain ⟨h1, h2⟩ := hbefore a ha
    simp [hfirst a h1 h2]
  rw [hfind]
  rfl

theorem detectType_dash_name_witness :
    detectType (("missing-h1" : Str) ++ '-' :: ("llms.txt" : Str)) = some ("llms-txt" : Str) :=
  detectType_dash_name ("llms.txt", ⟨"ADF-001", "llms-txt", "essential"⟩) (by decide)
    "missing-h1" (by decide) (by decide)

/-- The second example of C3: `custom-faq-ai.txt` is a `faq-ai-txt` file. -/
theorem detectType_custom_faq :
    detectType ("custom-faq-ai.txt" : Str) = some ("faq-ai-txt" : Str) := by
  decide

/-- C3 as stated fails: with the prefix `faq` and the registry filename
`ai.txt`, the name `faq-ai.txt` is detected as `faq-ai-txt`, not `ai-txt`. -/
theorem detectType_dash_name_counterexample :
    ¬ ∀ kv ∈ FILE_TYPES, ∀ p : Str, '/' ∉ p →
        detectType (p ++ '-' :: kv.1) = some kv.2.type := by
  intro h
  have h1 := h ("ai.txt", ⟨"ADF-004", "ai-txt", "essential"⟩) (by decide) "faq" (by decide)
  revert h1
  decide

/-- C4: `detectType` equals the reference detection (the type of the longest
registry filename occurring in the base name, ties to the one listed first);
it returns nothing exactly when no registry filename occurs in the base name;
and it equals the first hit of the plain substring test over the sorted
entries, so that neither the exact-match step nor the suffix test changes the
result.  For example `myfaq-ai.txt-notes` is detected as `faq-ai-txt`. -/
theorem detectType_eq_ref (f : Str) :
    detectType f = detectTypeRef f ∧
    (detectType f = none ↔ ∀ kv ∈ FILE_TYPES, includes (basename f) kv.1 = false) ∧
    detectType f =
      ((sortedEntries.find? fun kv => includes (basename f) kv.1).map fun kv => kv.2.type) ∧
    detectType ("myfaq-ai.txt-notes" : Str) = some ("faq-ai-txt" : Str) := by
  have hloop : detectType f =
      ((sortedEntries.find? fun kv => includes (basename f) kv.1).map fun kv => kv.2.type) := by
    rw [detectType_eq_loop, detectLoop_eq_find]
  refine ⟨?_, ?_, hloop, by decide⟩
  · rw [hloop, find_eq_longestOccurring]
    rfl
  · rw [hloop, Option.map_eq_none', List.find?_eq_none]
    have hperm : ∀ kv, kv ∈ sortedEntries ↔ kv ∈ FILE_TYPES := by
      intro kv
      exact (List.perm_insertionSort _ FILE_TYPES).mem_iff
    constructor
    · intro h kv hkv
      have := h kv ((hperm kv).2 hkv)
      simpa using this
    · intro h kv hkv
      have := h kv ((hperm kv).1 hkv)
      simp [this]

/-! ## Validators: the empty-file check -/

theorem trim_eq_nil_of_whiteSpace (s : Str) (h : ∀ c ∈ s, isWhiteSpace c = true) :
    trim s = [] := by
  have h1 : s.dropWhile isWhiteSpace = [] := List.dropWhile_eq_nil_iff.2 h
  simp [trim, h1]

theorem split_ne_nil (sep : Char) (s : Str) : split sep s ≠ [] := by
  cases s with
  | nil => simp [split]
  | cons c s =>
    simp only [split]
    split
    · simp
    · split <;> simp

theorem mem_of_mem_split (sep : Char) (s : Str) :
    ∀ l ∈ split sep s, ∀ c ∈ l, c ∈ s := by
  induction s with
  | nil => simp [split]
  | cons d s ih =>
    intro l hl c hc
    simp only [split] at hl
    split at hl
    · rcases List.mem_cons.1 hl with rfl | hl
      · simp at hc
      · exact List.mem_cons_of_mem _ (ih l hl c hc)
    · split at hl
      · next hnil => exact absurd hnil (split_ne_nil sep s)
      · next l0 ls heq =>
        rcases List.mem_cons.1 hl with rfl | hl
        · rcases List.mem_cons.1 hc with rfl | hc
          · simp
          · exact List.mem_cons_of_mem _ (ih l0 (by rw [heq]; simp) c hc)
        · exact List.mem_cons_of_mem _ (ih l (by rw [heq]; simp [hl]) c hc)

theorem findIndex_eq_none (p : Str → Bool) (lines : List Str) :
    findIndex p lines = none ↔ ∀ l ∈ lines, p l = false := by
  induction lines with
  | nil => simp [findIndex]
  | cons l ls ih =>
    simp only [findIndex, List.mem_cons, forall_eq_or_imp]
    cases hp : p l <;> simp [ih]

theorem findIndex_blank (content : Str) (h : ∀ c ∈ content, isWhiteSpace c = true) :
    findIndex (fun l => decide (0 < (trim l).length)) (split '\n' content) = none := by
  rw [findIndex_eq_none]
  intro l hl
  have : trim l = [] :=
    trim_eq_nil_of_whiteSpace l fun c hc => h c (mem_of_mem_split _ _ l hl c hc)
  simp [this]

/-- C5: each of the seven validators with an explicit empty-file check, run
on a fresh result with a content that is empty or all whitespace, leaves
exactly one error, `File is empty`, and no warning. -/
theorem empty_file_single_error (toLowerCase : Str → Str) (file type content : Str)
    (h : ∀ c ∈ content, isWhiteSpace c = true) :
    validateLlmsTxt toLowerCase content (ValidationResult.new file type) =
        ⟨file, type, [⟨msgFileIsEmpty, none⟩], []⟩ ∧
      validateLlmTxt content (ValidationResult.new file type) =
        ⟨file, type, [⟨msgFileIsEmpty, none⟩], []⟩ ∧
      validateAiTxt toLowerCase content (ValidationResult.new file type) =
        ⟨file, type, [⟨msgFileIsEmpty, none⟩], []⟩ ∧
      validateBrandTxt toLowerCase content (ValidationResult.new file type) =
        ⟨file, type, [⟨msgFileIsEmpty, none⟩], []⟩ ∧
      validateFaqAiTxt content (ValidationResult.new file type) =
        ⟨file, type, [⟨msgFileIsEmpty, none⟩], []⟩ ∧
      validateDeveloperAiTxt toLowerCase content (ValidationResult.new file type) =
        ⟨file, type, [⟨msgFileIsEmpty, none⟩], []⟩ ∧
      validateRobotsAiTxt toLowerCase content (ValidationResult.new file type) =
        ⟨file, type, [⟨msgFileIsEmpty, none⟩], []⟩ := by
  have h1 := findIndex_blank content h
  have h2 : trim content = [] := trim_eq_nil_of_whiteSpace content h
  refine ⟨?_, ?_, ?_, ?_, ?_, ?_, ?_⟩
  · simp only [validateLlmsTxt, h1]
    rfl
  · simp only [validateLlmTxt, h1]
    rfl
  · simp [validateAiTxt, h2, ValidationResult.error, ValidationResult.new]
  · simp [validateBrandTxt, h2, ValidationResult.error, ValidationResult.new]
  · simp [validateFaqAiTxt, h2, ValidationResult.error, ValidationResult.new]
  · simp [validateDeveloperAiTxt, h2, ValidationResult.error, ValidationResult.new]
  · simp [validateRobotsAiTxt, h2, ValidationResult.error, ValidationResult.new]

theorem empty_file_single_error_witness :
    (∀ c ∈ (" \n\t \n" : Str), isWhiteSpace c = true) ∧
      validateFaqAiTxt (" \n\t \n" : Str) (ValidationResult.new "faq-ai.txt" "faq-ai-txt") =
        ⟨"faq-ai.txt", "faq-ai-txt", [⟨msgFileIsEmpty, none⟩], []⟩ :=
  ⟨by decide,
    (empty_file_single_error asciiLower "faq-ai.txt" "faq-ai-txt" " \n\t \n" (by decide)).2.2.2.2.1⟩

/-! ## Validators: llms.txt -/

theorem findIndex_eq_some (p : Str → Bool) (lines : List Str) (i : Nat) :
    findIndex p lines = some i ↔
      i < lines.length ∧ p (lines.getD i []) = true ∧ ∀ j < i, p (lines.getD j []) = false := by
  induction lines generalizing i with
  | nil => simp [findIndex]
  | cons l ls ih =>
    simp only [findIndex]
    cases hp : p l
    · cases i with
      | zero => simp [hp]
      | succ i =>
        simp only [Bool.false_eq_true, if_false, Option.map_eq_some', Nat.add_right_cancel_iff,
          exists_eq_right, ih, List.length_cons, Nat.add_lt_add_iff_right, List.getD_cons_succ]
        constructor
        · rintro ⟨h1, h2, h3⟩
          refine ⟨h1, h2, ?_⟩
          intro j hj
          cases j with
          | zero => simpa using hp
          | succ j => simpa using h3 j (by omega)
        · rintro ⟨h1, h2, h3⟩
          refine ⟨h1, h2, ?_⟩
          intro j hj
          simpa using h3 (j + 1) (by omega)
    · cases i with
      | zero => simp [hp]
      | succ i =>
        simp only [if_true, Option.some.injEq, List.length_cons, List.getD_cons_succ]
        constructor
        · intro h
          omega
        · rintro ⟨_, _, h3⟩
          have := h3 0 (by omega)
          simp [hp] at this

theorem findIndex_nonBlank_iff (lines : List Str) (i : Nat) :
    findIndex (fun l => decide (0 < (trim l).length)) lines = some i ↔ IsFirstNonBlank lines i := by
  rw [findIndex_eq_some]
  simp [IsFirstNonBlank, List.length_pos]

theorem trim_reverse_head (s : Str) (c : Char) (r : Str) (h : (trim s).reverse = c :: r) :
    isWhiteSpace c = false := by
  have h1 := List.head?_dropWhile_not isWhiteSpace (s.dropWhile isWhiteSpace).reverse
  simp only [trim, List.reverse_reverse] at h
  rw [h] at h1
  simpa using h1

/-- The branch for an empty H1 text is dead: a trimmed line that starts with
`"# "` is neither `"#"` nor `"# "`. -/
theorem h1_text_branch_dead (s : Str) (h : startsWith (trim s) "# " = true) :
    (trim s == ("#" : Str) || trim s == ("# " : Str)) = false := by
  rw [Bool.or_eq_false_iff]
  constructor
  · rw [beq_eq_false_iff_ne]
    intro h1
    rw [h1] at h
    revert h
    decide
  · rw [beq_eq_false_iff_ne]
    intro h1
    have := trim_reverse_head s ' ' ['#'] (by rw [h1]; rfl)
    revert this
    decide

theorem h2LinesFrom_map_fst (i : Nat) (lines : List Str) :
    (h2LinesFrom i lines).map Prod.fst = lines.filter fun l => startsWith (trim l) "## " := by
  induction lines generalizing i with
  | nil => rfl
  | cons l ls ih =>
    simp only [h2LinesFrom, List.filter]
    cases h : startsWith (trim l) "## " <;> simp [ih]

theorem sectionNames_any (toLowerCase : Str → Str) (lines : List Str) (name : Str) :
    (((h2LinesFrom 0 lines).map fun p => toLowerCase (stripH2 (trim p.1))).any
        fun s => includes s name) = true ↔ HasSection toLowerCase lines name := by
  have h1 : ((h2LinesFrom 0 lines).map fun p => toLowerCase (stripH2 (trim p.1))) =
      ((h2LinesFrom 0 lines).map Prod.fst).map fun l => toLowerCase (stripH2 (trim l)) := by
    simp
  rw [h1, h2LinesFrom_map_fst]
  simp only [List.any_eq_true, List.mem_map, List.mem_filter, HasSection]
  constructor
  · rintro ⟨s, ⟨l, ⟨hl, hh2⟩, rfl⟩, hinc⟩
    refine ⟨l, hl, hh2, ?_⟩
    rw [stripH2, if_pos hh2] at hinc
    exact hinc
  · rintro ⟨l, hl, hh2, hinc⟩
    refine ⟨_, ⟨l, ⟨hl, hh2⟩, rfl⟩, ?_⟩
    rw [stripH2, if_pos hh2]
    exact hinc

theorem h2Lines_ne_nil_of_hasSection (toLowerCase : Str → Str) (lines : List Str) (name : Str)
    (h : HasSection toLowerCase lines name) : (h2LinesFrom 0 lines).length ≠ 0 := by
  obtain ⟨l, hl, hh2, _⟩ := h
  intro h0
  have h1 : (h2LinesFrom 0 lines).map Prod.fst = [] := by
    rw [List.length_eq_zero.1 h0]
    rfl
  rw [h2LinesFrom_map_fst, List.filter_eq_nil_iff] at h1
  exact h1 l hl hh2


theorem error_errors (r : ValidationResult) (m : Str) (l : Option Nat) :
    (r.error m l).errors = r.errors ++ [⟨m, l⟩] := rfl

theorem error_warnings (r : ValidationResult) (m : Str) (l : Option Nat) :
    (r.error m l).warnings = r.warnings := rfl

theorem warn_errors (r : ValidationResult) (m : Str) (l : Option Nat) :
    (r.warn m l).errors = r.errors := rfl

theorem warn_warnings (r : ValidationResult) (m : Str) (l : Option Nat) :
    (r.warn m l).warnings = r.warnings ++ [⟨m, l⟩] := rfl

theorem ite_errors (c : Prop) [Decidable c] (a b : ValidationResult) :
    (if c then a else b).errors = if c then a.errors else b.errors := by
  split <;> rfl

theorem ite_warnings (c : Prop) [Decidable c] (a b : ValidationResult) :
    (if c then a else b).warnings = if c then a.warnings else b.warnings := by
  split <;> rfl

/-- The errors of `validateLlmsTxt` on a content whose first non-blank line
is line `i`. -/
theorem validateLlmsTxt_errors (toLowerCase : Str → Str) (content : Str)
    (result : ValidationResult) (i : Nat) (hi : IsFirstNonBlank (split '\n' content) i) :
    (validateLlmsTxt toLowerCase content result).errors =
      result.errors ++
        (if startsWith (trim ((split '\n' content).getD i [])) "# " = true then []
          else [⟨msgLlmsH1, some (i + 1)⟩]) ++
        (if ((split '\n' content).any fun l => startsWith (trim l) "> ") = true then []
          else [⟨msgLlmsBlockquote, none⟩]) := by
  have hfind := (findIndex_nonBlank_iff _ _).2 hi
  simp only [validateLlmsTxt, hfind, recommended, List.foldl, ite_errors, warn_errors,
    error_errors, ite_self]
  by_cases hs : startsWith (trim ((split '\n' content).getD i [])) "# " = true
  · have hd := h1_text_branch_dead _ hs
    simp only [hs, hd]
    cases (split '\n' content).any fun l => startsWith (trim l) "> " <;>
      simp only [Bool.not_true, Bool.not_false, Bool.false_eq_true, if_true, if_false,
        List.append_nil, List.append_assoc]
  · simp only [hs]
    cases (split '\n' content).any fun l => startsWith (trim l) "> " <;>
      simp only [Bool.not_true, Bool.not_false, Bool.false_eq_true, if_true, if_false,
        List.append_nil, List.append_assoc, Bool.not_eq_true]

/-- The warnings of `validateLlmsTxt` on a content with a non-blank line: none
exactly when each recommended section is found. -/
theorem validateLlmsTxt_warnings_nil (toLowerCase : Str → Str) (content : Str)
    (file type : Str) (i : Nat) (hi : IsFirstNonBlank (split '\n' content) i) :
    (validateLlmsTxt toLowerCase content (ValidationResult.new file type)).warnings = [] ↔
      ∀ name ∈ recommended, HasSection toLowerCase (split '\n' content) name := by
  have hfind := (findIndex_nonBlank_iff _ _).2 hi
  have ha := sectionNames_any toLowerCase (split '\n' content) "about"
  have hb := sectionNames_any toLowerCase (split '\n' content) "services"
  have hc := sectionNames_any toLowerCase (split '\n' content) "contact"
  have hne := h2Lines_ne_nil_of_hasSection toLowerCase (split '\n' content) "about"
  simp only [recommended, List.mem_cons, List.mem_singleton, forall_eq_or_imp, forall_eq,
    List.not_mem_nil, IsEmpty.forall_iff, implies_true, and_true]
  rw [← ha, ← hb, ← hc]
  rw [← ha] at hne
  simp only [validateLlmsTxt, hfind, recommended, List.foldl, ite_warnings, warn_warnings,
    error_warnings, ite_self]
  have hnew : (ValidationResult.new file type).warnings = [] := rfl
  rw [hnew]
  generalize (List.map (fun p => toLowerCase (stripH2 (trim p.1))) (h2LinesFrom 0 (split '\n' content))).any
    (fun s => includes s "about") = a at *
  generalize (List.map (fun p => toLowerCase (stripH2 (trim p.1))) (h2LinesFrom 0 (split '\n' content))).any
    (fun s => includes s "services") = b at *
  generalize (List.map (fun p => toLowerCase (stripH2 (trim p.1))) (h2LinesFrom 0 (split '\n' content))).any
    (fun s => includes s "contact") = c at *
  generalize (h2LinesFrom 0 (split '\n' content)).length = n at *
  clear ha hb hc hnew hfind hi
  cases a <;> cases b <;> cases c <;>
    simp only [Bool.not_true, Bool.not_false, Bool.false_eq_true, if_true, if_false,
      List.append_eq_nil, List.cons_ne_nil, and_false, false_and, and_self, List.nil_append,
      reduceCtorEq]
  have h0 : (n == 0) = false := by simpa using hne rfl
  simp only [h0, Bool.false_eq_true, if_false]
/-- The `File is empty` result of `validateLlmsTxt` on a content without a
non-blank line. -/
theorem validateLlmsTxt_blank (toLowerCase : Str → Str) (content : Str)
    (result : ValidationResult) (h : ∀ i, ¬ IsFirstNonBlank (split '\n' content) i) :
    validateLlmsTxt toLowerCase content result = result.error msgFileIsEmpty none := by
  have hfind : findIndex (fun l => decide (0 < (trim l).length)) (split '\n' content) = none := by
    cases hf : findIndex (fun l => decide (0 < (trim l).length)) (split '\n' content) with
    | none => rfl
    | some i => exact absurd ((findIndex_nonBlank_iff _ _).1 hf) (h i)
  simp only [validateLlmsTxt, hfind]

theorem isFirstNonBlank_unique (lines : List Str) (i j : Nat) (hi : IsFirstNonBlank lines i)
    (hj : IsFirstNonBlank lines j) : i = j := by
  obtain ⟨_, hi2, hi3⟩ := hi
  obtain ⟨_, hj2, hj3⟩ := hj
  rcases Nat.lt_trichotomy i j with h | h | h
  · exact absurd (hj3 i h) hi2
  · exact h
  · exact absurd (hi3 j h) hj2

/-- C6: `validateLlmsTxt` yields zero errors and zero warnings exactly when
(i) the first non-blank line, trimmed, starts with `"# "`, (ii) some line,
trimmed, starts with `"> "`, and (iii) for each of `about`, `services` and
`contact` some line, trimmed, starts with `"## "` and its remaining text,
lowercased, contains the name. -/
theorem validateLlmsTxt_clean_iff (toLowerCase : Str → Str) (file type content : Str) :
    ((validateLlmsTxt toLowerCase content (ValidationResult.new file type)).errors = [] ∧
        (validateLlmsTxt toLowerCase content (ValidationResult.new file type)).warnings = []) ↔
      ((∃ i, IsFirstNonBlank (split '\n' content) i ∧
            startsWith (trim ((split '\n' content).getD i [])) "# " = true) ∧
        (∃ l ∈ split '\n' content, startsWith (trim l) "> " = true) ∧
        HasSection toLowerCase (split '\n' content) "about" ∧
        HasSection toLowerCase (split '\n' content) "services" ∧
        HasSection toLowerCase (split '\n' content) "contact") := by
  by_cases hex : ∃ i, IsFirstNonBlank (split '\n' content) i
  · obtain ⟨i, hi⟩ := hex
    have herr := validateLlmsTxt_errors toLowerCase content (ValidationResult.new file type) i hi
    have hwarn := validateLlmsTxt_warnings_nil toLowerCase content file type i hi
    have hnew : (ValidationResult.new file type).errors = [] := rfl
    rw [hnew, List.nil_append] at herr
    rw [herr, hwarn]
    have hrec : (∀ name ∈ recommended, HasSection toLowerCase (split '\n' content) name) ↔
        (HasSection toLowerCase (split '\n' content) "about" ∧
          HasSection toLowerCase (split '\n' content) "services" ∧
          HasSection toLowerCase (split '\n' content) "contact") := by
      simp only [recommended, List.mem_cons, List.mem_singleton, forall_eq_or_imp, forall_eq,
        List.not_mem_nil, IsEmpty.forall_iff, implies_true, and_true]
    rw [hrec, ← List.any_eq_true]
    constructor
    · rintro ⟨he, hw⟩
      rw [List.append_eq_nil] at he
      obtain ⟨he1, he2⟩ := he
      refine ⟨⟨i, hi, ?_⟩, ?_, hw⟩
      · by_contra hs
        rw [if_neg hs] at he1
        exact List.cons_ne_nil _ _ he1
      · by_contra hs
        rw [if_neg hs] at he2
        exact List.cons_ne_nil _ _ he2
    · rintro ⟨⟨j, hj, hs⟩, hb, hw⟩
      have hij := isFirstNonBlank_unique _ i j hi hj
      subst hij
      rw [if_pos hs, if_pos hb]
      exact ⟨rfl, hw⟩
  · have hall : ∀ i, ¬ IsFirstNonBlank (split '\n' content) i := fun i hi => hex ⟨i, hi⟩
    rw [validateLlmsTxt_blank toLowerCase content _ hall]
    constructor
    · rintro ⟨he, _⟩
      exact absurd he (by simp [ValidationResult.error])
    · rintro ⟨⟨i, hi, _⟩, _⟩
      exact absurd hi (hall i)

/-- The example of C6: the minimal complete llms.txt has no error and no
warning. -/
theorem validateLlmsTxt_clean_example :
    (validateLlmsTxt asciiLower "# Title\n\n> Desc\n\n## About\n## Services\n## Contact"
        (ValidationResult.new "llms.txt" "llms-txt")).errors = [] ∧
      (validateLlmsTxt asciiLower "# Title\n\n> Desc\n\n## About\n## Services\n## Contact"
        (ValidationResult.new "llms.txt" "llms-txt")).warnings = [] :=
  (validateLlmsTxt_clean_iff asciiLower "llms.txt" "llms-txt"
      "# Title\n\n> Desc\n\n## About\n## Services\n## Contact").2
    ⟨⟨0, by unfold IsFirstNonBlank; decide, by decide⟩,
      ⟨"> Desc", by decide, by decide⟩,
      ⟨"## About", by decide, by decide, by decide⟩,
      ⟨"## Services", by decide, by decide, by decide⟩,
      ⟨"## Contact", by decide, by decide, by decide⟩⟩

/-- C7: on a content whose first non-blank line is line `i` (0-based), the H1
error is reported exactly when that line, trimmed, does not start with `"# "`,
and whenever it is reported it carries the 1-based line number `i + 1`. -/
theorem validateLlmsTxt_h1_error (toLowerCase : Str → Str) (file type content : Str) (i : Nat)
    (hi : IsFirstNonBlank (split '\n' content) i) :
    ((∃ e ∈ (validateLlmsTxt toLowerCase content (ValidationResult.new file type)).errors,
          e.message = msgLlmsH1) ↔
        startsWith (trim ((split '\n' content).getD i [])) "# " = false) ∧
      (∀ e ∈ (validateLlmsTxt toLowerCase content (ValidationResult.new file type)).errors,
        e.message = msgLlmsH1 → e.line = some (i + 1)) ∧
      (startsWith (trim ((split '\n' content).getD i [])) "# " = false →
        (⟨msgLlmsH1, some (i + 1)⟩ : Issue) ∈
          (validateLlmsTxt toLowerCase content (ValidationResult.new file type)).errors) := by
  have herr := validateLlmsTxt_errors toLowerCase content (ValidationResult.new file type) i hi
  have hnew : (ValidationResult.new file type).errors = [] := rfl
  rw [hnew, List.nil_append] at herr
  rw [herr]
  have hne : msgLlmsBlockquote ≠ msgLlmsH1 := by decide
  cases hs : startsWith (trim ((split '\n' content).getD i [])) "# " <;>
    cases hb : (split '\n' content).any fun l => startsWith (trim l) "> " <;>
    simp [hne]

theorem validateLlmsTxt_h1_error_witness :
    IsFirstNonBlank (split '\n' ("Title only" : Str)) 0 ∧
      (⟨msgLlmsH1, some 1⟩ : Issue) ∈
        (validateLlmsTxt asciiLower "Title only" (ValidationResult.new "llms.txt" "llms-txt")).errors :=
  ⟨by unfold IsFirstNonBlank; decide,
    (validateLlmsTxt_h1_error asciiLower "llms.txt" "llms-txt" "Title only" 0
      (by unfold IsFirstNonBlank; decide)).2.2 (by decide)⟩

/-! ## Validators: sections of ai.txt and brand.txt -/

theorem inSection_cons (toLowerCase : Str → Str) (header : Str) (x : Str) (ls : List Str)
    (l : Str) :
    InSection toLowerCase header (x :: ls) l ↔
      (toLowerCase (trim x) = header ∧ ∃ mid post, ls = mid ++ l :: post ∧
          ∀ m ∈ mid ++ [l], isBracketed (toLowerCase (trim m)) = false) ∨
        InSection toLowerCase header ls l := by
  constructor
  · rintro ⟨pre, h, mid, post, heq, hh, hnb⟩
    cases pre with
    | nil =>
      simp only [List.nil_append, List.cons.injEq] at heq
      obtain ⟨rfl, rfl⟩ := heq
      exact Or.inl ⟨hh, mid, post, rfl, hnb⟩
    | cons y pre =>
      simp only [List.cons_append, List.cons.injEq] at heq
      obtain ⟨rfl, rfl⟩ := heq
      exact Or.inr ⟨pre, h, mid, post, rfl, hh, hnb⟩
  · rintro (⟨hh, mid, post, rfl, hnb⟩ | ⟨pre, h, mid, post, rfl, hh, hnb⟩)
    · exact ⟨[], x, mid, post, rfl, hh, hnb⟩
    · exact ⟨x :: pre, h, mid, post, rfl, hh, hnb⟩

/-- The unbracketed run at the start of a list: `l` is reached from the start
of the list without meeting a bracketed line. -/
theorem run_cons (toLowerCase : Str → Str) (x : Str) (ls : List Str) (l : Str) :
    (∃ mid post, x :: ls = mid ++ l :: post ∧
        ∀ m ∈ mid ++ [l], isBracketed (toLowerCase (trim m)) = false) ↔
      isBracketed (toLowerCase (trim x)) = false ∧
        (l = x ∨ ∃ mid post, ls = mid ++ l :: post ∧
          ∀ m ∈ mid ++ [l], isBracketed (toLowerCase (trim m)) = false) := by
  constructor
  · rintro ⟨mid, post, heq, hnb⟩
    cases mid with
    | nil =>
      simp only [List.nil_append, List.cons.injEq] at heq
      obtain ⟨rfl, rfl⟩ := heq
      exact ⟨hnb x (by simp), Or.inl rfl⟩
    | cons y mid =>
      simp only [List.cons_append, List.cons.injEq] at heq
      obtain ⟨rfl, rfl⟩ := heq
      refine ⟨hnb x (by simp), Or.inr ⟨mid, post, rfl, ?_⟩⟩
      intro m hm
      exact hnb m (by simp only [List.cons_append, List.mem_cons]; exact Or.inr hm)
  · rintro ⟨hx, rfl | ⟨mid, post, rfl, hnb⟩⟩
    · exact ⟨[], ls, rfl, by simpa using hx⟩
    · refine ⟨x :: mid, post, rfl, ?_⟩
      intro m hm
      simp only [List.cons_append, List.mem_cons] at hm
      rcases hm with rfl | hm
      · exact hx
      · exact hnb m hm

theorem mem_spanLines (toLowerCase : Str → Str) (header : Str)
    (hhdr : isBracketed header = true) (inSection : Bool) (lines : List Str) (l : Str) :
    l ∈ spanLines toLowerCase header inSection lines ↔
      (inSection = true ∧ ∃ mid post, lines = mid ++ l :: post ∧
          ∀ m ∈ mid ++ [l], isBracketed (toLowerCase (trim m)) = false) ∨
        InSection toLowerCase header lines l := by
  induction lines generalizing inSection with
  | nil => simp [spanLines, InSection]
  | cons x ls ih =>
    rw [inSection_cons, run_cons]
    simp only [spanLines]
    by_cases hx : toLowerCase (trim x) = header
    · simp only [hx, beq_self_eq_true, if_true, ih, hhdr, Bool.true_eq_false, false_and,
        and_false, true_and, false_or]
    · have hx' : (toLowerCase (trim x) == header) = false := by simpa using hx
      simp only [hx', Bool.false_eq_true, if_false, hx, false_and, false_or]
      cases hbx : isBracketed (toLowerCase (trim x))
      · cases inSection
        · simp only [Bool.false_eq_true, if_false, ih, false_and, false_or]
        · simp only [Bool.false_eq_true, if_false, if_true, List.mem_cons, ih, true_and]
          exact or_assoc.symm
      · simp only [if_true, ih, Bool.false_eq_true, false_and, Bool.true_eq_false, and_false,
          false_or]

theorem identity_fold (toLowerCase : Str → Str) (lines : List Str) (st : IdentityState) :
    (lines.foldl (identityStep toLowerCase) st).hasName =
        (st.hasName || (spanLines toLowerCase "[identity]" st.inIdentity lines).any
          fun l => startsWith (toLowerCase (trim l)) "name:") ∧
      (lines.foldl (identityStep toLowerCase) st).hasUrl =
        (st.hasUrl || (spanLines toLowerCase "[identity]" st.inIdentity lines).any
          fun l => startsWith (toLowerCase (trim l)) "url:") := by
  induction lines generalizing st with
  | nil => simp [spanLines]
  | cons x ls ih =>
    simp only [List.foldl_cons, spanLines]
    rw [(ih _).1, (ih _).2]
    unfold identityStep
    cases h1 : (toLowerCase (trim x) == ("[identity]" : Str)) <;>
      cases h2 : isBracketed (toLowerCase (trim x)) <;>
      cases h3 : st.inIdentity <;>
      simp only [h1, h2, Bool.false_eq_true, if_false, if_true, List.any_cons, Bool.or_assoc, h3,
        and_self]

theorem item_fold (toLowerCase : Str → Str) (header : Str) (lines : List Str) (st : Bool × Nat) :
    (lines.foldl (itemStep toLowerCase header) st).2 =
      st.2 + (spanLines toLowerCase header st.1 lines).countP
        fun l => startsWith (trim l) "- " := by
  induction lines generalizing st with
  | nil => simp [spanLines]
  | cons x ls ih =>
    simp only [List.foldl_cons, spanLines]
    rw [ih]
    unfold itemStep
    cases h1 : (toLowerCase (trim x) == header) <;>
      cases h2 : isBracketed (toLowerCase (trim x)) <;>
      cases h3 : st.1 <;>
      cases h4 : startsWith (trim x) "- " <;>
      simp only [h1, h2, Bool.false_eq_true, if_false, if_true, List.countP_cons, h3, h4,
        Bool.and_self, Bool.and_false, Bool.false_and, Bool.and_true, Nat.add_zero,
        Nat.add_assoc, Nat.add_comm 1]

theorem content_fold (toLowerCase : Str → Str) (header : Str) (lines : List Str)
    (st : Bool × Nat) :
    (lines.foldl (contentStep toLowerCase header) st).2 =
      st.2 + (spanLines toLowerCase header st.1 lines).countP
        fun l => decide (0 < (trim l).length) && !startsWith (trim l) "#" := by
  induction lines generalizing st with
  | nil => simp [spanLines]
  | cons x ls ih =>
    simp only [List.foldl_cons, spanLines]
    rw [ih]
    unfold contentStep
    cases h1 : (toLowerCase (trim x) == header) <;>
      cases h2 : isBracketed (toLowerCase (trim x)) <;>
      cases h3 : st.1 <;>
      cases h4 : (decide (0 < (trim x).length) && !startsWith (trim x) "#") <;>
      simp only [h1, h2, Bool.and_assoc, Bool.false_eq_true, if_false, if_true, List.countP_cons, h3, h4,
        Bool.and_self, Bool.and_false, Bool.false_and, Bool.and_true, Bool.true_and, Nat.add_zero,
        Nat.add_assoc, Nat.add_comm 1]

theorem whiteSpace_of_trim_eq_nil (s : Str) (h : trim s = []) :
    ∀ c ∈ s, isWhiteSpace c = true := by
  have h1 : ((s.dropWhile isWhiteSpace).reverse.dropWhile isWhiteSpace) = [] := by
    simpa [trim] using h
  rw [List.dropWhile_eq_nil_iff] at h1
  have h2 : s.dropWhile isWhiteSpace = [] := by
    cases hd : s.dropWhile isWhiteSpace with
    | nil => rfl
    | cons c r =>
      have h3 := List.head?_dropWhile_not isWhiteSpace s
      rw [hd] at h3
      have h4 := h1 c (by rw [hd]; simp)
      simp only [List.head?_cons] at h3
      rw [h4] at h3
      exact absurd h3 (by decide)
  exact List.dropWhile_eq_nil_iff.1 h2

theorem trim_content_ne_nil (content l : Str) (hl : l ∈ split '\n' content)
    (h : trim l ≠ []) : trim content ≠ [] := by
  intro hc
  apply h
  apply trim_eq_nil_of_whiteSpace
  intro c hcl
  exact whiteSpace_of_trim_eq_nil content hc c (mem_of_mem_split _ _ l hl c hcl)

theorem mem_of_inSection (toLowerCase : Str → Str) (header : Str) (lines : List Str) (l : Str)
    (h : InSection toLowerCase header lines l) : l ∈ lines := by
  obtain ⟨pre, h0, mid, post, rfl, _, _⟩ := h
  simp

theorem headerPresent_of_inSection (toLowerCase : Str → Str) (header : Str) (lines : List Str)
    (l : Str) (h : InSection toLowerCase header lines l) :
    HeaderPresent toLowerCase header lines := by
  obtain ⟨pre, h0, mid, post, rfl, hh, _⟩ := h
  exact ⟨h0, by simp, hh⟩

theorem hasHeader_iff (toLowerCase : Str → Str) (header : Str) (lines : List Str) :
    hasHeader toLowerCase header lines = true ↔ HeaderPresent toLowerCase header lines := by
  simp [hasHeader, HeaderPresent]

theorem inSection_iff_mem_spanLines (toLowerCase : Str → Str) (header : Str)
    (hhdr : isBracketed header = true) (lines : List Str) (l : Str) :
    InSection toLowerCase header lines l ↔ l ∈ spanLines toLowerCase header false lines := by
  rw [mem_spanLines toLowerCase header hhdr]
  simp

theorem itemCount_pos_iff (toLowerCase : Str → Str) (header : Str)
    (hhdr : isBracketed header = true) (lines : List Str) :
    (itemCount toLowerCase header lines == 0) = false ↔
      ∃ l, InSection toLowerCase header lines l ∧ startsWith (trim l) "- " = true := by
  unfold itemCount
  rw [item_fold]
  simp only [Nat.zero_add, beq_eq_false_iff_ne, ne_eq, List.countP_eq_zero, not_forall,
    Bool.not_eq_true, Bool.not_eq_false, inSection_iff_mem_spanLines toLowerCase header hhdr]
  constructor
  · rintro ⟨l, hl, h⟩
    exact ⟨l, hl, h⟩
  · rintro ⟨l, hl, h⟩
    exact ⟨l, hl, h⟩

theorem identity_hasName_iff (toLowerCase : Str → Str) (lines : List Str) :
    (lines.foldl (identityStep toLowerCase) ⟨false, false, false⟩).hasName = true ↔
      ∃ l, InSection toLowerCase "[identity]" lines l ∧
        startsWith (toLowerCase (trim l)) "name:" = true := by
  rw [(identity_fold toLowerCase lines _).1]
  simp only [Bool.false_or, List.any_eq_true,
    inSection_iff_mem_spanLines toLowerCase "[identity]" (by decide)]

theorem identity_hasUrl_iff (toLowerCase : Str → Str) (lines : List Str) :
    (lines.foldl (identityStep toLowerCase) ⟨false, false, false⟩).hasUrl = true ↔
      ∃ l, InSection toLowerCase "[identity]" lines l ∧
        startsWith (toLowerCase (trim l)) "url:" = true := by
  rw [(identity_fold toLowerCase lines _).2]
  simp only [Bool.false_or, List.any_eq_true,
    inSection_iff_mem_spanLines toLowerCase "[identity]" (by decide)]

/-- C8, as the code has it: on an ai.txt content in which some line in an
`[identity]` span, trimmed and lowercased, starts with `name:` and none,
trimmed and lowercased, starts with `url:`, and in which a `[permissions]`
span and a `[restrictions]` span each hold a line that, trimmed, starts with
`"- "`, `validateAiTxt` reports exactly one error, the missing `url:` field,
and no warning. -/
theorem validateAiTxt_missing_url (toLowerCase : Str → Str) (file type content : Str)
    (hname : ∃ l, InSection toLowerCase "[identity]" (split '\n' content) l ∧
      startsWith (toLowerCase (trim l)) "name:" = true)
    (hurl : ∀ l, InSection toLowerCase "[identity]" (split '\n' content) l →
      startsWith (toLowerCase (trim l)) "url:" = false)
    (hperm : ∃ l, InSection toLowerCase "[permissions]" (split '\n' content) l ∧
      startsWith (trim l) "- " = true)
    (hrest : ∃ l, InSection toLowerCase "[restrictions]" (split '\n' content) l ∧
      startsWith (trim l) "- " = true) :
    validateAiTxt toLowerCase content (ValidationResult.new file type) =
      ⟨file, type, [⟨msgAiUrl, none⟩], []⟩ := by
  have hnb : ((trim content).length == 0) = false := by
    obtain ⟨l, hl, hs⟩ := hperm
    have h1 : trim l ≠ [] := by
      intro h0
      rw [h0] at hs
      exact absurd hs (by decide)
    have h2 := trim_content_ne_nil content l (mem_of_inSection _ _ _ _ hl) h1
    simpa using h2
  have hid : hasHeader toLowerCase "[identity]" (split '\n' content) = true := by
    obtain ⟨l, hl, _⟩ := hname
    exact (hasHeader_iff _ _ _).2 (headerPresent_of_inSection _ _ _ _ hl)
  have hpe : hasHeader toLowerCase "[permissions]" (split '\n' content) = true := by
    obtain ⟨l, hl, _⟩ := hperm
    exact (hasHeader_iff _ _ _).2 (headerPresent_of_inSection _ _ _ _ hl)
  have hre : hasHeader toLowerCase "[restrictions]" (split '\n' content) = true := by
    obtain ⟨l, hl, _⟩ := hrest
    exact (hasHeader_iff _ _ _).2 (headerPresent_of_inSection _ _ _ _ hl)
  have hn : ((split '\n' content).foldl (identityStep toLowerCase) ⟨false, false, false⟩).hasName
      = true := (identity_hasName_iff _ _).2 hname
  have hu : ((split '\n' content).foldl (identityStep toLowerCase) ⟨false, false, false⟩).hasUrl
      = false := by
    rw [← Bool.not_eq_true, identity_hasUrl_iff]
    rintro ⟨l, hl, hs⟩
    rw [hurl l hl] at hs
    exact absurd hs (by decide)
  have hpc := (itemCount_pos_iff toLowerCase "[permissions]" (by decide) _).2 hperm
  have hrc := (itemCount_pos_iff toLowerCase "[restrictions]" (by decide) _).2 hrest
  simp only [validateAiTxt, hnb, hid, hpe, hre, hn, hu, hpc, hrc, Bool.not_true, Bool.not_false,
    Bool.false_eq_true, if_false, if_true]
  rfl

theorem validateAiTxt_missing_url_witness :
    validateAiTxt asciiLower "[identity]\nname: Acme\n[permissions]\n- index\n[restrictions]\n- train"
        (ValidationResult.new "ai.txt" "ai-txt") =
      ⟨"ai.txt", "ai-txt", [⟨msgAiUrl, none⟩], []⟩ :=
  validateAiTxt_missing_url asciiLower "ai.txt" "ai-txt"
    "[identity]\nname: Acme\n[permissions]\n- index\n[restrictions]\n- train"
    ⟨"name: Acme", ⟨[], "[identity]", [], _, rfl, by decide, by decide⟩, by decide⟩
    (fun l hl =>
      (by decide :
        ∀ l ∈ spanLines asciiLower "[identity]" false
            (split '\n' "[identity]\nname: Acme\n[permissions]\n- index\n[restrictions]\n- train"),
          startsWith (asciiLower (trim l)) "url:" = false) l
        ((inSection_iff_mem_spanLines asciiLower "[identity]" (by decide) _ l).1 hl))
    ⟨"- index", ⟨["[identity]", "name: Acme"], "[permissions]", [], _, rfl, by decide,
      by decide⟩, by decide⟩
    ⟨"- train", ⟨["[identity]", "name: Acme", "[permissions]", "- index"], "[restrictions]", [], _,
      rfl, by decide, by decide⟩, by decide⟩

/-- C8 as stated fails: with the field written `URL:`, no line of the
`[identity]` span starts with `url:`, a line starts with `name:`, and the
`[permissions]` and `[restrictions]` spans each hold a line starting with
`"- "`; yet `validateAiTxt` reports no error at all, because it compares the
lowercased line. -/
theorem validateAiTxt_missing_url_counterexample :
    (∃ l, InSection asciiLower "[identity]"
        (split '\n' "[identity]\nname: Acme\nURL: https://acme.example\n[permissions]\n- index\n[restrictions]\n- train")
        l ∧ startsWith l "name:" = true) ∧
      (∀ l, InSection asciiLower "[identity]"
        (split '\n' "[identity]\nname: Acme\nURL: https://acme.example\n[permissions]\n- index\n[restrictions]\n- train")
        l → startsWith l "url:" = false) ∧
      (∃ l, InSection asciiLower "[permissions]"
        (split '\n' "[identity]\nname: Acme\nURL: https://acme.example\n[permissions]\n- index\n[restrictions]\n- train")
        l ∧ startsWith l "- " = true) ∧
      (∃ l, InSection asciiLower "[restrictions]"
        (split '\n' "[identity]\nname: Acme\nURL: https://acme.example\n[permissions]\n- index\n[restrictions]\n- train")
        l ∧ startsWith l "- " = true) ∧
      (validateAiTxt asciiLower
        "[identity]\nname: Acme\nURL: https://acme.example\n[permissions]\n- index\n[restrictions]\n- train"
        (ValidationResult.new "ai.txt" "ai-txt")).errors = [] := by
  refine ⟨?_, ?_, ?_, ?_, by decide⟩
  · refine ⟨"name: Acme", ?_, by decide⟩
    rw [inSection_iff_mem_spanLines _ _ (by decide)]
    decide
  · intro l hl
    rw [inSection_iff_mem_spanLines _ _ (by decide)] at hl
    revert l
    decide
  · refine ⟨"- index", ?_, by decide⟩
    rw [inSection_iff_mem_spanLines _ _ (by decide)]
    decide
  · refine ⟨"- train", ?_, by decide⟩
    rw [inSection_iff_mem_spanLines _ _ (by decide)]
    decide

/-! ## Validators: brand.txt -/

theorem contentCount_eq_zero_iff (toLowerCase : Str → Str) (header : Str)
    (hhdr : isBracketed header = true) (lines : List Str) :
    ((lines.foldl (contentStep toLowerCase header) (false, 0)).2 == 0) = true ↔
      ¬ HasContent toLowerCase header lines := by
  rw [content_fold]
  simp only [Nat.zero_add, beq_iff_eq, List.countP_eq_zero, HasContent,
    inSection_iff_mem_spanLines toLowerCase header hhdr, not_exists, not_and]
  constructor
  · intro h l hl hne hs
    apply h l hl
    have : 0 < (trim l).length := List.length_pos.2 hne
    rw [decide_eq_true this, hs]
    rfl
  · intro h l hl hc
    simp only [Bool.and_eq_true, decide_eq_true_eq, Bool.not_eq_true'] at hc
    exact h l hl (List.length_pos.1 hc.1) hc.2

/-- The errors one required section adds in `validateBrandTxt`. -/
theorem brand_section_verdict (toLowerCase : Str → Str) (lines : List Str)
    (header msgAbsent msgNoContent : Str) (hhdr : isBracketed header = true) :
    SectionVerdict toLowerCase lines header msgAbsent msgNoContent
      (if (!hasHeader toLowerCase header lines) = true then [⟨msgAbsent, none⟩]
        else if ((lines.foldl (contentStep toLowerCase header) (false, 0)).2 == 0) = true then
          [⟨msgNoContent, none⟩]
        else []) := by
  refine ⟨?_, ?_, ?_⟩
  · intro h
    have h1 : hasHeader toLowerCase header lines = false := by
      rw [← Bool.not_eq_true, hasHeader_iff]
      exact h
    simp only [h1, Bool.not_false, if_true]
  · intro h hc
    have h1 := (hasHeader_iff _ _ _).2 h
    have h2 := (contentCount_eq_zero_iff toLowerCase header hhdr lines).2 hc
    simp only [h1, h2, Bool.not_true, Bool.false_eq_true, if_false, if_true]
  · intro h hc
    have h1 := (hasHeader_iff _ _ _).2 h
    have h2 : ((lines.foldl (contentStep toLowerCase header) (false, 0)).2 == 0) = false := by
      rw [← Bool.not_eq_true, contentCount_eq_zero_iff toLowerCase header hhdr lines]
      exact fun hn => hn hc
    simp only [h1, h2, Bool.not_true, Bool.false_eq_true, if_false]

/-- C10, as the code has it: on a non-blank brand.txt content the errors of
`validateBrandTxt` are those of the sections `official-names`,
`incorrect-names` and `naming-rules`, in this order: for each, one error when
its header line is absent, one other error when the header is there but its
spans hold no line that, trimmed, is non-empty and does not start with `#`,
and none otherwise.  So there are at most three errors, and there is never a
warning. -/
theorem validateBrandTxt_errors (toLowerCase : Str → Str) (file type content : Str)
    (hnb : trim content ≠ []) :
    ∃ e1 e2 e3 : List Issue,
      (validateBrandTxt toLowerCase content (ValidationResult.new file type)).errors =
          e1 ++ e2 ++ e3 ∧
        SectionVerdict toLowerCase (split '\n' content) "[official-names]" msgBrandOfficial
          msgBrandOfficialContent e1 ∧
        SectionVerdict toLowerCase (split '\n' content) "[incorrect-names]" msgBrandIncorrect
          msgBrandIncorrectContent e2 ∧
        SectionVerdict toLowerCase (split '\n' content) "[naming-rules]" msgBrandRules
          msgBrandRulesContent e3 ∧
        (validateBrandTxt toLowerCase content (ValidationResult.new file type)).errors.length ≤ 3 ∧
        (validateBrandTxt toLowerCase content (ValidationResult.new file type)).warnings = [] ∧
        msgBrandOfficial ≠ msgBrandOfficialContent ∧
        msgBrandIncorrect ≠ msgBrandIncorrectContent ∧
        msgBrandRules ≠ msgBrandRulesContent := by
  have hnb' : ((trim content).length == 0) = false := by simpa using hnb
  have hv1 := brand_section_verdict toLowerCase (split '\n' content) "[official-names]"
    msgBrandOfficial msgBrandOfficialContent (by decide)
  have hv2 := brand_section_verdict toLowerCase (split '\n' content) "[incorrect-names]"
    msgBrandIncorrect msgBrandIncorrectContent (by decide)
  have hv3 := brand_section_verdict toLowerCase (split '\n' content) "[naming-rules]"
    msgBrandRules msgBrandRulesContent (by decide)
  have hc1 : sectionContentCount toLowerCase (split '\n' content) "official-names" =
      ((split '\n' content).foldl (contentStep toLowerCase "[official-names]") (false, 0)).2 := rfl
  have hc2 : sectionContentCount toLowerCase (split '\n' content) "incorrect-names" =
      ((split '\n' content).foldl (contentStep toLowerCase "[incorrect-names]") (false, 0)).2 := rfl
  have hc3 : sectionContentCount toLowerCase (split '\n' content) "naming-rules" =
      ((split '\n' content).foldl (contentStep toLowerCase "[naming-rules]") (false, 0)).2 := rfl
  refine ⟨_, _, _, ?_, hv1, hv2, hv3, ?_, ?_, by decide, by decide, by decide⟩
  · simp only [validateBrandTxt, hnb', Bool.false_eq_true, if_false, hc1, hc2, hc3]
    split_ifs <;> rfl
  · simp only [validateBrandTxt, hnb', Bool.false_eq_true, if_false]
    split_ifs <;> simp [ValidationResult.error, ValidationResult.new]
  · simp only [validateBrandTxt, hnb', Bool.false_eq_true, if_false]
    split_ifs <;> rfl

theorem validateBrandTxt_errors_witness :
    trim ("[official-names]\n# none yet\n[incorrect-names]\nAcme Inc" : Str) ≠ [] ∧
      ∃ e1 e2 e3 : List Issue,
        (validateBrandTxt asciiLower "[official-names]\n# none yet\n[incorrect-names]\nAcme Inc"
            (ValidationResult.new "brand.txt" "brand-txt")).errors = e1 ++ e2 ++ e3 ∧
          SectionVerdict asciiLower
            (split '\n' "[official-names]\n# none yet\n[incorrect-names]\nAcme Inc")
            "[official-names]" msgBrandOfficial msgBrandOfficialContent e1 ∧
          SectionVerdict asciiLower
            (split '\n' "[official-names]\n# none yet\n[incorrect-names]\nAcme Inc")
            "[incorrect-names]" msgBrandIncorrect msgBrandIncorrectContent e2 ∧
          SectionVerdict asciiLower
            (split '\n' "[official-names]\n# none yet\n[incorrect-names]\nAcme Inc")
            "[naming-rules]" msgBrandRules msgBrandRulesContent e3 ∧
          (validateBrandTxt asciiLower "[official-names]\n# none yet\n[incorrect-names]\nAcme Inc"
            (ValidationResult.new "brand.txt" "brand-txt")).errors.length ≤ 3 ∧
          (validateBrandTxt asciiLower "[official-names]\n# none yet\n[incorrect-names]\nAcme Inc"
            (ValidationResult.new "brand.txt" "brand-txt")).warnings = [] ∧
          msgBrandOfficial ≠ msgBrandOfficialContent ∧
          msgBrandIncorrect ≠ msgBrandIncorrectContent ∧
          msgBrandRules ≠ msgBrandRulesContent :=
  ⟨by decide,
    validateBrandTxt_errors asciiLower "brand.txt" "brand-txt"
      "[official-names]\n# none yet\n[incorrect-names]\nAcme Inc" (by decide)⟩

/-- C10 as stated fails: every section has its header and a non-empty line
that does not start with `#`, but the lines of `[official-names]` are a line
of spaces and an indented comment, which the validator trims to the empty
text and to a text starting with `#`, and one error is reported. -/
theorem validateBrandTxt_errors_counterexample :
    (∀ header ∈ [("[official-names]" : Str), "[incorrect-names]", "[naming-rules]"],
        HeaderPresent asciiLower header
            (split '\n' "[official-names]\n   \n  # to do\n[incorrect-names]\nAcme Inc\n[naming-rules]\nUse Acme") ∧
          ∃ l, InSection asciiLower header
              (split '\n' "[official-names]\n   \n  # to do\n[incorrect-names]\nAcme Inc\n[naming-rules]\nUse Acme")
              l ∧ l ≠ [] ∧ startsWith l "#" = false) ∧
      (validateBrandTxt asciiLower
          "[official-names]\n   \n  # to do\n[incorrect-names]\nAcme Inc\n[naming-rules]\nUse Acme"
          (ValidationResult.new "brand.txt" "brand-txt")).errors =
        [⟨msgBrandOfficialContent, none⟩] := by
  refine ⟨?_, by decide⟩
  intro header hh
  simp only [List.mem_cons, List.mem_singleton, List.not_mem_nil, or_false] at hh
  rcases hh with rfl | rfl | rfl
  · refine ⟨⟨"[official-names]", by decide, by decide⟩, "   ", ?_, by decide, by decide⟩
    rw [inSection_iff_mem_spanLines _ _ (by decide)]
    decide
  · refine ⟨⟨"[incorrect-names]", by decide, by decide⟩, "Acme Inc", ?_, by decide, by decide⟩
    rw [inSection_iff_mem_spanLines _ _ (by decide)]
    decide
  · refine ⟨⟨"[naming-rules]", by decide, by decide⟩, "Use Acme", ?_, by decide, by decide⟩
    rw [inSection_iff_mem_spanLines _ _ (by decide)]
    decide
/-- An example for C10: a comment is no content, and a missing section is its
own error. -/
theorem validateBrandTxt_example :
    (validateBrandTxt asciiLower "[official-names]\n# none yet\n[incorrect-names]\nAcme Inc"
        (ValidationResult.new "brand.txt" "brand-txt")).errors =
      [⟨msgBrandOfficialContent, none⟩, ⟨msgBrandRules, none⟩] := by
  decide

/-! ## Validators: faq-ai.txt -/

theorem scanFaq_eq (i : Nat) (lines : List Str) :
    scanFaq i lines = (numberedLines isQuestion i lines, numberedLines isAnswer i lines) := by
  induction lines generalizing i with
  | nil => rfl
  | cons l ls ih =>
    simp only [scanFaq, numberedLines, ih]

theorem mem_numberedLines (p : Str → Bool) (i : Nat) (lines : List Str) (q : Nat) :
    q ∈ numberedLines p i lines ↔
      i < q ∧ q ≤ i + lines.length ∧ p (trim (lines.getD (q - i - 1) [])) = true := by
  induction lines generalizing i with
  | nil =>
    simp only [numberedLines, List.not_mem_nil, List.length_nil, false_iff]
    omega
  | cons l ls ih =>
    have hmem : q ∈ numberedLines p i (l :: ls) ↔
        (q = i + 1 ∧ p (trim l) = true) ∨ q ∈ numberedLines p (i + 1) ls := by
      simp only [numberedLines]
      cases hp : p (trim l) <;> simp
    rw [hmem, ih]
    by_cases hq : q = i + 1
    · subst hq
      simp
    · constructor
      · rintro (⟨h, _⟩ | ⟨h1, h2, h3⟩)
        · exact absurd h hq
        · refine ⟨by omega, by simp only [List.length_cons]; omega, ?_⟩
          have : q - i - 1 = (q - (i + 1) - 1) + 1 := by omega
          rw [this, List.getD_cons_succ]
          exact h3
      · rintro ⟨h1, h2, h3⟩
        right
        simp only [List.length_cons] at h2
        refine ⟨by omega, by omega, ?_⟩
        have : q - i - 1 = (q - (i + 1) - 1) + 1 := by omega
        rw [this, List.getD_cons_succ] at h3
        exact h3

theorem sorted_numberedLines (p : Str → Bool) (i : Nat) (lines : List Str) :
    (numberedLines p i lines).Sorted (· < ·) := by
  induction lines generalizing i with
  | nil => simp [numberedLines]
  | cons l ls ih =>
    simp only [numberedLines]
    split
    · rw [List.sorted_cons]
      refine ⟨?_, ih _⟩
      intro b hb
      exact ((mem_numberedLines p (i + 1) ls b).1 hb).1
    · exact ih _

/-- The question test of the validator is the prefix test of the
specification. -/
theorem isQuestion_iff (trimmed : Str) :
    isQuestion trimmed = true ↔ ("Q:" : Str) <+: trimmed ∨ ("**Q:" : Str) <+: trimmed := by
  simp only [isQuestion, Bool.or_eq_true, startsWith_iff]

/-- The answer test of the validator is the prefix test of the
specification. -/
theorem isAnswer_iff (trimmed : Str) :
    isAnswer trimmed = true ↔ ("A:" : Str) <+: trimmed ∨ ("**A:" : Str) <+: trimmed := by
  simp only [isAnswer, Bool.or_eq_true, startsWith_iff]

theorem mem_questions_iff (lines : List Str) (q : Nat) :
    q ∈ numberedLines isQuestion 0 lines ↔ IsQuestionLine lines q := by
  rw [mem_numberedLines]
  simp only [IsQuestionLine, Nat.zero_add, Nat.sub_zero]
  constructor
  · rintro ⟨h1, h2, h3⟩
    exact ⟨h1, h2, (isQuestion_iff _).1 h3⟩
  · rintro ⟨h1, h2, h3⟩
    exact ⟨h1, h2, (isQuestion_iff _).2 h3⟩

theorem mem_answers_iff (lines : List Str) (a : Nat) :
    a ∈ numberedLines isAnswer 0 lines ↔ IsAnswerLine lines a := by
  rw [mem_numberedLines]
  simp only [IsAnswerLine, Nat.zero_add, Nat.sub_zero]
  constructor
  · rintro ⟨h1, h2, h3⟩
    exact ⟨h1, h2, (isAnswer_iff _).1 h3⟩
  · rintro ⟨h1, h2, h3⟩
    exact ⟨h1, h2, (isAnswer_iff _).2 h3⟩

theorem beforeLater_iff (qs : List Nat) (q a : Nat) :
    beforeLater qs q a = true ↔ ∀ q' ∈ qs, q < q' → a < q' := by
  simp only [beforeLater, List.all_eq_true, Bool.or_eq_true, Bool.not_eq_true',
    decide_eq_false_iff_not, decide_eq_true_eq]
  constructor
  · intro h q' hq' hlt
    rcases h q' hq' with h1 | h1
    · exact absurd hlt h1
    · exact h1
  · intro h q' hq'
    by_cases hlt : q < q'
    · exact Or.inr (h q' hq' hlt)
    · exact Or.inl hlt

/-- The bound used by the loop, the next entry of the array or `Infinity`, is
the bound "before every later question" when the array is strictly
increasing. -/
theorem ltInfinity_head (q : Nat) (rest : List Nat) (a : Nat)
    (hs : (q :: rest).Sorted (· < ·)) :
    ltInfinity a (orInfinity rest.head?) = beforeLater (q :: rest) q a := by
  rw [Bool.eq_iff_iff, beforeLater_iff]
  rw [List.sorted_cons] at hs
  obtain ⟨hq, hrest⟩ := hs
  cases rest with
  | nil =>
    simp [orInfinity, ltInfinity]
  | cons q1 rest' =>
    have hq1 : q < q1 := hq q1 (by simp)
    obtain ⟨n, hn⟩ : ∃ n, q1 = n + 1 := ⟨q1 - 1, by omega⟩
    rw [List.sorted_cons] at hrest
    subst hn
    simp only [List.head?_cons, orInfinity, ltInfinity, decide_eq_true_eq, List.mem_cons]
    constructor
    · intro h q' hq' hlt
      rcases hq' with rfl | rfl | hq'
      · omega
      · exact h
      · have := hrest.1 q' hq'
        omega
    · intro h
      exact h (n + 1) (Or.inr (Or.inl rfl)) hq1

theorem checkQuestions_errors (answers : List Nat) (qs : List Nat) (r : ValidationResult)
    (hs : qs.Sorted (· < ·)) :
    (checkQuestions answers qs r).errors =
      r.errors ++ (qs.filter fun q => !(answers.any fun a => decide (q < a) && beforeLater qs q a)).map
        fun q => ⟨unansweredMessage q, some q⟩ := by
  induction qs generalizing r with
  | nil => simp [checkQuestions]
  | cons q rest ih =>
    have hs' := hs
    rw [List.sorted_cons] at hs'
    obtain ⟨hq, hrest⟩ := hs'
    have hany : (answers.any fun a => decide (q < a) && ltInfinity a (orInfinity rest.head?)) =
        (answers.any fun a => decide (q < a) && beforeLater (q :: rest) q a) := by
      congr 1
      funext a
      rw [ltInfinity_head q rest a hs]
    have htail : (rest.filter fun q' =>
          !(answers.any fun a => decide (q' < a) && beforeLater (q :: rest) q' a)) =
        (rest.filter fun q' => !(answers.any fun a => decide (q' < a) && beforeLater rest q' a)) := by
      apply List.filter_congr
      intro q' hq'
      have hlt := hq q' hq'
      congr 2
      funext a
      congr 1
      rw [Bool.eq_iff_iff, beforeLater_iff, beforeLater_iff]
      constructor
      · intro h x hx hlt'
        exact h x (List.mem_cons_of_mem _ hx) hlt'
      · intro h x hx hlt'
        rcases List.mem_cons.1 hx with rfl | hx
        · omega
        · exact h x hx hlt'
    simp only [checkQuestions]
    rw [ih _ hrest, hany, List.filter_cons, htail]
    cases hc : (answers.any fun a => decide (q < a) && beforeLater (q :: rest) q a)
    · simp [ValidationResult.error]
    · simp

theorem before_next_iff (lines : List Str) (q a : Nat) :
    (∀ q' ∈ numberedLines isQuestion 0 lines, q < q' → a < q') ↔
      ∀ q', IsNextQuestion lines q q' → a < q' := by
  constructor
  · rintro h q' ⟨h1, h2, _⟩
    exact h q' ((mem_questions_iff lines q').2 h1) h2
  · intro h q' hq' hlt
    classical
    have hex : ∃ r, IsQuestionLine lines r ∧ q < r := ⟨q', (mem_questions_iff lines q').1 hq', hlt⟩
    have hspec := Nat.find_spec hex
    have hmin : ∀ r, IsQuestionLine lines r → q < r → Nat.find hex ≤ r :=
      fun r hr hqr => Nat.find_min' hex ⟨hr, hqr⟩
    have hnext : IsNextQuestion lines q (Nat.find hex) := ⟨hspec.1, hspec.2, hmin⟩
    have h1 := h _ hnext
    have h2 := hmin q' ((mem_questions_iff lines q').1 hq') hlt
    omega

theorem answered_iff (lines : List Str) (q : Nat) :
    ((numberedLines isAnswer 0 lines).any fun a =>
        decide (q < a) && beforeLater (numberedLines isQuestion 0 lines) q a) = true ↔
      AnsweredBeforeNext lines q := by
  simp only [List.any_eq_true, Bool.and_eq_true, decide_eq_true_eq, beforeLater_iff,
    before_next_iff, mem_answers_iff, AnsweredBeforeNext]

/-- C9: on a faq-ai.txt content with at least one question line, the errors
of `validateFaqAiTxt` are exactly one error for each question line `q` that no
answer line `a` follows with `q < a < q'` (`q'` the line of the next question,
or the end of the file), in increasing order of `q`, each carrying the line
`q`; hence the result is valid exactly when every question is answered before
the next question. -/
theorem validateFaqAiTxt_errors (file type content : Str)
    (hq : ∃ q, IsQuestionLine (split '\n' content) q) :
    ∃ qs : List Nat,
      (validateFaqAiTxt content (ValidationResult.new file type)).errors =
          qs.map (fun q => ⟨unansweredMessage q, some q⟩) ∧
        qs.Sorted (· < ·) ∧
        (∀ q, q ∈ qs ↔
          IsQuestionLine (split '\n' content) q ∧ ¬ AnsweredBeforeNext (split '\n' content) q) ∧
        ((validateFaqAiTxt content (ValidationResult.new file type)).valid = true ↔
          ∀ q, IsQuestionLine (split '\n' content) q → AnsweredBeforeNext (split '\n' content) q) := by
  obtain ⟨q0, hq0⟩ := hq
  have hmem0 := (mem_questions_iff _ q0).2 hq0
  have hnb : ((trim content).length == 0) = false := by
    have hl : (split '\n' content).getD (q0 - 1) [] ∈ split '\n' content := by
      rw [List.getD_eq_getElem _ _ (by have := hq0.1; have := hq0.2.1; omega)]
      exact List.getElem_mem _
    have h1 : trim ((split '\n' content).getD (q0 - 1) []) ≠ [] := by
      intro h0
      have := (isQuestion_iff _).2 hq0.2.2
      rw [h0] at this
      exact absurd this (by decide)
    simpa using trim_content_ne_nil content _ hl h1
  have hlen : ((numberedLines isQuestion 0 (split '\n' content)).length == 0) = false := by
    have : numberedLines isQuestion 0 (split '\n' content) ≠ [] := List.ne_nil_of_mem hmem0
    simpa using this
  have hsorted := sorted_numberedLines isQuestion 0 (split '\n' content)
  have herr : (validateFaqAiTxt content (ValidationResult.new file type)).errors =
      ((numberedLines isQuestion 0 (split '\n' content)).filter fun q =>
        !((numberedLines isAnswer 0 (split '\n' content)).any fun a =>
          decide (q < a) && beforeLater (numberedLines isQuestion 0 (split '\n' content)) q a)).map
        fun q => ⟨unansweredMessage q, some q⟩ := by
    simp only [validateFaqAiTxt, hnb, scanFaq_eq, hlen, Bool.false_eq_true, if_false]
    split
    · rw [warn_errors, checkQuestions_errors _ _ _ hsorted]
      rfl
    · rw [checkQuestions_errors _ _ _ hsorted]
      rfl
  have hmem : ∀ q, q ∈ ((numberedLines isQuestion 0 (split '\n' content)).filter fun q =>
        !((numberedLines isAnswer 0 (split '\n' content)).any fun a =>
          decide (q < a) && beforeLater (numberedLines isQuestion 0 (split '\n' content)) q a)) ↔
      IsQuestionLine (split '\n' content) q ∧ ¬ AnsweredBeforeNext (split '\n' content) q := by
    intro q
    rw [List.mem_filter, mem_questions_iff, Bool.not_eq_true', ← Bool.not_eq_true, answered_iff]
  refine ⟨_, herr, hsorted.sublist (List.filter_sublist _), hmem, ?_⟩
  rw [valid_iff_errors_nil, herr, List.map_eq_nil_iff, List.eq_nil_iff_forall_not_mem]
  constructor
  · intro h q hql
    by_contra hna
    exact h q ((hmem q).2 ⟨hql, hna⟩)
  · intro h q hmq
    obtain ⟨h1, h2⟩ := (hmem q).1 hmq
    exact h2 (h q h1)

/-- A sorted list whose only member is `n` is `[n]`. -/
theorem sorted_eq_singleton (qs : List Nat) (n : Nat) (hs : qs.Sorted (· < ·))
    (hmem : ∀ q, q ∈ qs ↔ q = n) : qs = [n] := by
  cases qs with
  | nil => exact absurd ((hmem n).2 rfl) (List.not_mem_nil n)
  | cons a rest =>
    have ha : a = n := (hmem a).1 (List.mem_cons_self a rest)
    cases rest with
    | nil => rw [ha]
    | cons b more =>
      have hb : b = n := (hmem b).1 (List.mem_cons_of_mem _ (List.mem_cons_self b more))
      have hlt : a < b := List.rel_of_sorted_cons hs b (List.mem_cons_self b more)
      omega

/-- The example of C9, by the theorem: in `Q: one?`, `A: yes`, `Q: two?` the
question lines are 1 and 3 and the answer line is 2, so the only question
without an answer before the next question is the one at line 3, and the
errors are exactly one error, at line 3. -/
theorem validateFaqAiTxt_errors_witness :
    (∃ q, IsQuestionLine (split '\n' ("Q: one?\nA: yes\nQ: two?" : Str)) q) ∧
      (validateFaqAiTxt "Q: one?\nA: yes\nQ: two?"
          (ValidationResult.new "faq-ai.txt" "faq-ai-txt")).errors =
        [⟨"Question at line 3 has no corresponding answer (A:)", some 3⟩] ∧
      (validateFaqAiTxt "Q: one?\nA: yes\nQ: two?"
          (ValidationResult.new "faq-ai.txt" "faq-ai-txt")).valid = false := by
  have hlines : split '\n' ("Q: one?\nA: yes\nQ: two?" : Str) =
      [("Q: one?" : Str), ("A: yes" : Str), ("Q: two?" : Str)] := by decide
  have hQ1 : IsQuestionLine (split '\n' ("Q: one?\nA: yes\nQ: two?" : Str)) 1 := by
    rw [hlines]
    exact ⟨by decide, by decide, Or.inl ((startsWith_iff _ _).1 (by decide))⟩
  have hQ3 : IsQuestionLine (split '\n' ("Q: one?\nA: yes\nQ: two?" : Str)) 3 := by
    rw [hlines]
    exact ⟨by decide, by decide, Or.inl ((startsWith_iff _ _).1 (by decide))⟩
  have hQ2 : ¬ IsQuestionLine (split '\n' ("Q: one?\nA: yes\nQ: two?" : Str)) 2 := by
    rw [hlines]
    rintro ⟨-, -, h | h⟩
    · exact absurd ((startsWith_iff _ _).2 h) (by decide)
    · exact absurd ((startsWith_iff _ _).2 h) (by decide)
  have hA2 : IsAnswerLine (split '\n' ("Q: one?\nA: yes\nQ: two?" : Str)) 2 := by
    rw [hlines]
    exact ⟨by decide, by decide, Or.inl ((startsWith_iff _ _).1 (by decide))⟩
  have hlen : (split '\n' ("Q: one?\nA: yes\nQ: two?" : Str)).length = 3 := by
    rw [hlines]
    rfl
  obtain ⟨qs, herr, hsorted, hmem, hvalid⟩ :=
    validateFaqAiTxt_errors "faq-ai.txt" "faq-ai-txt" "Q: one?\nA: yes\nQ: two?" ⟨1, hQ1⟩
  have hqs : qs = [3] := by
    apply sorted_eq_singleton qs 3 hsorted
    intro q
    rw [hmem]
    constructor
    · rintro ⟨hq, hna⟩
      have h1 := hq.1
      have h2 := hq.2.1
      rw [hlen] at h2
      by_contra hne
      have hcases : q = 1 ∨ q = 2 := by omega
      rcases hcases with rfl | rfl
      · apply hna
        refine ⟨2, hA2, by decide, ?_⟩
        intro r hr
        have hr1 := hr.2.1
        by_contra hlt
        have : r = 2 := by omega
        rw [this] at hr
        exact hQ2 hr.1
      · exact hQ2 hq
    · rintro rfl
      refine ⟨hQ3, ?_⟩
      rintro ⟨a, ha, hlt, -⟩
      have := ha.2.1
      rw [hlen] at this
      omega
  refine ⟨⟨1, hQ1⟩, ?_, ?_⟩
  · rw [herr, hqs]
    rfl
  · rw [← Bool.not_eq_true, hvalid]
    intro hall
    have h3 : 3 ∈ qs := by rw [hqs]; simp
    exact ((hmem 3).1 h3).2 (hall 3 hQ3)

/-- The example of C9: the unanswered second question gives exactly one
error, at line 3. -/
theorem validateFaqAiTxt_example :
    (validateFaqAiTxt "Q: one?\nA: yes\nQ: two?"
        (ValidationResult.new "faq-ai.txt" "faq-ai-txt")).errors =
      [⟨unansweredMessage 3, some 3⟩] := by
  decide

/-! ## llms.txt: the unreachable branch -/

/-- C25: `validateLlmsTxt` never reports the error for an empty H1 text: a
trimmed line cannot both start with `"# "` and equal `"#"` or `"# "`, so a
heading `"# "` without text gets the `File MUST begin with a Markdown H1
heading` error instead, and no content yields more than two errors. -/
theorem validateLlmsTxt_no_h1_text_error (toLowerCase : Str → Str) (file type content : Str) :
    (∀ e ∈ (validateLlmsTxt toLowerCase content (ValidationResult.new file type)).errors,
        e.message ≠ msgLlmsH1Text) ∧
      (∀ s : Str, ¬ (startsWith (trim s) "# " = true ∧
        (trim s = ("#" : Str) ∨ trim s = ("# " : Str)))) ∧
      (validateLlmsTxt toLowerCase "# " (ValidationResult.new file type)).errors =
        [⟨msgLlmsH1, some 1⟩, ⟨msgLlmsBlockquote, none⟩] ∧
      (validateLlmsTxt toLowerCase content (ValidationResult.new file type)).errors.length ≤ 2 := by
  have hdead : ∀ s : Str, ¬ (startsWith (trim s) "# " = true ∧
      (trim s = ("#" : Str) ∨ trim s = ("# " : Str))) := by
    rintro s ⟨h1, h2⟩
    have h3 := h1_text_branch_dead s h1
    rw [Bool.or_eq_false_iff, beq_eq_false_iff_ne, beq_eq_false_iff_ne] at h3
    rcases h2 with h2 | h2
    · exact h3.1 h2
    · exact h3.2 h2
  have hex : (validateLlmsTxt toLowerCase "# " (ValidationResult.new file type)).errors =
      [⟨msgLlmsH1, some 1⟩, ⟨msgLlmsBlockquote, none⟩] := by
    have hi : IsFirstNonBlank (split '\n' ("# " : Str)) 0 := by unfold IsFirstNonBlank; decide
    rw [validateLlmsTxt_errors toLowerCase "# " _ 0 hi]
    have h1 : startsWith (trim ((split '\n' ("# " : Str)).getD 0 [])) "# " = false := by decide
    have h2 : ((split '\n' ("# " : Str)).any fun l => startsWith (trim l) "> ") = false := by
      decide
    rw [h1, h2]
    rfl
  have hne1 : msgLlmsH1 ≠ msgLlmsH1Text := by decide
  have hne2 : msgLlmsBlockquote ≠ msgLlmsH1Text := by decide
  have hne3 : msgFileIsEmpty ≠ msgLlmsH1Text := by decide
  by_cases hfirst : ∃ i, IsFirstNonBlank (split '\n' content) i
  · obtain ⟨i, hi⟩ := hfirst
    have herr := validateLlmsTxt_errors toLowerCase content (ValidationResult.new file type) i hi
    have hnew : (ValidationResult.new file type).errors = [] := rfl
    rw [hnew, List.nil_append] at herr
    rw [herr]
    refine ⟨?_, hdead, hex, ?_⟩
    · intro e he
      rw [List.mem_append] at he
      rcases he with he | he
      · split at he
        · simp at he
        · rw [List.mem_singleton] at he
          rw [he]
          exact hne1
      · split at he
        · simp at he
        · rw [List.mem_singleton] at he
          rw [he]
          exact hne2
    · rw [List.length_append]
      have h1 : (if startsWith (trim ((split '\n' content).getD i [])) "# " = true then []
          else [(⟨msgLlmsH1, some (i + 1)⟩ : Issue)]).length ≤ 1 := by
        split <;> simp
      have h2 : (if ((split '\n' content).any fun l => startsWith (trim l) "> ") = true then []
          else [(⟨msgLlmsBlockquote, none⟩ : Issue)]).length ≤ 1 := by
        split <;> simp
      omega
  · have hall : ∀ i, ¬ IsFirstNonBlank (split '\n' content) i := fun i hi => hfirst ⟨i, hi⟩
    rw [validateLlmsTxt_blank toLowerCase content _ hall]
    refine ⟨?_, hdead, hex, ?_⟩
    · intro e he
      have : e = ⟨msgFileIsEmpty, none⟩ := by
        simpa [ValidationResult.error, ValidationResult.new] using he
      rw [this]
      exact hne3
    · simp [ValidationResult.error, ValidationResult.new]

/-! ## Cross-file validation -/

theorem fileMapHas_iff (results : List ValidationResult) (type : Str) :
    fileMapHas results type = true ↔ type ∈ results.map (fun r => r.type) := by
  simp only [fileMapHas, List.any_eq_true, beq_iff_eq, List.mem_map]

theorem fileMapHas_congr (results results' : List ValidationResult)
    (h : ∀ t, t ∈ results.map (fun r => r.type) ↔ t ∈ results'.map (fun r => r.type))
    (type : Str) : fileMapHas results type = fileMapHas results' type := by
  rw [Bool.eq_iff_iff, fileMapHas_iff, fileMapHas_iff]
  exact h type

/-- C20: `crossValidate` returns a result of type `cross-validation` without
errors, whose number of warnings is [llms-txt absent] + [ai-txt absent] +
[ai-txt and ai-json present] + [llms-txt and identity-json present]; it
depends only on the set of type tags of the results; the two types tested for
absence are the registry entries of tier `essential`; there are at most two
warnings, and exactly two for results of types ai-json and identity-json
only. -/
theorem crossValidate_warnings (results : List ValidationResult) :
    (crossValidate results).type = ("cross-validation" : Str) ∧
      (crossValidate results).errors = [] ∧
      (crossValidate results).valid = true ∧
      (crossValidate results).warnings.length =
        indicator (!fileMapHas results "llms-txt") + indicator (!fileMapHas results "ai-txt") +
          indicator (fileMapHas results "ai-txt" && fileMapHas results "ai-json") +
          indicator (fileMapHas results "llms-txt" && fileMapHas results "identity-json") ∧
      (∀ type, fileMapHas results type = true ↔ type ∈ results.map (fun r => r.type)) ∧
      (∀ results' : List ValidationResult,
        (∀ t, t ∈ results.map (fun r => r.type) ↔ t ∈ results'.map (fun r => r.type)) →
          crossValidate results' = crossValidate results) ∧
      ((FILE_TYPES.filter fun kv => kv.2.tier == ("essential" : Str)).map (fun kv => kv.2.type) =
        [("llms-txt" : Str), "ai-txt"]) ∧
      (crossValidate results).warnings.length ≤ 2 ∧
      ((∀ t, t ∈ results.map (fun r => r.type) ↔ t = ("ai-json" : Str) ∨ t = ("identity-json" : Str)) →
        (crossValidate results).warnings.length = 2) := by
  have hcount : (crossValidate results).warnings.length =
      indicator (!fileMapHas results "llms-txt") + indicator (!fileMapHas results "ai-txt") +
        indicator (fileMapHas results "ai-txt" && fileMapHas results "ai-json") +
        indicator (fileMapHas results "llms-txt" && fileMapHas results "identity-json") := by
    unfold crossValidate
    cases fileMapHas results "llms-txt" <;> cases fileMapHas results "ai-txt" <;>
      cases fileMapHas results "ai-json" <;> cases fileMapHas results "identity-json" <;> rfl
  refine ⟨?_, ?_, ?_, hcount, fileMapHas_iff results, ?_, by decide, ?_, ?_⟩
  · unfold crossValidate
    cases fileMapHas results "llms-txt" <;> cases fileMapHas results "ai-txt" <;>
      cases fileMapHas results "ai-json" <;> cases fileMapHas results "identity-json" <;> rfl
  · unfold crossValidate
    cases fileMapHas results "llms-txt" <;> cases fileMapHas results "ai-txt" <;>
      cases fileMapHas results "ai-json" <;> cases fileMapHas results "identity-json" <;> rfl
  · unfold crossValidate
    cases fileMapHas results "llms-txt" <;> cases fileMapHas results "ai-txt" <;>
      cases fileMapHas results "ai-json" <;> cases fileMapHas results "identity-json" <;> rfl
  · intro results' h
    unfold crossValidate
    simp only [fileMapHas_congr results results' h]
  · rw [hcount]
    cases fileMapHas results "llms-txt" <;> cases fileMapHas results "ai-txt" <;>
      cases fileMapHas results "ai-json" <;> cases fileMapHas results "identity-json" <;> decide
  · intro h
    have h1 : fileMapHas results "llms-txt" = false := by
      rw [← Bool.not_eq_true, fileMapHas_iff, h]
      decide
    have h2 : fileMapHas results "ai-txt" = false := by
      rw [← Bool.not_eq_true, fileMapHas_iff, h]
      decide
    rw [hcount, h1, h2]
    rfl

theorem crossValidate_warnings_witness :
    (crossValidate [ValidationResult.new "ai.json" "ai-json",
        ValidationResult.new "identity.json" "identity-json"]).warnings.length = 2 :=
  (crossValidate_warnings [ValidationResult.new "ai.json" "ai-json",
      ValidationResult.new "identity.json" "identity-json"]).2.2.2.2.2.2.2.2
    (by
      intro t
      simp only [List.map_cons, List.map_nil, List.mem_cons, List.mem_singleton,
        List.not_mem_nil, or_false]
      exact Iff.rfl)

/-! ## The schema interpreter -/

theorem validateJsonSchema_zero (env : JsEnv) (data : JsValue) (schema rootSchema : Schema)
    (path : Str) : validateJsonSchema env 0 data schema rootSchema path = .error .stackOverflow :=
  rfl

theorem validateJsonSchema_oneOf_eq (env : JsEnv) (fuel : Nat) (data : JsValue)
    (schema rootSchema : Schema) (path : Str) (branches : List Schema)
    (h : schema.oneOf = some branches) :
    validateJsonSchema env (fuel + 1) data schema rootSchema path =
      match oneOfSome (fun sub => validateJsonSchema env fuel data sub rootSchema path)
        branches with
      | .error e => .error e
      | .ok valid => .ok (if !valid then [⟨pathOrRoot path, msgOneOf⟩] else []) := by
  simp only [validateJsonSchema, h]

theorem validateJsonSchema_ref_eq (env : JsEnv) (fuel : Nat) (data : JsValue)
    (schema rootSchema : Schema) (path ref : Str) (h : schema.oneOf = none)
    (href : truthyString schema.ref = some ref) :
    validateJsonSchema env (fuel + 1) data schema rootSchema path =
      match resolveRef rootSchema (replaceFirst "#/$defs/" "" ref) with
      | .resolved resolved => validateJsonSchema env fuel data resolved rootSchema path
      | .inherited => .ok []
      | .unresolved => .ok [⟨path, msgUnresolvedRef ref⟩] := by
  simp only [validateJsonSchema, h, href]

theorem validateJsonSchema_node_eq (env : JsEnv) (fuel : Nat) (data : JsValue)
    (schema rootSchema : Schema) (path : Str) (h : schema.oneOf = none)
    (href : truthyString schema.ref = none) :
    validateJsonSchema env (fuel + 1) data schema rootSchema path =
      match typeError data schema path with
      | some err => .ok [err]
      | none =>
        checksAfterType env
          (fun value sub subPath => validateJsonSchema env fuel value sub rootSchema subPath)
          data schema path := by
  simp only [validateJsonSchema, h, href]

/-- The test of `oneOf` succeeds exactly when a branch yields no error, if
every branch returns. -/
theorem oneOfSome_of_returns (validate : Schema → Except JsError (List SchemaError))
    (branches : List Schema) (hret : ∀ sub ∈ branches, ∃ errs, validate sub = .ok errs) :
    oneOfSome validate branches = .ok (decide (∃ sub ∈ branches, validate sub = .ok [])) := by
  induction branches with
  | nil => simp [oneOfSome]
  | cons sub rest ih =>
    obtain ⟨errs, herrs⟩ := hret sub (by simp)
    have ih' := ih fun s hs => hret s (List.mem_cons_of_mem _ hs)
    simp only [oneOfSome, herrs]
    cases errs with
    | nil => simp [herrs]
    | cons e es =>
      simp only [List.length_cons, Nat.add_one_ne_zero, beq_iff_eq, if_false, ih',
        List.mem_cons, exists_eq_or_imp, herrs, Except.ok.injEq, reduceCtorEq, false_or]

/-- A successful test of `oneOf` comes from a branch that yields no error. -/
theorem oneOfSome_true (validate : Schema → Except JsError (List SchemaError))
    (branches : List Schema) (h : oneOfSome validate branches = .ok true) :
    ∃ sub ∈ branches, validate sub = .ok [] := by
  induction branches with
  | nil => simp [oneOfSome] at h
  | cons sub rest ih =>
    simp only [oneOfSome] at h
    cases hv : validate sub with
    | error e => simp [hv] at h
    | ok errs =>
      rw [hv] at h
      cases errs with
      | nil => exact ⟨sub, by simp, hv⟩
      | cons e es =>
        simp only [List.length_cons, Nat.add_one_ne_zero, beq_iff_eq, if_false] at h
        obtain ⟨s, hs, hs'⟩ := ih h
        exact ⟨s, List.mem_cons_of_mem _ hs, hs'⟩

/-- The test of `oneOf` succeeds exactly when some branch yields no error and
every branch before it returned with errors. -/
theorem oneOfSome_ok_true_iff (validate : Schema → Except JsError (List SchemaError))
    (branches : List Schema) :
    oneOfSome validate branches = .ok true ↔
      ∃ pre sub post, branches = pre ++ sub :: post ∧ validate sub = .ok [] ∧
        ∀ p ∈ pre, ∃ errs, errs ≠ [] ∧ validate p = .ok errs := by
  induction branches with
  | nil =>
    simp only [oneOfSome, Except.ok.injEq, Bool.false_eq_true, false_iff]
    rintro ⟨pre, sub, post, h, -⟩
    simp at h
  | cons b rest ih =>
    simp only [oneOfSome]
    cases hb : validate b with
    | error e =>
      simp only [reduceCtorEq, false_iff]
      rintro ⟨pre, sub, post, h, hsub, hpre⟩
      cases pre with
      | nil =>
        simp only [List.nil_append, List.cons.injEq] at h
        rw [← h.1, hb] at hsub
        cases hsub
      | cons p ps =>
        simp only [List.cons_append, List.cons.injEq] at h
        obtain ⟨errs, -, hp⟩ := hpre p (by simp)
        rw [← h.1, hb] at hp
        cases hp
    | ok errs =>
      cases errs with
      | nil =>
        simp only [List.length_nil, beq_self_eq_true, if_true, true_iff]
        exact ⟨[], b, rest, rfl, hb, by simp⟩
      | cons e es =>
        simp only [List.length_cons, Nat.add_one_ne_zero, beq_iff_eq, if_false]
        rw [ih]
        constructor
        · rintro ⟨pre, sub, post, h, hsub, hpre⟩
          refine ⟨b :: pre, sub, post, by rw [h]; rfl, hsub, ?_⟩
          intro p hp
          rcases List.mem_cons.1 hp with rfl | hp
          · exact ⟨e :: es, by simp, hb⟩
          · exact hpre p hp
        · rintro ⟨pre, sub, post, h, hsub, hpre⟩
          cases pre with
          | nil =>
            simp only [List.nil_append, List.cons.injEq] at h
            rw [← h.1, hb] at hsub
            cases hsub
          | cons p ps =>
            simp only [List.cons_append, List.cons.injEq] at h
            exact ⟨ps, sub, post, h.2, hsub, fun q hq => hpre q (List.mem_cons_of_mem _ hq)⟩

/-- The test of `oneOf` fails exactly when every branch returned with
errors. -/
theorem oneOfSome_ok_false_iff (validate : Schema → Except JsError (List SchemaError))
    (branches : List Schema) :
    oneOfSome validate branches = .ok false ↔
      ∀ b ∈ branches, ∃ errs, errs ≠ [] ∧ validate b = .ok errs := by
  induction branches with
  | nil => simp [oneOfSome]
  | cons b rest ih =>
    simp only [oneOfSome, List.mem_cons, forall_eq_or_imp]
    cases hb : validate b with
    | error e => simp
    | ok errs =>
      cases errs with
      | nil => simp
      | cons e es =>
        simp only [List.length_cons, Nat.add_one_ne_zero, beq_iff_eq, if_false]
        rw [ih]
        simp

/-- The test of `oneOf` throws exactly when some branch throws and every
branch before it returned with errors. -/
theorem oneOfSome_error_iff (validate : Schema → Except JsError (List SchemaError))
    (branches : List Schema) (err : JsError) :
    oneOfSome validate branches = .error err ↔
      ∃ pre sub post, branches = pre ++ sub :: post ∧ validate sub = .error err ∧
        ∀ p ∈ pre, ∃ errs, errs ≠ [] ∧ validate p = .ok errs := by
  induction branches with
  | nil =>
    simp only [oneOfSome, reduceCtorEq, false_iff]
    rintro ⟨pre, sub, post, h, -⟩
    simp at h
  | cons b rest ih =>
    simp only [oneOfSome]
    cases hb : validate b with
    | error e =>
      simp only [Except.error.injEq]
      constructor
      · rintro rfl
        exact ⟨[], b, rest, rfl, hb, by simp⟩
      · rintro ⟨pre, sub, post, h, hsub, hpre⟩
        cases pre with
        | nil =>
          simp only [List.nil_append, List.cons.injEq] at h
          rw [← h.1, hb] at hsub
          simpa using hsub
        | cons p ps =>
          simp only [List.cons_append, List.cons.injEq] at h
          obtain ⟨errs, -, hp⟩ := hpre p (by simp)
          rw [← h.1, hb] at hp
          cases hp
    | ok errs =>
      cases errs with
      | nil =>
        simp only [List.length_nil, beq_self_eq_true, if_true, reduceCtorEq, false_iff]
        rintro ⟨pre, sub, post, h, hsub, hpre⟩
        cases pre with
        | nil =>
          simp only [List.nil_append, List.cons.injEq] at h
          rw [← h.1, hb] at hsub
          cases hsub
        | cons p ps =>
          simp only [List.cons_append, List.cons.injEq] at h
          obtain ⟨errs, hne, hp⟩ := hpre p (by simp)
          rw [← h.1, hb] at hp
          simp only [Except.ok.injEq] at hp
          exact hne hp.symm
      | cons e es =>
        simp only [List.length_cons, Nat.add_one_ne_zero, beq_iff_eq, if_false]
        rw [ih]
        constructor
        · rintro ⟨pre, sub, post, h, hsub, hpre⟩
          refine ⟨b :: pre, sub, post, by rw [h]; rfl, hsub, ?_⟩
          intro p hp
          rcases List.mem_cons.1 hp with rfl | hp
          · exact ⟨e :: es, by simp, hb⟩
          · exact hpre p hp
        · rintro ⟨pre, sub, post, h, hsub, hpre⟩
          cases pre with
          | nil =>
            simp only [List.nil_append, List.cons.injEq] at h
            rw [← h.1, hb] at hsub
            cases hsub
          | cons p ps =>
            simp only [List.cons_append, List.cons.injEq] at h
            exact ⟨ps, sub, post, h.2, hsub, fun q hq => hpre q (List.mem_cons_of_mem _ hq)⟩

/-- The outcome of a node with `oneOf`, by the outcome of the test. -/
theorem validateJsonSchema_oneOf_cases (env : JsEnv) (fuel : Nat) (data : JsValue)
    (schema rootSchema : Schema) (path : Str) (branches : List Schema)
    (h : schema.oneOf = some branches) :
    (validateJsonSchema env (fuel + 1) data schema rootSchema path = .ok [] ↔
        oneOfSome (fun sub => validateJsonSchema env fuel data sub rootSchema path) branches =
          .ok true) ∧
      (validateJsonSchema env (fuel + 1) data schema rootSchema path =
          .ok [⟨pathOrRoot path, msgOneOf⟩] ↔
        oneOfSome (fun sub => validateJsonSchema env fuel data sub rootSchema path) branches =
          .ok false) ∧
      (∀ err, validateJsonSchema env (fuel + 1) data schema rootSchema path = .error err ↔
        oneOfSome (fun sub => validateJsonSchema env fuel data sub rootSchema path) branches =
          .error err) := by
  rw [validateJsonSchema_oneOf_eq env fuel data schema rootSchema path branches h]
  cases hs : oneOfSome (fun sub => validateJsonSchema env fuel data sub rootSchema path)
      branches with
  | error e => simp
  | ok valid => cases valid <;> simp
/-- The `oneOf` rule when every branch returns: the result is empty exactly
when some branch yields no error, and otherwise it is the single error `Value
does not match any oneOf schema` at the current path (`(root)` for the empty
path); the errors of the branches never appear.  An empty result always comes
from a branch that yields no error, and a returned list is always one of the
two. -/
theorem validateJsonSchema_oneOf_returns (env : JsEnv) (fuel : Nat) (data : JsValue)
    (schema rootSchema : Schema) (path : Str) (branches : List Schema)
    (h : schema.oneOf = some branches) :
    (validateJsonSchema env (fuel + 1) data schema rootSchema path = .ok [] →
        ∃ sub ∈ branches, validateJsonSchema env fuel data sub rootSchema path = .ok []) ∧
      (∀ errs, validateJsonSchema env (fuel + 1) data schema rootSchema path = .ok errs →
        errs = [] ∨ errs = [⟨pathOrRoot path, msgOneOf⟩]) ∧
      ((∀ sub ∈ branches,
          ∃ errs, validateJsonSchema env fuel data sub rootSchema path = .ok errs) →
        (validateJsonSchema env (fuel + 1) data schema rootSchema path = .ok [] ↔
            ∃ sub ∈ branches, validateJsonSchema env fuel data sub rootSchema path = .ok []) ∧
          ((¬ ∃ sub ∈ branches,
              validateJsonSchema env fuel data sub rootSchema path = .ok []) →
            validateJsonSchema env (fuel + 1) data schema rootSchema path =
              .ok [⟨pathOrRoot path, msgOneOf⟩])) ∧
      pathOrRoot [] = ("(root)" : Str) := by
  rw [validateJsonSchema_oneOf_eq env fuel data schema rootSchema path branches h]
  refine ⟨?_, ?_, ?_, rfl⟩
  · intro h0
    cases hs : oneOfSome (fun sub => validateJsonSchema env fuel data sub rootSchema path)
        branches with
    | error e => simp [hs] at h0
    | ok valid =>
      cases valid with
      | true => exact oneOfSome_true _ _ hs
      | false => simp [hs] at h0
  · intro errs h0
    cases hs : oneOfSome (fun sub => validateJsonSchema env fuel data sub rootSchema path)
        branches with
    | error e => simp [hs] at h0
    | ok valid =>
      cases valid with
      | true =>
        left
        simpa [hs] using h0.symm
      | false =>
        right
        simpa [hs] using h0.symm
  · intro hret
    rw [oneOfSome_of_returns _ branches hret]
    by_cases hex : ∃ sub ∈ branches, validateJsonSchema env fuel data sub rootSchema path = .ok []
    · simp [hex]
    · simp [hex]

/-- The number `5` matches the second branch of `stringOrNumber` and is
accepted; the text-or-number schema rejects `null` with the single `oneOf`
error at `(root)`. -/
theorem validateJsonSchema_oneOf_returns_example :
    validateJsonSchema sampleEnv 2 (.json five) stringOrNumber stringOrNumber [] = .ok [] ∧
      validateJsonSchema sampleEnv 2 (.json .null) stringOrNumber stringOrNumber [] =
        .ok [⟨"(root)", msgOneOf⟩] :=
  ⟨((validateJsonSchema_oneOf_returns sampleEnv 1 (.json five) stringOrNumber stringOrNumber []
        [Schema.ofType "string", Schema.ofType "number"] rfl).2.2.1
      (by
        intro sub hsub
        simp only [List.mem_cons, List.mem_singleton, List.not_mem_nil, or_false] at hsub
        rcases hsub with rfl | rfl
        · exact ⟨_, rfl⟩
        · exact ⟨_, rfl⟩)).1.2
      ⟨Schema.ofType "number", by simp, rfl⟩,
    ((validateJsonSchema_oneOf_returns sampleEnv 1 (.json .null) stringOrNumber stringOrNumber []
        [Schema.ofType "string", Schema.ofType "number"] rfl).2.2.1
      (by
        intro sub hsub
        simp only [List.mem_cons, List.mem_singleton, List.not_mem_nil, or_false] at hsub
        rcases hsub with rfl | rfl
        · exact ⟨_, rfl⟩
        · exact ⟨_, rfl⟩)).2
      (by
        rintro ⟨sub, hsub, h0⟩
        simp only [List.mem_cons, List.mem_singleton, List.not_mem_nil, or_false] at hsub
        rcases hsub with rfl | rfl
        · exact absurd h0 (by decide)
        · exact absurd h0 (by decide))⟩

/-- C12: against the node `{"oneOf": [{"type": "object", "required": ["a"]},
{}]}` the value `null` satisfies the second branch, which yields no error on
the same data and path, and yet the call returns no list: the first branch
reads a property of `null` and throws, so the second branch is never tried. -/
theorem validateJsonSchema_oneOf_null_throws (env : JsEnv) (fuel : Nat)
    (rootSchema : Schema) (path : Str) :
    validateJsonSchema env (fuel + 1) (.json .null) Schema.empty rootSchema path = .ok [] ∧
      validateJsonSchema env (fuel + 1) (.json .null) (Schema.ofRequired ["a"]) rootSchema
        path = .error (.nullProperty "a") ∧
      validateJsonSchema env (fuel + 2) (.json .null)
        (Schema.ofOneOf [Schema.ofRequired ["a"], Schema.empty]) rootSchema path =
        .error (.nullProperty "a") :=
  ⟨rfl, rfl, rfl⟩

theorem truthyString_some_of_ne_nil (t : Str) (h : t ≠ []) : truthyString (some t) = some t := by
  cases t with
  | nil => exact absurd rfl h
  | cons c s => rfl

/-- The type check pushes its error exactly on a type mismatch. -/
theorem typeError_eq (data : JsValue) (schema : Schema) (path t : Str)
    (ht : schema.type = some t) (hne : t ≠ []) [Decidable (TypeMismatch t data)] :
    typeError data schema path =
      if TypeMismatch t data then
        some ⟨pathOrRoot path, msgExpectedType t (actualType data)⟩
      else none := by
  unfold typeError
  rw [ht, truthyString_some_of_ne_nil t hne]
  simp only [TypeMismatch, actualType]
  by_cases hint : t = ("integer" : Str)
  · subst hint
    simp only [beq_self_eq_true, if_true]
    cases data with
    | json value =>
      cases value with
      | num n =>
        cases hn : n.isInteger with
        | true => simp [hn]
        | false => simp [hn]
      | _ => simp
    | _ => simp
  · have hb : (t == ("integer" : Str)) = false := by simpa using hint
    simp only [hb, if_neg hint, Bool.false_eq_true, if_false, bne_iff_ne, ne_eq]

/-- C13: for a node without `oneOf` and `$ref` that declares the type `t`, on
a type mismatch (for `integer`: the data is not a whole number; otherwise `t`
differs from `array` for an array and from the `typeof` name of any other
value) the result is the single error `Expected t, got actualType` at the
current path, so that no later check of the node is evaluated; when the type
matches, the result is that of the later checks. -/
theorem validateJsonSchema_type (env : JsEnv) (fuel : Nat) (data : JsValue)
    (schema rootSchema : Schema) (path t : Str)
    (hone : schema.oneOf = none) (href : schema.ref = none)
    (ht : schema.type = some t) (hne : t ≠ []) :
    (TypeMismatch t data →
        validateJsonSchema env (fuel + 1) data schema rootSchema path =
          .ok [⟨pathOrRoot path, msgExpectedType t (actualType data)⟩]) ∧
      (¬ TypeMismatch t data →
        validateJsonSchema env (fuel + 1) data schema rootSchema path =
          checksAfterType env
            (fun value sub subPath => validateJsonSchema env fuel value sub rootSchema subPath)
            data schema path) := by
  have href' : truthyString schema.ref = none := by rw [href]; rfl
  rw [validateJsonSchema_node_eq env fuel data schema rootSchema path hone href']
  classical
  rw [typeError_eq data schema path t ht hne]
  constructor
  · intro hm
    rw [if_pos hm]
  · intro hm
    rw [if_neg hm]

/-- The number `5` against `{"type": "string"}` gives `Expected string, got
number` at `(root)`. -/
theorem validateJsonSchema_type_witness :
    validateJsonSchema sampleEnv 1 (.json five) (Schema.ofType "string")
        (Schema.ofType "string") [] =
      .ok [⟨"(root)", "Expected string, got number"⟩] :=
  (validateJsonSchema_type sampleEnv 0 (.json five) (Schema.ofType "string")
    (Schema.ofType "string") [] "string" rfl rfl rfl (by decide)).1
    (by
      unfold TypeMismatch
      rw [if_neg (by decide)]
      decide)

theorem replaceFirst_defs_prefix (name : Str) :
    replaceFirst "#/$defs/" "" (("#/$defs/" : Str) ++ name) = name := by
  have h : (("#/$defs/" : Str)) = ['#', '/', '$', 'd', 'e', 'f', 's', '/'] := rfl
  rw [h]
  simp [replaceFirst, startsWith]

theorem truthyString_defs_prefix (name : Str) :
    truthyString (some (("#/$defs/" : Str) ++ name)) = some (("#/$defs/" : Str) ++ name) :=
  rfl

/-- A reference `#/$defs/name` whose name is a definition of the root schema
is validated as that definition, on the same data and path, whatever the
sibling keywords; a name that is neither a definition nor a member inherited
from `Object.prototype` gives the single error `Unresolved $ref`. -/
theorem validateJsonSchema_ref (env : JsEnv) (fuel : Nat) (data : JsValue)
    (schema rootSchema : Schema) (path name : Str)
    (hone : schema.oneOf = none) (href : schema.ref = some (("#/$defs/" : Str) ++ name)) :
    (∀ defs resolved, rootSchema.defs = some defs → defs.lookup name = some resolved →
        validateJsonSchema env (fuel + 1) data schema rootSchema path =
          validateJsonSchema env fuel data resolved rootSchema path) ∧
      ((rootSchema.defs = none ∨
          ∃ defs, rootSchema.defs = some defs ∧ defs.lookup name = none ∧
            name ∉ objectPrototypeKeys) →
        validateJsonSchema env (fuel + 1) data schema rootSchema path =
          .ok [⟨path, msgUnresolvedRef (("#/$defs/" : Str) ++ name)⟩]) := by
  have href' : truthyString schema.ref = some (("#/$defs/" : Str) ++ name) := by
    rw [href, truthyString_defs_prefix]
  rw [validateJsonSchema_ref_eq env fuel data schema rootSchema path _ hone href',
    replaceFirst_defs_prefix]
  constructor
  · intro defs resolved hdefs hlook
    simp only [resolveRef, hdefs, hlook]
  · rintro (hdefs | ⟨defs, hdefs, hlook, hname⟩)
    · simp only [resolveRef, hdefs]
    · have hc : objectPrototypeKeys.contains name = false := by
        simpa using hname
      simp only [resolveRef, hdefs, hlook, hc, Bool.false_eq_true, if_false]

/-- The reference to the definition `text` of the root schema validates the
number `5` as that definition does. -/
theorem validateJsonSchema_ref_witness :
    validateJsonSchema sampleEnv 2 (.json five)
        (Schema.ofRef [("text", Schema.ofType "string")] "#/$defs/text")
        (Schema.ofRef [("text", Schema.ofType "string")] "#/$defs/text") [] =
      validateJsonSchema sampleEnv 1 (.json five) (Schema.ofType "string")
        (Schema.ofRef [("text", Schema.ofType "string")] "#/$defs/text") [] :=
  (validateJsonSchema_ref sampleEnv 1 (.json five)
    (Schema.ofRef [("text", Schema.ofType "string")] "#/$defs/text")
    (Schema.ofRef [("text", Schema.ofType "string")] "#/$defs/text") [] "text" rfl rfl).1
    _ _ rfl rfl

/-- C14: the root schema `{"$defs": {}, "$ref": "#/$defs/constructor"}` has no
definition named `constructor`, and yet the reference gives no `Unresolved
$ref` error: the lookup finds the member that `$defs` inherits from
`Object.prototype`, and the call on it returns the empty list. -/
theorem validateJsonSchema_ref_inherited (env : JsEnv) (fuel : Nat) (data : JsValue)
    (path : Str) :
    validateJsonSchema env (fuel + 1) data (Schema.ofRef [] "#/$defs/constructor")
        (Schema.ofRef [] "#/$defs/constructor") path = .ok [] ∧
      (Schema.ofRef [] "#/$defs/constructor").defs = some [] :=
  ⟨rfl, rfl⟩

/-- C24: a top-level call on the root schema `{"$defs": {}, "$ref":
"#/$defs/missing"}` returns one error, `Unresolved $ref`, whose path is the
empty text and not `(root)`. -/
theorem validateJsonSchema_unresolved_path (env : JsEnv) (fuel : Nat) (data : JsValue) :
    validateJsonSchema env (fuel + 1) data (Schema.ofRef [] "#/$defs/missing")
        (Schema.ofRef [] "#/$defs/missing") [] =
      .ok [⟨[], msgUnresolvedRef "#/$defs/missing"⟩] ∧
      ([] : Str) ≠ ("(root)" : Str) :=
  ⟨rfl, by decide⟩

/-- C22: the number `5` satisfies the branch `{"type": "number"}` of the node
`{"type": "string", "oneOf": [{"type": "number"}, {"type": "boolean"}]}` and
violates its sibling keyword `type`, and the result holds no error. -/
theorem validateJsonSchema_oneOf_sibling_counterexample :
    validateJsonSchema sampleEnv 2 (.json five)
        (Schema.ofTypeOneOf "string" [Schema.ofType "number", Schema.ofType "boolean"])
        (Schema.ofTypeOneOf "string" [Schema.ofType "number", Schema.ofType "boolean"]) [] =
      .ok [] ∧
      validateJsonSchema sampleEnv 1 (.json five) (Schema.ofType "number")
        (Schema.ofTypeOneOf "string" [Schema.ofType "number", Schema.ofType "boolean"]) [] =
      .ok [] ∧
      validateJsonSchema sampleEnv 1 (.json five) (Schema.ofType "string")
        (Schema.ofTypeOneOf "string" [Schema.ofType "number", Schema.ofType "boolean"]) [] =
      .ok [⟨"(root)", "Expected string, got number"⟩] := by
  decide

/-- C22 (amended): a node that has `oneOf` is validated by its `oneOf` alone.
The outcome is that of the node `{"oneOf": branches}` without the sibling
keywords, and a returned list is empty or the single `oneOf` error: no error
of a sibling keyword is ever reported.  The branches are tried in order on the
same data and path: the result is the empty list exactly when some branch
yields no error and every branch before it returned with errors; it is the
single `oneOf` error exactly when every branch returned with errors; the call
throws exactly when some branch throws and every branch before it returned
with errors.  In particular, when every branch returns, the result is empty
if and only if some branch yields no error, and the single `oneOf` error
otherwise. -/
theorem validateJsonSchema_oneOf_only (env : JsEnv) (fuel : Nat) (data : JsValue)
    (schema rootSchema : Schema) (path : Str) (branches : List Schema)
    (h : schema.oneOf = some branches) :
    validateJsonSchema env fuel data schema rootSchema path =
        validateJsonSchema env fuel data (Schema.ofOneOf branches) rootSchema path ∧
      (∀ errs, validateJsonSchema env fuel data schema rootSchema path = .ok errs →
        errs = [] ∨ errs = [⟨pathOrRoot path, msgOneOf⟩]) ∧
      (validateJsonSchema env (fuel + 1) data schema rootSchema path = .ok [] ↔
        ∃ pre sub post, branches = pre ++ sub :: post ∧
          validateJsonSchema env fuel data sub rootSchema path = .ok [] ∧
          ∀ p ∈ pre, ∃ errs, errs ≠ [] ∧
            validateJsonSchema env fuel data p rootSchema path = .ok errs) ∧
      (validateJsonSchema env (fuel + 1) data schema rootSchema path =
          .ok [⟨pathOrRoot path, msgOneOf⟩] ↔
        ∀ b ∈ branches, ∃ errs, errs ≠ [] ∧
          validateJsonSchema env fuel data b rootSchema path = .ok errs) ∧
      (∀ err, validateJsonSchema env (fuel + 1) data schema rootSchema path = .error err ↔
        ∃ pre sub post, branches = pre ++ sub :: post ∧
          validateJsonSchema env fuel data sub rootSchema path = .error err ∧
          ∀ p ∈ pre, ∃ errs, errs ≠ [] ∧
            validateJsonSchema env fuel data p rootSchema path = .ok errs) ∧
      ((∀ b ∈ branches,
          ∃ errs, validateJsonSchema env fuel data b rootSchema path = .ok errs) →
        (validateJsonSchema env (fuel + 1) data schema rootSchema path = .ok [] ↔
            ∃ sub ∈ branches, validateJsonSchema env fuel data sub rootSchema path = .ok []) ∧
          ((¬ ∃ sub ∈ branches,
              validateJsonSchema env fuel data sub rootSchema path = .ok []) →
            validateJsonSchema env (fuel + 1) data schema rootSchema path =
              .ok [⟨pathOrRoot path, msgOneOf⟩])) := by
  have hcases := validateJsonSchema_oneOf_cases env fuel data schema rootSchema path branches h
  refine ⟨?_, ?_, ?_, ?_, ?_, ?_⟩
  · cases fuel with
    | zero => rfl
    | succ fuel =>
      exact (validateJsonSchema_oneOf_eq env fuel data schema rootSchema path branches h).trans
        (validateJsonSchema_oneOf_eq env fuel data (Schema.ofOneOf branches) rootSchema
          path branches rfl).symm
  · cases fuel with
    | zero => exact fun errs h0 => by simp [validateJsonSchema] at h0
    | succ fuel =>
      intro errs h0
      rw [validateJsonSchema_oneOf_eq env fuel data schema rootSchema path branches h] at h0
      cases hs : oneOfSome (fun sub => validateJsonSchema env fuel data sub rootSchema path)
          branches with
      | error e => simp [hs] at h0
      | ok valid =>
        cases valid with
        | true =>
          left
          simpa [hs] using h0.symm
        | false =>
          right
          simpa [hs] using h0.symm
  · rw [hcases.1, oneOfSome_ok_true_iff]
  · rw [hcases.2.1, oneOfSome_ok_false_iff]
  · intro err
    rw [hcases.2.2 err, oneOfSome_error_iff]
  · intro hret
    rw [validateJsonSchema_oneOf_eq env fuel data schema rootSchema path branches h,
      oneOfSome_of_returns _ branches hret]
    by_cases hex : ∃ sub ∈ branches,
        validateJsonSchema env fuel data sub rootSchema path = .ok []
    · simp [hex]
    · simp [hex]

/-- The node `{"type": "string", "oneOf": [{"type": "number"}, {"type":
"boolean"}]}` gives on the number `5` what `{"oneOf": [...]}` gives, and that
is the empty list, the first branch yielding no error. -/
theorem validateJsonSchema_oneOf_only_witness :
    validateJsonSchema sampleEnv 2 (.json five)
        (Schema.ofTypeOneOf "string" [Schema.ofType "number", Schema.ofType "boolean"])
        Schema.empty [] =
      validateJsonSchema sampleEnv 2 (.json five)
        (Schema.ofOneOf [Schema.ofType "number", Schema.ofType "boolean"]) Schema.empty [] ∧
    validateJsonSchema sampleEnv 2 (.json five)
        (Schema.ofTypeOneOf "string" [Schema.ofType "number", Schema.ofType "boolean"])
        Schema.empty [] = .ok [] :=
  ⟨(validateJsonSchema_oneOf_only sampleEnv 2 (.json five)
      (Schema.ofTypeOneOf "string" [Schema.ofType "number", Schema.ofType "boolean"])
      Schema.empty [] [Schema.ofType "number", Schema.ofType "boolean"] rfl).1,
    (validateJsonSchema_oneOf_only sampleEnv 1 (.json five)
      (Schema.ofTypeOneOf "string" [Schema.ofType "number", Schema.ofType "boolean"])
      Schema.empty [] [Schema.ofType "number", Schema.ofType "boolean"] rfl).2.2.1.2
      ⟨[], Schema.ofType "number", [Schema.ofType "boolean"], rfl, rfl,
        fun p hp => absurd hp (List.not_mem_nil p)⟩⟩

/-- C23: the number `5` is not the constant `"a"` of the node `{"type":
"string", "const": "a"}`, and the result is the type error alone, without a
`const` error. -/
theorem validateJsonSchema_const_counterexample :
    validateJsonSchema sampleEnv 1 (.json five) (Schema.ofTypeConst "string" (.str "a"))
        (Schema.ofTypeConst "string" (.str "a")) [] =
      .ok [⟨"(root)", "Expected string, got number"⟩] ∧
      strictEq (.json five) (.str "a") = false := by
  decide

theorem typeError_of_not_mismatch (data : JsValue) (schema : Schema) (path : Str)
    (h : schema.type = none ∨ ∃ t, schema.type = some t ∧ ¬ TypeMismatch t data) :
    typeError data schema path = none := by
  rcases h with h | ⟨t, ht, hm⟩
  · simp only [typeError, h, truthyString]
  · cases t with
    | nil => simp only [typeError, ht, truthyString]
    | cons c s =>
      classical
      rw [typeError_eq data schema path (c :: s) ht (by simp), if_neg hm]

/-- The errors that follow the type check start with those of `const` and
`enum`. -/
theorem checksAfterType_prefix (env : JsEnv)
    (validate : JsValue → Schema → Str → Except JsError (List SchemaError))
    (data : JsValue) (schema : Schema) (path : Str) (errs : List SchemaError)
    (h : checksAfterType env validate data schema path = .ok errs) :
    ∃ rest, errs = constErrors env data schema path ++ enumErrors env data schema path ++ rest := by
  unfold checksAfterType at h
  cases hp : patternErrors env data schema path with
  | error e => simp [hp] at h
  | ok patErrs =>
    cases ho : objectErrors validate data schema path with
    | error e => simp [hp, ho] at h
    | ok objErrs =>
      cases ha : arrayErrors env validate data schema path with
      | error e => simp [hp, ho, ha] at h
      | ok arrErrs =>
        simp only [hp, ho, ha, Except.ok.injEq] at h
        exact ⟨minLengthErrors env data schema path ++ patErrs ++ objErrs ++ arrErrs, by
          rw [← h]; simp only [List.append_assoc]⟩

/-- C23 (amended): for a node without `oneOf` and `$ref`, when the data does
not match the declared type the result is the type error alone, whatever
`const` and `enum` say; when no type is declared or the data matches it, a
returned list starts with the `const` error exactly when the data is not
strictly equal to the constant, followed by the `enum` error exactly when the
data is strictly equal to no member of the list.  An array or an object is
strictly equal to no constant. -/
theorem validateJsonSchema_const_enum (env : JsEnv) (fuel : Nat) (data : JsValue)
    (schema rootSchema : Schema) (path : Str)
    (hone : schema.oneOf = none) (href : schema.ref = none) :
    (∀ t, schema.type = some t → t ≠ [] → TypeMismatch t data →
        validateJsonSchema env (fuel + 1) data schema rootSchema path =
          .ok [⟨pathOrRoot path, msgExpectedType t (actualType data)⟩]) ∧
      ((schema.type = none ∨ ∃ t, schema.type = some t ∧ ¬ TypeMismatch t data) →
        ∀ errs, validateJsonSchema env (fuel + 1) data schema rootSchema path = .ok errs →
          ∃ rest, errs =
            constErrors env data schema path ++ enumErrors env data schema path ++ rest) ∧
      (constErrors env data schema path =
        match schema.const with
        | some c => if strictEq data c then [] else [⟨pathOrRoot path, msgConst env c data⟩]
        | none => []) ∧
      (enumErrors env data schema path =
        match schema.enum with
        | some list =>
          if ∃ v ∈ list, strictEq data v = true then []
          else [⟨pathOrRoot path, msgEnum env list data⟩]
        | none => []) ∧
      (∀ c, (∃ items, data = .json (.arr items)) ∨ (∃ members, data = .json (.obj members)) →
        strictEq data c = false) := by
  have href' : truthyString schema.ref = none := by rw [href]; rfl
  refine ⟨?_, ?_, ?_, ?_, ?_⟩
  · intro t ht hne hm
    rw [validateJsonSchema_node_eq env fuel data schema rootSchema path hone href']
    classical
    rw [typeError_eq data schema path t ht hne, if_pos hm]
  · intro hty errs h0
    rw [validateJsonSchema_node_eq env fuel data schema rootSchema path hone href',
      typeError_of_not_mismatch data schema path hty] at h0
    exact checksAfterType_prefix env _ data schema path errs h0
  · unfold constErrors
    cases schema.const with
    | none => rfl
    | some c => cases h : strictEq data c <;> simp [h]
  · unfold enumErrors
    cases schema.enum with
    | none => rfl
    | some list =>
      by_cases hex : ∃ v ∈ list, strictEq data v = true
      · have : (list.any fun v => strictEq data v) = true := by simpa using hex
        simp [this, hex]
      · have : (list.any fun v => strictEq data v) = false := by simpa using hex
        simp only [this, Bool.not_false, if_true, if_neg hex]
  · rintro c (⟨items, rfl⟩ | ⟨members, rfl⟩) <;> cases c <;> rfl

/-- The number `5` against `{"type": "number", "const": "a"}` gives a list
that starts with the `const` error. -/
theorem validateJsonSchema_const_enum_witness :
    ∃ rest, [(⟨"(root)", msgConst sampleEnv (.str "a") (.json five)⟩ : SchemaError)] =
      constErrors sampleEnv (.json five) (Schema.ofTypeConst "number" (.str "a")) [] ++
        enumErrors sampleEnv (.json five) (Schema.ofTypeConst "number" (.str "a")) [] ++ rest :=
  (validateJsonSchema_const_enum sampleEnv 0 (.json five)
    (Schema.ofTypeConst "number" (.str "a")) (Schema.ofTypeConst "number" (.str "a")) []
    rfl rfl).2.1
    (Or.inr ⟨"number", rfl, by
      unfold TypeMismatch
      rw [if_neg (by decide)]
      decide⟩)
    _ rfl

/-- C21: the interpreter throws a `TypeError` on `null` against `{"type":
"object", "required": ["name"]}`, at the root and below a member, and the two
JSON validators throw on the content `null`, which parses as JSON. -/
theorem validateJsonSchema_null_throws (env : JsEnv) (fuel : Nat) (rootSchema : Schema)
    (path : Str) (result : ValidationResult) (schemaFile : SchemaFile) :
    validateJsonSchema env (fuel + 1) (.json .null) (Schema.ofRequired ["name"]) rootSchema
        path = .error (.nullProperty "name") ∧
      validateJsonSchema env (fuel + 2) (.json (.obj [("owner", .null)]))
        (Schema.ofProperties [("owner", Schema.ofRequired ["name"])]) rootSchema path =
        .error (.nullProperty "name") ∧
      validateAiJson env fuel (.ok .null) result schemaFile =
        .error (.nullProperty "permissions") ∧
      validateIdentityJson env fuel (.ok .null) result schemaFile =
        .error (.nullProperty "name") :=
  ⟨rfl, rfl, rfl, rfl⟩

theorem getMember_of_not_inherited (members : List (Str × Json)) (key : Str)
    (h : key ∉ objectPrototypeKeys) :
    getMember members key = (members.lookup key).map JsValue.json := by
  unfold getMember
  cases members.lookup key with
  | some v => rfl
  | none =>
    have h1 : (key == ("__proto__" : Str)) = false := by
      cases hk : key == ("__proto__" : Str) with
      | false => rfl
      | true =>
        exfalso
        apply h
        rw [beq_iff_eq] at hk
        rw [hk]
        decide
    have h2 : objectPrototypeKeys.contains key = false := by simpa using h
    simp only [h1, h2, Bool.false_eq_true, if_false, Option.map_none']

/-- The loop over `required` on an object: one error for each key whose
lookup is `undefined`, in the order of the keys. -/
theorem requiredErrors_obj (members : List (Str × Json)) (path : Str) (keys : List Str) :
    requiredErrors (.json (.obj members)) path keys =
      .ok ((keys.filter fun k => (getMember members k).isNone).map
        fun k => ⟨childPath path k, msgRequired k⟩) := by
  induction keys with
  | nil => rfl
  | cons key rest ih =>
    simp only [requiredErrors, getProperty, ih, List.filter_cons]
    cases (getMember members key).isNone <;> rfl

theorem requiredErrors_obj_own (members : List (Str × Json)) (path : Str) (keys : List Str)
    (hkeys : ∀ k ∈ keys, k ∉ objectPrototypeKeys) :
    requiredErrors (.json (.obj members)) path keys =
      .ok ((keys.filter fun k => (members.lookup k).isNone).map
        fun k => ⟨childPath path k, msgRequired k⟩) := by
  rw [requiredErrors_obj]
  congr 2
  apply List.filter_congr
  intro k hk
  rw [getMember_of_not_inherited members k (hkeys k hk)]
  cases members.lookup k <;> rfl

/-- The loop over `properties` on an object, when the keys are not inherited
names and every recursive call returns. -/
theorem propertyErrors_obj_own
    (validate : JsValue → Schema → Str → Except JsError (List SchemaError))
    (members : List (Str × Json)) (path : Str)
    (errsOf : Str → Schema → Json → List SchemaError) (props : List (Str × Schema))
    (hkeys : ∀ p ∈ props, p.1 ∉ objectPrototypeKeys)
    (hrec : ∀ p ∈ props, ∀ v, members.lookup p.1 = some v →
      validate (.json v) p.2 (childPath path p.1) = .ok (errsOf p.1 p.2 v)) :
    propertyErrors validate (.json (.obj members)) path props =
      .ok (props.filterMap fun p => (members.lookup p.1).map fun v => errsOf p.1 p.2 v).flatten := by
  induction props with
  | nil => rfl
  | cons p rest ih =>
    obtain ⟨key, propSchema⟩ := p
    have ih' := ih (fun q hq => hkeys q (List.mem_cons_of_mem _ hq))
      (fun q hq => hrec q (List.mem_cons_of_mem _ hq))
    have hk := getMember_of_not_inherited members key (hkeys (key, propSchema) (by simp))
    simp only [propertyErrors, getProperty, hk, ih']
    cases hl : members.lookup key with
    | none => simp [hl]
    | some v =>
      have hv := hrec (key, propSchema) (by simp) v hl
      simp only [] at hv
      simp [hl, hv]

/-- The object block of C11: for a node of type `object` without `oneOf`,
`$ref`, `const` and `enum`, none of whose `required` and `properties` keys is
a name inherited from `Object.prototype`, and an object as data, the result is
one `Required property` error for each required key that the object lacks,
then the errors of the declared properties that the object has (validated at
the member path), then one `Additional property` error for each key of the
object that is not declared, when `additionalProperties` is `false` and
`properties` is declared. -/
theorem validateJsonSchema_object (env : JsEnv) (fuel : Nat) (members : List (Str × Json))
    (schema rootSchema : Schema) (path : Str)
    (errsOf : Str → Schema → Json → List SchemaError)
    (hone : schema.oneOf = none) (href : schema.ref = none)
    (htype : schema.type = some ("object" : Str))
    (hconst : schema.const = none) (henum : schema.enum = none)
    (hreq : ∀ k ∈ schema.required.getD [], k ∉ objectPrototypeKeys)
    (hprops : ∀ p ∈ schema.properties.getD [], p.1 ∉ objectPrototypeKeys)
    (hrec : ∀ p ∈ schema.properties.getD [], ∀ v, members.lookup p.1 = some v →
      validateJsonSchema env fuel (.json v) p.2 rootSchema (childPath path p.1) =
        .ok (errsOf p.1 p.2 v)) :
    validateJsonSchema env (fuel + 1) (.json (.obj members)) schema rootSchema path =
      .ok (((schema.required.getD []).filter fun k => (members.lookup k).isNone).map
            (fun k => ⟨childPath path k, msgRequired k⟩) ++
          ((schema.properties.getD []).filterMap fun p =>
            (members.lookup p.1).map fun v => errsOf p.1 p.2 v).flatten ++
          (match schema.additionalProperties, schema.properties with
            | some false, some props =>
              ((members.map Prod.fst).filter fun k => !(props.map Prod.fst).contains k).map
                fun k => ⟨childPath path k, msgAdditional k⟩
            | _, _ => [])) := by
  have href' : truthyString schema.ref = none := by rw [href]; rfl
  have hty : typeError (.json (.obj members)) schema path = none := by
    simp only [typeError, htype]
    rfl
  have hpat : patternErrors env (.json (.obj members)) schema path = .ok [] := by
    simp only [patternErrors]
  have harr : ∀ validate, arrayErrors env validate (.json (.obj members)) schema path = .ok [] :=
    fun _ => rfl
  have hc : constErrors env (.json (.obj members)) schema path = [] := by
    simp only [constErrors, hconst]
  have he : enumErrors env (.json (.obj members)) schema path = [] := by
    simp only [enumErrors, henum]
  have hm : minLengthErrors env (.json (.obj members)) schema path = [] := by
    simp only [minLengthErrors]
  have hcond : (schema.type == some ("object" : Str) &&
      typeOf (.json (.obj members)) == ("object" : Str) &&
      !isArray (.json (.obj members))) = true := by
    rw [htype]
    rfl
  rw [validateJsonSchema_node_eq env fuel _ schema rootSchema path hone href', hty]
  simp only [checksAfterType, hpat, harr, hc, he, hm, objectErrors, hcond, if_true,
    List.nil_append, List.append_nil]
  cases hr : schema.required with
  | none =>
    cases hp : schema.properties with
    | none =>
      cases ha : schema.additionalProperties with
      | none => rfl
      | some b => cases b <;> rfl
    | some props =>
      rw [hp] at hprops hrec
      have h2 := propertyErrors_obj_own
        (fun value sub subPath => validateJsonSchema env fuel value sub rootSchema subPath)
        members path errsOf props hprops hrec
      cases ha : schema.additionalProperties with
      | none => simp only [h2, Option.getD_some, Option.getD_none, List.filter_nil,
          List.map_nil, List.nil_append, List.append_nil]
      | some b =>
        cases b <;>
          simp only [h2, additionalErrors, ownKeys, Option.getD_some, Option.getD_none,
            List.filter_nil, List.map_nil, List.nil_append, List.append_nil]
  | some required =>
    rw [hr] at hreq
    have h1 := requiredErrors_obj_own members path required hreq
    cases hp : schema.properties with
    | none =>
      cases ha : schema.additionalProperties with
      | none => simp only [h1, Option.getD_some, Option.getD_none, List.filterMap_nil,
          List.flatten_nil, List.nil_append, List.append_nil]
      | some b =>
        cases b <;>
          simp only [h1, Option.getD_some, Option.getD_none, List.filterMap_nil,
            List.flatten_nil, List.nil_append, List.append_nil]
    | some props =>
      rw [hp] at hprops hrec
      have h2 := propertyErrors_obj_own
        (fun value sub subPath => validateJsonSchema env fuel value sub rootSchema subPath)
        members path errsOf props hprops hrec
      cases ha : schema.additionalProperties with
      | none => simp only [h1, h2, Option.getD_some, List.append_nil]
      | some b =>
        cases b <;>
          simp only [h1, h2, additionalErrors, ownKeys, Option.getD_some, List.append_nil]

/-- The two examples of C11: against `nameSchema`, the object `{}` gives one
error, the missing `name`, and `{"name": ""}` gives one error, the `minLength`
violation, both at the path `name`. -/
theorem validateJsonSchema_nameSchema :
    validateJsonSchema sampleEnv 2 (.json (.obj [])) nameSchema nameSchema [] =
        .ok [⟨"name", "Required property \"name\" is missing"⟩] ∧
      validateJsonSchema sampleEnv 2 (.json (.obj [("name", .str "")])) nameSchema nameSchema
        [] = .ok [⟨"name", "String length 0 < minLength 1"⟩] := by
  decide

/-- C11: the object `{}` lacks the required key `constructor` of the schema
`{"type": "object", "required": ["constructor"]}`, and the result holds no
`Required property` error: the lookup `data[key]` finds the member that every
object inherits from `Object.prototype`. -/
theorem validateJsonSchema_required_inherited (env : JsEnv) (fuel : Nat) (path : Str) :
    validateJsonSchema env (fuel + 1) (.json (.obj [])) (Schema.ofRequired ["constructor"])
        (Schema.ofRequired ["constructor"]) path = .ok [] ∧
      (([] : List (Str × Json)).lookup ("constructor" : Str)) = none :=
  ⟨rfl, rfl⟩

/-! ## Validators: JSON files -/

theorem requireProperty_obj (members : List (Str × Json)) (key : Str)
    (result : ValidationResult) (h : key ∉ objectPrototypeKeys) :
    requireProperty (.json (.obj members)) key result =
      .ok ⟨result.file, result.type, result.errors ++ requiredIssue members key,
        result.warnings⟩ := by
  simp only [requireProperty, getProperty, getMember_of_not_inherited members key h,
    requiredIssue]
  cases truthy ((members.lookup key).map JsValue.json) <;>
    simp [ValidationResult.error]

theorem requirePermissions_obj (members : List (Str × Json)) (result : ValidationResult) :
    requirePermissions (.json (.obj members)) result =
      .ok ⟨result.file, result.type, result.errors ++ permissionsIssue members,
        result.warnings⟩ := by
  have h := getMember_of_not_inherited members "permissions" (by decide)
  simp only [requirePermissions, getProperty, h, permissionsIssue, requiredIssue]
  cases hl : members.lookup ("permissions" : Str) with
  | none => simp [truthy, ValidationResult.error]
  | some v =>
    cases v with
    | arr items =>
      cases items with
      | nil => simp [truthy, ValidationResult.error]
      | cons x xs => simp [truthy]
    | null => simp [truthy, ValidationResult.error]
    | bool b => cases b <;> simp [truthy, ValidationResult.error]
    | num n => cases hn : n.isFalsy <;> simp [truthy, ValidationResult.error, hn]
    | str s => cases s <;> simp [truthy, ValidationResult.error]
    | obj ms => simp [truthy]

/-- On a root object, `validateAiJson` returns the result of the schema step
with the structural errors appended. -/
theorem validateAiJson_obj (env : JsEnv) (fuel : Nat) (members : List (Str × Json))
    (result : ValidationResult) (schemaFile : SchemaFile) :
    validateAiJson env fuel (.ok (.obj members)) result schemaFile =
      .ok ⟨(schemaStep env fuel (.json (.obj members)) schemaFile result).file,
        (schemaStep env fuel (.json (.obj members)) schemaFile result).type,
        (schemaStep env fuel (.json (.obj members)) schemaFile result).errors ++
          structuralAiJson members,
        (schemaStep env fuel (.json (.obj members)) schemaFile result).warnings⟩ := by
  have hroot : (typeOf (.json (.obj members)) != ("object" : Str) ||
      isArray (.json (.obj members))) = false := rfl
  simp only [validateAiJson, hroot, Bool.false_eq_true, if_false, requirePermissions_obj,
    Except.bind, requireProperty_obj members "restrictions" _ (by decide),
    requireProperty_obj members "name" _ (by decide),
    requireProperty_obj members "url" _ (by decide), structuralAiJson, List.append_assoc]

/-- On a root object, `validateIdentityJson` returns the result of the schema
step with the structural errors appended. -/
theorem validateIdentityJson_obj (env : JsEnv) (fuel : Nat) (members : List (Str × Json))
    (result : ValidationResult) (schemaFile : SchemaFile) :
    validateIdentityJson env fuel (.ok (.obj members)) result schemaFile =
      .ok ⟨(schemaStep env fuel (.json (.obj members)) schemaFile result).file,
        (schemaStep env fuel (.json (.obj members)) schemaFile result).type,
        (schemaStep env fuel (.json (.obj members)) schemaFile result).errors ++
          structuralIdentityJson members,
        (schemaStep env fuel (.json (.obj members)) schemaFile result).warnings⟩ := by
  have hroot : (typeOf (.json (.obj members)) != ("object" : Str) ||
      isArray (.json (.obj members))) = false := rfl
  simp only [validateIdentityJson, hroot, Bool.false_eq_true, if_false,
    Except.bind, requireProperty_obj members "name" _ (by decide),
    requireProperty_obj members "url" _ (by decide),
    requireProperty_obj members "type" _ (by decide),
    requireProperty_obj members "description" _ (by decide), structuralIdentityJson,
    List.append_assoc]

theorem validateAiJson_absent (env : JsEnv) (fuel : Nat) (file type : Str)
    (members : List (Str × Json)) :
    validateAiJson env fuel (.ok (.obj members)) (.new file type) .absent =
      .ok ⟨file, type, structuralAiJson members, []⟩ := by
  rw [validateAiJson_obj]
  rfl

theorem validateIdentityJson_absent (env : JsEnv) (fuel : Nat) (file type : Str)
    (members : List (Str × Json)) :
    validateIdentityJson env fuel (.ok (.obj members)) (.new file type) .absent =
      .ok ⟨file, type, structuralIdentityJson members, []⟩ := by
  rw [validateIdentityJson_obj]
  rfl

theorem requiredIssue_absent (members : List (Str × Json)) (key : Str)
    (h : members.lookup key = none) :
    requiredIssue members key = [⟨msgPropertyRequired key, none⟩] := by
  simp [requiredIssue, h, truthy]

theorem foldl_error (errs : List SchemaError) (result : ValidationResult) :
    errs.foldl (fun r err => r.error (msgSchemaError err) none) result =
      ⟨result.file, result.type,
        result.errors ++ errs.map (fun err => ⟨msgSchemaError err, none⟩), result.warnings⟩ := by
  induction errs generalizing result with
  | nil => simp
  | cons e es ih =>
    rw [List.foldl_cons, ih]
    simp [ValidationResult.error]

theorem startsWith_schema_prefix (text : Str) :
    startsWith (("Schema: " : Str) ++ text) "Schema: " = true :=
  (startsWith_iff _ _).2 (List.prefix_append _ _)

theorem msgPropertyRequired_not_schema (key : Str) :
    startsWith (msgPropertyRequired key) "Schema: " = false := by
  have h : msgPropertyRequired key =
      'P' :: (("roperty \"" : Str) ++ key ++ ("\" is REQUIRED" : Str)) := rfl
  rw [h]
  rfl

theorem requiredIssue_not_schema (members : List (Str × Json)) (key : Str) :
    ∀ i ∈ requiredIssue members key, startsWith i.message "Schema: " = false := by
  intro i hi
  unfold requiredIssue at hi
  split at hi
  · simp at hi
  · rw [List.mem_singleton] at hi
    rw [hi]
    exact msgPropertyRequired_not_schema key

theorem permissionsIssue_not_schema (members : List (Str × Json)) :
    ∀ i ∈ permissionsIssue members, startsWith i.message "Schema: " = false := by
  intro i hi
  unfold permissionsIssue at hi
  split at hi
  · rw [List.mem_singleton] at hi
    rw [hi]
    rfl
  · exact requiredIssue_not_schema members _ i hi

theorem structuralAiJson_not_schema (members : List (Str × Json)) :
    ∀ i ∈ structuralAiJson members, startsWith i.message "Schema: " = false := by
  intro i hi
  simp only [structuralAiJson, List.mem_append] at hi
  rcases hi with ((hi | hi) | hi) | hi
  · exact permissionsIssue_not_schema members i hi
  · exact requiredIssue_not_schema members _ i hi
  · exact requiredIssue_not_schema members _ i hi
  · exact requiredIssue_not_schema members _ i hi

theorem structuralIdentityJson_not_schema (members : List (Str × Json)) :
    ∀ i ∈ structuralIdentityJson members, startsWith i.message "Schema: " = false := by
  intro i hi
  simp only [structuralIdentityJson, List.mem_append] at hi
  rcases hi with ((hi | hi) | hi) | hi <;> exact requiredIssue_not_schema members _ i hi

/-- The number of `Schema: ` errors in the mapped schema errors followed by
errors without that prefix. -/
theorem schema_prefix_count (errs : List SchemaError) (structural : List Issue)
    (h : ∀ i ∈ structural, startsWith i.message "Schema: " = false) :
    ((errs.map (fun err => (⟨msgSchemaError err, none⟩ : Issue)) ++ structural).filter
      fun i => startsWith i.message "Schema: ").length = errs.length := by
  rw [List.filter_append]
  have h1 : (errs.map (fun err => (⟨msgSchemaError err, none⟩ : Issue))).filter
      (fun i => startsWith i.message "Schema: ") =
      errs.map (fun err => (⟨msgSchemaError err, none⟩ : Issue)) := by
    apply List.filter_eq_self.2
    intro i hi
    obtain ⟨err, -, rfl⟩ := List.mem_map.1 hi
    have : msgSchemaError err = ("Schema: " : Str) ++ (err.path ++ " — " ++ err.message) := by
      simp only [msgSchemaError, List.append_assoc]
    simp only [this]
    exact startsWith_schema_prefix _
  have h2 : structural.filter (fun i => startsWith i.message "Schema: ") = [] := by
    apply List.filter_eq_nil_iff.2
    intro i hi
    rw [h i hi]
    exact Bool.false_ne_true
  rw [h1, h2, List.append_nil, List.length_map]

/-- Content that does not parse gives the single error `Invalid JSON`, and a
root that is a number, a text, a boolean or an array gives the single error
`Root value MUST be a JSON object`; no warning, no other check. -/
theorem validate_json_not_object (env : JsEnv) (fuel : Nat) (file type : Str)
    (schemaFile : SchemaFile) :
    (∀ message,
        validateAiJson env fuel (.error message) (.new file type) schemaFile =
          .ok ⟨file, type, [⟨msgInvalidJson message, none⟩], []⟩ ∧
        validateIdentityJson env fuel (.error message) (.new file type) schemaFile =
          .ok ⟨file, type, [⟨msgInvalidJson message, none⟩], []⟩) ∧
      (∀ data, data ≠ Json.null → (∀ members, data ≠ Json.obj members) →
        validateAiJson env fuel (.ok data) (.new file type) schemaFile =
          .ok ⟨file, type, [⟨msgRootObject, none⟩], []⟩ ∧
        validateIdentityJson env fuel (.ok data) (.new file type) schemaFile =
          .ok ⟨file, type, [⟨msgRootObject, none⟩], []⟩) := by
  refine ⟨fun message => ⟨rfl, rfl⟩, ?_⟩
  intro data hnull hobj
  cases data with
  | null => exact absurd rfl hnull
  | obj members => exact absurd rfl (hobj members)
  | bool b => exact ⟨rfl, rfl⟩
  | num n => exact ⟨rfl, rfl⟩
  | str s => exact ⟨rfl, rfl⟩
  | arr items => exact ⟨rfl, rfl⟩

/-- C15: the content `null` parses as JSON to a value that is not an object,
and the two JSON validators throw a `TypeError` on it instead of reporting
`Root value MUST be a JSON object`: `typeof null` is `object`, so the root
check lets it through. -/
theorem validate_json_null_throws (env : JsEnv) (fuel : Nat) (result : ValidationResult)
    (schemaFile : SchemaFile) :
    validateAiJson env fuel (.ok .null) result schemaFile =
        .error (.nullProperty "permissions") ∧
      validateIdentityJson env fuel (.ok .null) result schemaFile =
        .error (.nullProperty "name") ∧
      typeOf (.json .null) = ("object" : Str) ∧ isArray (.json .null) = false :=
  ⟨rfl, rfl, rfl, rfl⟩

/-- C16: with no schema file, on every root object `validateAiJson` reports
the outcomes of the checks of `permissions`, `restrictions`, `name` and `url`,
in this order and each whatever the others, and `validateIdentityJson` those
of `name`, `url`, `type` and `description`; an absent key gives its own
`Property "key" is REQUIRED`, the empty array as `permissions` gives the
single permissions error `MUST NOT be empty`, and the root object without
members gives exactly four errors with either validator. -/
theorem structural_checks_no_schema (env : JsEnv) (fuel : Nat) (file type : Str)
    (members : List (Str × Json)) :
    validateAiJson env fuel (.ok (.obj members)) (.new file type) .absent =
        .ok ⟨file, type,
          permissionsIssue members ++ requiredIssue members "restrictions" ++
            requiredIssue members "name" ++ requiredIssue members "url", []⟩ ∧
      validateIdentityJson env fuel (.ok (.obj members)) (.new file type) .absent =
        .ok ⟨file, type,
          requiredIssue members "name" ++ requiredIssue members "url" ++
            requiredIssue members "type" ++ requiredIssue members "description", []⟩ ∧
      (∀ key, members.lookup key = none →
        requiredIssue members key = [⟨msgPropertyRequired key, none⟩]) ∧
      (members.lookup ("permissions" : Str) = none →
        permissionsIssue members = [⟨msgPropertyRequired "permissions", none⟩]) ∧
      (members.lookup ("permissions" : Str) = some (.arr []) →
        permissionsIssue members = [⟨msgPermissionsEmpty, none⟩]) ∧
      validateAiJson env fuel (.ok (.obj [])) (.new file type) .absent =
        .ok ⟨file, type,
          [⟨"Property \"permissions\" is REQUIRED", none⟩,
            ⟨"Property \"restrictions\" is REQUIRED", none⟩,
            ⟨"Property \"name\" is REQUIRED", none⟩,
            ⟨"Property \"url\" is REQUIRED", none⟩], []⟩ ∧
      validateIdentityJson env fuel (.ok (.obj [])) (.new file type) .absent =
        .ok ⟨file, type,
          [⟨"Property \"name\" is REQUIRED", none⟩,
            ⟨"Property \"url\" is REQUIRED", none⟩,
            ⟨"Property \"type\" is REQUIRED", none⟩,
            ⟨"Property \"description\" is REQUIRED", none⟩], []⟩ := by
  refine ⟨?_, ?_, requiredIssue_absent members, ?_, ?_, rfl, rfl⟩
  · rw [validateAiJson_obj]
    rfl
  · rw [validateIdentityJson_obj]
    rfl
  · intro h
    simp only [permissionsIssue, h]
    exact requiredIssue_absent members _ h
  · intro h
    simp only [permissionsIssue, h]

/-- C17: in the root object `emptyNameDocument` the four keys are present, the
name being the empty text, and `validateAiJson` with no schema reports
`Property "name" is REQUIRED`. -/
theorem required_present_counterexample :
    validateAiJson sampleEnv 0 (.ok (.obj emptyNameDocument)) (.new "ai.json" "ai-json")
        .absent =
      .ok ⟨"ai.json", "ai-json", [⟨"Property \"name\" is REQUIRED", none⟩], []⟩ ∧
      emptyNameDocument.lookup ("name" : Str) = some (.str "") ∧
      (emptyNameDocument.lookup ("permissions" : Str)).isSome = true ∧
      (emptyNameDocument.lookup ("restrictions" : Str)).isSome = true ∧
      (emptyNameDocument.lookup ("url" : Str)).isSome = true :=
  ⟨by decide, rfl, rfl, rfl, rfl⟩

theorem truthy_eq_false_iff (value : Option Json) :
    truthy (value.map JsValue.json) = false ↔ value = none ∨ ∃ v, value = some v ∧ IsFalsy v := by
  cases value with
  | none => simp [truthy]
  | some v =>
    cases v with
    | null => simp [truthy, IsFalsy]
    | bool b => simp [truthy, IsFalsy]
    | num n => simp [truthy, IsFalsy, JsNumber.isFalsy]
    | str s => cases s <;> simp [truthy, IsFalsy]
    | arr items => simp [truthy, IsFalsy]
    | obj ms => simp [truthy, IsFalsy]

/-- The `REQUIRED` errors in the structural errors of `ai.json`, as a function
of the truthiness of the four members (`e` tells that `permissions` is the
empty array). -/
theorem structural_mem_ai : ∀ e b0 b1 b2 b3 : Bool, (e = true → b0 = true) →
    ((⟨msgPropertyRequired "permissions", none⟩ : Issue) ∈
        (if e then [(⟨msgPermissionsEmpty, none⟩ : Issue)]
          else if b0 then [] else [⟨msgPropertyRequired "permissions", none⟩]) ++
        (if b1 then [] else [⟨msgPropertyRequired "restrictions", none⟩]) ++
        (if b2 then [] else [⟨msgPropertyRequired "name", none⟩]) ++
        (if b3 then [] else [⟨msgPropertyRequired "url", none⟩]) ↔ b0 = false) ∧
    ((⟨msgPropertyRequired "restrictions", none⟩ : Issue) ∈
        (if e then [(⟨msgPermissionsEmpty, none⟩ : Issue)]
          else if b0 then [] else [⟨msgPropertyRequired "permissions", none⟩]) ++
        (if b1 then [] else [⟨msgPropertyRequired "restrictions", none⟩]) ++
        (if b2 then [] else [⟨msgPropertyRequired "name", none⟩]) ++
        (if b3 then [] else [⟨msgPropertyRequired "url", none⟩]) ↔ b1 = false) ∧
    ((⟨msgPropertyRequired "name", none⟩ : Issue) ∈
        (if e then [(⟨msgPermissionsEmpty, none⟩ : Issue)]
          else if b0 then [] else [⟨msgPropertyRequired "permissions", none⟩]) ++
        (if b1 then [] else [⟨msgPropertyRequired "restrictions", none⟩]) ++
        (if b2 then [] else [⟨msgPropertyRequired "name", none⟩]) ++
        (if b3 then [] else [⟨msgPropertyRequired "url", none⟩]) ↔ b2 = false) ∧
    ((⟨msgPropertyRequired "url", none⟩ : Issue) ∈
        (if e then [(⟨msgPermissionsEmpty, none⟩ : Issue)]
          else if b0 then [] else [⟨msgPropertyRequired "permissions", none⟩]) ++
        (if b1 then [] else [⟨msgPropertyRequired "restrictions", none⟩]) ++
        (if b2 then [] else [⟨msgPropertyRequired "name", none⟩]) ++
        (if b3 then [] else [⟨msgPropertyRequired "url", none⟩]) ↔ b3 = false) := by
  decide

theorem structural_mem_identity : ∀ b0 b1 b2 b3 : Bool,
    ((⟨msgPropertyRequired "name", none⟩ : Issue) ∈
        (if b0 then [] else [(⟨msgPropertyRequired "name", none⟩ : Issue)]) ++
        (if b1 then [] else [⟨msgPropertyRequired "url", none⟩]) ++
        (if b2 then [] else [⟨msgPropertyRequired "type", none⟩]) ++
        (if b3 then [] else [⟨msgPropertyRequired "description", none⟩]) ↔ b0 = false) ∧
    ((⟨msgPropertyRequired "url", none⟩ : Issue) ∈
        (if b0 then [] else [(⟨msgPropertyRequired "name", none⟩ : Issue)]) ++
        (if b1 then [] else [⟨msgPropertyRequired "url", none⟩]) ++
        (if b2 then [] else [⟨msgPropertyRequired "type", none⟩]) ++
        (if b3 then [] else [⟨msgPropertyRequired "description", none⟩]) ↔ b1 = false) ∧
    ((⟨msgPropertyRequired "type", none⟩ : Issue) ∈
        (if b0 then [] else [(⟨msgPropertyRequired "name", none⟩ : Issue)]) ++
        (if b1 then [] else [⟨msgPropertyRequired "url", none⟩]) ++
        (if b2 then [] else [⟨msgPropertyRequired "type", none⟩]) ++
        (if b3 then [] else [⟨msgPropertyRequired "description", none⟩]) ↔ b2 = false) ∧
    ((⟨msgPropertyRequired "description", none⟩ : Issue) ∈
        (if b0 then [] else [(⟨msgPropertyRequired "name", none⟩ : Issue)]) ++
        (if b1 then [] else [⟨msgPropertyRequired "url", none⟩]) ++
        (if b2 then [] else [⟨msgPropertyRequired "type", none⟩]) ++
        (if b3 then [] else [⟨msgPropertyRequired "description", none⟩]) ↔ b3 = false) := by
  decide

theorem permissionsIssue_eq (members : List (Str × Json)) :
    ∃ e : Bool, (e = true → truthy ((members.lookup ("permissions" : Str)).map JsValue.json)
        = true) ∧
      permissionsIssue members =
        if e then [(⟨msgPermissionsEmpty, none⟩ : Issue)]
        else if truthy ((members.lookup ("permissions" : Str)).map JsValue.json) then []
        else [⟨msgPropertyRequired "permissions", none⟩] := by
  unfold permissionsIssue
  split
  · rename_i h
    exact ⟨true, fun _ => by rw [h]; rfl, rfl⟩
  · exact ⟨false, fun h => Bool.noConfusion h, rfl⟩

/-- C17 (amended): the structural checks treat a required key as missing when
its value is absent or falsy (`null`, `false`, zero or the empty text).  With
no schema, on every root object, `validateAiJson` reports `Property "key" is
REQUIRED` for a key among `permissions`, `restrictions`, `name`, `url` exactly
when the value of the key is not truthy, and `validateIdentityJson` does so
for `name`, `url`, `type`, `description`. -/
theorem required_iff_falsy (env : JsEnv) (fuel : Nat) (file type : Str)
    (members : List (Str × Json)) :
    ∃ r s,
      validateAiJson env fuel (.ok (.obj members)) (.new file type) .absent = .ok r ∧
      validateIdentityJson env fuel (.ok (.obj members)) (.new file type) .absent = .ok s ∧
      (∀ key ∈ [("permissions" : Str), "restrictions", "name", "url"],
        ((⟨msgPropertyRequired key, none⟩ : Issue) ∈ r.errors ↔
          (members.lookup key = none ∨ ∃ v, members.lookup key = some v ∧ IsFalsy v))) ∧
      (∀ key ∈ [("name" : Str), "url", "type", "description"],
        ((⟨msgPropertyRequired key, none⟩ : Issue) ∈ s.errors ↔
          (members.lookup key = none ∨ ∃ v, members.lookup key = some v ∧ IsFalsy v))) := by
  refine ⟨_, _, validateAiJson_absent env fuel file type members,
    validateIdentityJson_absent env fuel file type members, ?_, ?_⟩
  · obtain ⟨e, he, hp⟩ := permissionsIssue_eq members
    have h := structural_mem_ai e
      (truthy ((members.lookup ("permissions" : Str)).map JsValue.json))
      (truthy ((members.lookup ("restrictions" : Str)).map JsValue.json))
      (truthy ((members.lookup ("name" : Str)).map JsValue.json))
      (truthy ((members.lookup ("url" : Str)).map JsValue.json)) he
    intro key hkey
    simp only [List.mem_cons, List.mem_singleton, List.not_mem_nil, or_false] at hkey
    simp only [structuralAiJson, hp, requiredIssue]
    rcases hkey with rfl | rfl | rfl | rfl
    · rw [← truthy_eq_false_iff]
      exact h.1
    · rw [← truthy_eq_false_iff]
      exact h.2.1
    · rw [← truthy_eq_false_iff]
      exact h.2.2.1
    · rw [← truthy_eq_false_iff]
      exact h.2.2.2
  · have h := structural_mem_identity
      (truthy ((members.lookup ("name" : Str)).map JsValue.json))
      (truthy ((members.lookup ("url" : Str)).map JsValue.json))
      (truthy ((members.lookup ("type" : Str)).map JsValue.json))
      (truthy ((members.lookup ("description" : Str)).map JsValue.json))
    intro key hkey
    simp only [List.mem_cons, List.mem_singleton, List.not_mem_nil, or_false] at hkey
    simp only [structuralIdentityJson, requiredIssue]
    rcases hkey with rfl | rfl | rfl | rfl
    · rw [← truthy_eq_false_iff]
      exact h.1
    · rw [← truthy_eq_false_iff]
      exact h.2.1
    · rw [← truthy_eq_false_iff]
      exact h.2.2.1
    · rw [← truthy_eq_false_iff]
      exact h.2.2.2

theorem schemaStep_loaded (env : JsEnv) (fuel : Nat) (data : JsValue) (schema : Schema)
    (result : ValidationResult) (errs : List SchemaError)
    (h : validateJsonSchema env fuel data schema schema [] = .ok errs) :
    schemaStep env fuel data (.loaded schema) result =
      ⟨result.file, result.type,
        result.errors ++ errs.map (fun err => ⟨msgSchemaError err, none⟩), result.warnings⟩ := by
  simp only [schemaStep, h, foldl_error]

/-- C18: when the schema file loads and the root is an object, for the list
of errors that `validateJsonSchema(data, schema, schema)` returns, the errors
of either JSON validator are one error `Schema: path — message` for each of
them, in the order returned, followed by the structural errors, which are
those of the same root with no schema file; no warning is added, and the
number of errors that start with `Schema: ` is the number of schema errors. -/
theorem schema_errors_then_structural (env : JsEnv) (fuel : Nat) (file type : Str)
    (members : List (Str × Json)) (schema : Schema) (errs : List SchemaError)
    (h : validateJsonSchema env fuel (.json (.obj members)) schema schema [] = .ok errs) :
    ∃ structuralAi structuralIdentity,
      validateAiJson env fuel (.ok (.obj members)) (.new file type) .absent =
        .ok ⟨file, type, structuralAi, []⟩ ∧
      validateAiJson env fuel (.ok (.obj members)) (.new file type) (.loaded schema) =
        .ok ⟨file, type,
          errs.map (fun err => ⟨"Schema: " ++ err.path ++ " — " ++ err.message, none⟩) ++
            structuralAi, []⟩ ∧
      ((errs.map (fun err => (⟨"Schema: " ++ err.path ++ " — " ++ err.message, none⟩ : Issue)) ++
        structuralAi).filter fun i => startsWith i.message "Schema: ").length = errs.length ∧
      validateIdentityJson env fuel (.ok (.obj members)) (.new file type) .absent =
        .ok ⟨file, type, structuralIdentity, []⟩ ∧
      validateIdentityJson env fuel (.ok (.obj members)) (.new file type) (.loaded schema) =
        .ok ⟨file, type,
          errs.map (fun err => ⟨"Schema: " ++ err.path ++ " — " ++ err.message, none⟩) ++
            structuralIdentity, []⟩ ∧
      ((errs.map (fun err => (⟨"Schema: " ++ err.path ++ " — " ++ err.message, none⟩ : Issue)) ++
        structuralIdentity).filter fun i => startsWith i.message "Schema: ").length =
          errs.length := by
  refine ⟨structuralAiJson members, structuralIdentityJson members, ?_, ?_, ?_, ?_, ?_, ?_⟩
  · rw [validateAiJson_obj]
    rfl
  · rw [validateAiJson_obj, schemaStep_loaded env fuel _ schema _ errs h]
    rfl
  · exact schema_prefix_count errs _ (structuralAiJson_not_schema members)
  · rw [validateIdentityJson_obj]
    rfl
  · rw [validateIdentityJson_obj, schemaStep_loaded env fuel _ schema _ errs h]
    rfl
  · exact schema_prefix_count errs _ (structuralIdentityJson_not_schema members)

/-- With the schema `nameSchema` loaded, the root object `{}` gives the
schema error of the missing `name` followed by the four structural errors of
`ai.json`. -/
theorem schema_errors_then_structural_witness :
    validateAiJson sampleEnv 2 (.ok (.obj [])) (.new "ai.json" "ai-json")
        (.loaded nameSchema) =
      .ok ⟨"ai.json", "ai-json",
        [⟨"Schema: name — Required property \"name\" is missing", none⟩,
          ⟨"Property \"permissions\" is REQUIRED", none⟩,
          ⟨"Property \"restrictions\" is REQUIRED", none⟩,
          ⟨"Property \"name\" is REQUIRED", none⟩,
          ⟨"Property \"url\" is REQUIRED", none⟩], []⟩ := by
  obtain ⟨structuralAi, structuralIdentity, h0, h1, -⟩ :=
    schema_errors_then_structural sampleEnv 2 "ai.json" "ai-json" [] nameSchema
      [⟨"name", "Required property \"name\" is missing"⟩] (by decide)
  have h2 : structuralAi =
      [⟨"Property \"permissions\" is REQUIRED", none⟩,
        ⟨"Property \"restrictions\" is REQUIRED", none⟩,
        ⟨"Property \"name\" is REQUIRED", none⟩,
        ⟨"Property \"url\" is REQUIRED", none⟩] := by
    have h3 : validateAiJson sampleEnv 2 (.ok (.obj [])) (.new "ai.json" "ai-json") .absent =
        .ok ⟨"ai.json", "ai-json",
          [⟨"Property \"permissions\" is REQUIRED", none⟩,
            ⟨"Property \"restrictions\" is REQUIRED", none⟩,
            ⟨"Property \"name\" is REQUIRED", none⟩,
            ⟨"Property \"url\" is REQUIRED", none⟩], []⟩ := by decide
    rw [h0] at h3
    simpa using h3
  rw [h1, h2]
  rfl

/-- C19: with a schema file that cannot be read, content that does not parse
and content whose root is an array get no warning: the result holds the single
error of the parse or root check. -/
theorem schema_unreadable_counterexample :
    validateAiJson sampleEnv 0 (.error "Unexpected end of JSON input")
        (.new "ai.json" "ai-json") (.unreadable "Unexpected end of JSON input") =
      .ok ⟨"ai.json", "ai-json", [⟨"Invalid JSON: Unexpected end of JSON input", none⟩], []⟩ ∧
    validateAiJson sampleEnv 0 (.ok (.arr [])) (.new "ai.json" "ai-json")
        (.unreadable "Unexpected end of JSON input") =
      .ok ⟨"ai.json", "ai-json", [⟨"Root value MUST be a JSON object", none⟩], []⟩ := by
  decide

/-- C19 (amended): when the schema file exists but cannot be read or parsed
and the content parses to a root object, either JSON validator adds exactly
one warning, `Could not load JSON Schema: ` followed by the message of the
failure; the errors are exactly the structural errors of the same root with
no schema file, none of them starts with `Schema: `, and the validity is the
same as with no schema file. -/
theorem schema_unreadable_warning (env : JsEnv) (fuel : Nat) (file type message : Str)
    (members : List (Str × Json)) :
    ∃ structuralAi structuralIdentity,
      validateAiJson env fuel (.ok (.obj members)) (.new file type) .absent =
        .ok ⟨file, type, structuralAi, []⟩ ∧
      validateAiJson env fuel (.ok (.obj members)) (.new file type) (.unreadable message) =
        .ok ⟨file, type, structuralAi,
          [⟨"Could not load JSON Schema: " ++ message, none⟩]⟩ ∧
      (∀ i ∈ structuralAi, startsWith i.message "Schema: " = false) ∧
      validateIdentityJson env fuel (.ok (.obj members)) (.new file type) .absent =
        .ok ⟨file, type, structuralIdentity, []⟩ ∧
      validateIdentityJson env fuel (.ok (.obj members)) (.new file type)
          (.unreadable message) =
        .ok ⟨file, type, structuralIdentity,
          [⟨"Could not load JSON Schema: " ++ message, none⟩]⟩ ∧
      (∀ i ∈ structuralIdentity, startsWith i.message "Schema: " = false) ∧
      (ValidationResult.mk file type structuralAi
          [⟨"Could not load JSON Schema: " ++ message, none⟩]).valid =
        (ValidationResult.mk file type structuralAi []).valid := by
  refine ⟨structuralAiJson members, structuralIdentityJson members, ?_, ?_,
    structuralAiJson_not_schema members, ?_, ?_, structuralIdentityJson_not_schema members, rfl⟩
  · rw [validateAiJson_obj]
    rfl
  · rw [validateAiJson_obj]
    rfl
  · rw [validateIdentityJson_obj]
    rfl
  · rw [validateIdentityJson_obj]
    rfl

/-- On `emptyNameDocument` the error for `name` is reported, the name being
the empty text. -/
theorem required_iff_falsy_witness :
    ∃ r, validateAiJson sampleEnv 0 (.ok (.obj emptyNameDocument)) (.new "ai.json" "ai-json")
        .absent = .ok r ∧
      (⟨msgPropertyRequired "name", none⟩ : Issue) ∈ r.errors := by
  obtain ⟨r, s, hr, -, h, -⟩ :=
    required_iff_falsy sampleEnv 0 "ai.json" "ai-json" emptyNameDocument
  exact ⟨r, hr, (h "name" (by simp)).2 (Or.inr ⟨.str "", rfl, rfl⟩)⟩

/-- With an unreadable schema file, the root object `{}` gets the four
structural errors of `identity.json` and one warning. -/
theorem schema_unreadable_warning_witness :
    ∃ structural,
      validateIdentityJson sampleEnv 0 (.ok (.obj [])) (.new "identity.json" "identity-json")
          (.unreadable "Unexpected end of JSON input") =
        .ok ⟨"identity.json", "identity-json", structural,
          [⟨"Could not load JSON Schema: Unexpected end of JSON input", none⟩]⟩ ∧
      validateIdentityJson sampleEnv 0 (.ok (.obj [])) (.new "identity.json" "identity-json")
          .absent =
        .ok ⟨"identity.json", "identity-json", structural, []⟩ := by
  obtain ⟨-, structural, -, -, -, h0, h1, -⟩ :=
    schema_unreadable_warning sampleEnv 0 "identity.json" "identity-json"
      "Unexpected end of JSON input" []
  exact ⟨structural, h1, h0⟩

/-! ## Termination of the schema interpreter -/

theorem terminates_const {α : Type} (outcome : Except JsError α)
    (h : outcome ≠ .error .stackOverflow) : Terminates fun _ => outcome :=
  ⟨0, outcome, h, fun _ _ => rfl⟩

/-- A call that reserves one frame and then continues with a terminating
computation terminates. -/
theorem terminates_succ {α β : Type} (run : Nat → Except JsError α)
    (inner : Nat → Except JsError β) (next : Except JsError β → Except JsError α)
    (hrun : ∀ fuel, run (fuel + 1) = next (inner fuel))
    (hnext : ∀ r, r ≠ .error .stackOverflow → next r ≠ .error .stackOverflow)
    (h : Terminates inner) : Terminates run := by
  obtain ⟨n, r, hr, hn⟩ := h
  refine ⟨n + 1, next r, hnext r hr, ?_⟩
  intro fuel hfuel
  cases fuel with
  | zero => omega
  | succ k => rw [hrun, hn k (by omega)]

/-- Two terminating computations combined terminate. -/
theorem terminates_pair {α β γ : Type} (f : Nat → Except JsError α)
    (g : Nat → Except JsError β) (combine : Except JsError α → Except JsError β → Except JsError γ)
    (hcombine : ∀ a b, a ≠ .error .stackOverflow → b ≠ .error .stackOverflow →
      combine a b ≠ .error .stackOverflow)
    (hf : Terminates f) (hg : Terminates g) :
    Terminates fun fuel => combine (f fuel) (g fuel) := by
  obtain ⟨n1, r1, hr1, hn1⟩ := hf
  obtain ⟨n2, r2, hr2, hn2⟩ := hg
  refine ⟨max n1 n2, combine r1 r2, hcombine r1 r2 hr1 hr2, ?_⟩
  intro fuel hfuel
  show combine (f fuel) (g fuel) = combine r1 r2
  rw [hn1 fuel (le_trans (le_max_left _ _) hfuel), hn2 fuel (le_trans (le_max_right _ _) hfuel)]

theorem getProperty_ne_overflow (data : JsValue) (key : Str) :
    getProperty data key ≠ .error .stackOverflow := by
  unfold getProperty
  split <;> simp

theorem oneOfSome_terminates (validate : Nat → Schema → Except JsError (List SchemaError))
    (branches : List Schema)
    (h : ∀ sub ∈ branches, Terminates fun fuel => validate fuel sub) :
    Terminates fun fuel => oneOfSome (validate fuel) branches := by
  induction branches with
  | nil => exact terminates_const _ (by simp)
  | cons sub rest ih =>
    have h1 := h sub (by simp)
    have h2 := ih fun s hs => h s (List.mem_cons_of_mem _ hs)
    have := terminates_pair (fun fuel => validate fuel sub)
      (fun fuel => oneOfSome (validate fuel) rest)
      (fun a b => match a with
        | .error e => .error e
        | .ok subErrors => if subErrors.length == 0 then .ok true else b)
      (by
        intro a b ha hb
        cases a with
        | error e => simpa using ha
        | ok errs =>
          simp only
          split
          · simp
          · exact hb) h1 h2
    exact this

theorem propertyErrors_terminates
    (validate : Nat → JsValue → Schema → Str → Except JsError (List SchemaError))
    (data : JsValue) (path : Str) (props : List (Str × Schema))
    (h : ∀ p ∈ props, ∀ value, getProperty data p.1 = .ok (some value) →
      Terminates fun fuel => validate fuel value p.2 (childPath path p.1)) :
    Terminates fun fuel => propertyErrors (validate fuel) data path props := by
  induction props with
  | nil => exact terminates_const _ (by simp)
  | cons p rest ih =>
    obtain ⟨key, propSchema⟩ := p
    have h2 := ih fun q hq => h q (List.mem_cons_of_mem _ hq)
    cases hg : getProperty data key with
    | error e =>
      have he : (Except.error e : Except JsError (List SchemaError)) ≠ .error .stackOverflow := by
        intro hc
        apply getProperty_ne_overflow data key
        rw [hg]
        cases hc
        rfl
      refine ⟨0, .error e, he, fun fuel _ => ?_⟩
      simp only [propertyErrors, hg]
    | ok value =>
      cases value with
      | none =>
        obtain ⟨n, r, hr, hn⟩ := h2
        refine ⟨n, r, hr, fun fuel hfuel => ?_⟩
        simp only [propertyErrors, hg]
        exact hn fuel hfuel
      | some value =>
        have h1 := h (key, propSchema) (by simp) value hg
        have := terminates_pair (fun fuel => validate fuel value propSchema (childPath path key))
          (fun fuel => propertyErrors (validate fuel) data path rest)
          (fun a b => match a with
            | .error e => .error e
            | .ok errs =>
              match b with
              | .error e => .error e
              | .ok more => .ok (errs ++ more))
          (by
            intro a b ha hb
            cases a with
            | error e => simpa using ha
            | ok errs =>
              cases b with
              | error e => simpa using hb
              | ok more => simp) h1 h2
        obtain ⟨n, r, hr, hn⟩ := this
        refine ⟨n, r, hr, fun fuel hfuel => ?_⟩
        rw [← hn fuel hfuel]
        simp only [propertyErrors, hg]

theorem itemErrors_terminates
    (validate : Nat → JsValue → Schema → Str → Except JsError (List SchemaError))
    (items : Schema) (path : Str) (xs : List Json)
    (h : ∀ x ∈ xs, ∀ subPath, Terminates fun fuel => validate fuel (.json x) items subPath) :
    ∀ i, Terminates fun fuel => itemErrors (validate fuel) items path i xs := by
  induction xs with
  | nil => exact fun i => terminates_const _ (by simp)
  | cons x rest ih =>
    intro i
    have h1 := h x (by simp) (itemPath path i)
    have h2 := ih (fun y hy => h y (List.mem_cons_of_mem _ hy)) (i + 1)
    have := terminates_pair (fun fuel => validate fuel (.json x) items (itemPath path i))
      (fun fuel => itemErrors (validate fuel) items path (i + 1) rest)
      (fun a b => match a with
        | .error e => .error e
        | .ok errs =>
          match b with
          | .error e => .error e
          | .ok more => .ok (errs ++ more))
      (by
        intro a b ha hb
        cases a with
        | error e => simpa using ha
        | ok errs =>
          cases b with
          | error e => simpa using hb
          | ok more => simp) h1 h2
    exact this

theorem terminates_map {α β : Type} (run : Nat → Except JsError α)
    (next : Except JsError α → Except JsError β)
    (hnext : ∀ r, r ≠ .error .stackOverflow → next r ≠ .error .stackOverflow)
    (h : Terminates run) : Terminates fun fuel => next (run fuel) := by
  obtain ⟨n, r, hr, hn⟩ := h
  exact ⟨n, next r, hnext r hr, fun fuel hfuel => by
    show next (run fuel) = next r
    rw [hn fuel hfuel]⟩

theorem requiredErrors_ne_overflow (data : JsValue) (path : Str) (keys : List Str) :
    requiredErrors data path keys ≠ .error .stackOverflow := by
  induction keys with
  | nil => simp [requiredErrors]
  | cons key rest ih =>
    unfold requiredErrors
    have hg := getProperty_ne_overflow data key
    cases hp : getProperty data key with
    | error e =>
      rw [hp] at hg
      simpa using hg
    | ok value =>
      cases hr : requiredErrors data path rest with
      | error e =>
        rw [hr] at ih
        simpa using ih
      | ok errs => simp

theorem additionalErrors_ne_overflow (data : JsValue) (path : Str)
    (properties : List (Str × Schema)) :
    additionalErrors data path properties ≠ .error .stackOverflow := by
  have hkeys : ∀ e, ownKeys data = .error e → e = .nullKeys := by
    intro e he
    unfold ownKeys at he
    split at he
    · cases he
    · cases he
      rfl
    · cases he
  unfold additionalErrors
  cases hk : ownKeys data with
  | error e =>
    rw [hkeys e hk]
    exact fun h => by cases h
  | ok keys => exact fun h => by cases h

theorem patternErrors_ne_overflow (env : JsEnv) (data : JsValue) (schema : Schema)
    (path : Str) : patternErrors env data schema path ≠ .error .stackOverflow := by
  unfold patternErrors
  split
  · split <;> simp
  · simp

theorem jsonSize_lookup (members : List (Str × Json)) (key : Str) (v : Json)
    (h : members.lookup key = some v) : jsonSize v ≤ jsonMembersSize members := by
  induction members with
  | nil => simp at h
  | cons m ms ih =>
    obtain ⟨k, w⟩ := m
    simp only [jsonMembersSize]
    rw [List.lookup_cons] at h
    cases hk : key == k with
    | true =>
      rw [hk] at h
      cases h
      omega
    | false =>
      rw [hk] at h
      have := ih h
      omega

theorem jsonSize_mem (xs : List Json) (x : Json) (h : x ∈ xs) :
    jsonSize x ≤ jsonListSize xs := by
  induction xs with
  | nil => simp at h
  | cons y ys ih =>
    simp only [jsonListSize]
    rcases List.mem_cons.1 h with rfl | h
    · omega
    · have := ih h
      omega

theorem jsonSize_pos (v : Json) : 0 < jsonSize v := by
  cases v <;> simp [jsonSize]

theorem valueSize_getProperty (data value : JsValue) (key : Str)
    (h : getProperty data key = .ok (some value)) : valueSize value < valueSize data := by
  cases data with
  | json v =>
    cases v with
    | obj members =>
      simp only [getProperty, Except.ok.injEq] at h
      unfold getMember at h
      cases hl : members.lookup key with
      | some w =>
        rw [hl] at h
        simp only [Option.some.injEq] at h
        subst h
        have := jsonSize_lookup members key w hl
        simp only [valueSize, jsonSize]
        omega
      | none =>
        rw [hl] at h
        simp only at h
        split at h
        · simp only [Option.some.injEq] at h
          subst h
          simp only [valueSize, jsonSize]
          omega
        · split at h
          · simp only [Option.some.injEq] at h
            subst h
            simp only [valueSize, jsonSize]
            omega
          · simp at h
    | null => simp [getProperty] at h
    | bool b => simp [getProperty] at h
    | num n => simp [getProperty] at h
    | str s => simp [getProperty] at h
    | arr items => simp [getProperty] at h
  | inheritedFunction k => simp [getProperty] at h
  | objectPrototype =>
    simp only [getProperty, Except.ok.injEq] at h
    split at h
    · simp only [Option.some.injEq] at h
      subst h
      simp [valueSize, jsonSize]
    · split at h
      · simp only [Option.some.injEq] at h
        subst h
        simp [valueSize]
      · simp at h

theorem valueSize_item (xs : List Json) (x : Json) (h : x ∈ xs) :
    valueSize (.json x) < valueSize (.json (.arr xs)) := by
  have := jsonSize_mem xs x h
  simp only [valueSize, jsonSize]
  omega

theorem objectErrors_terminates
    (validate : Nat → JsValue → Schema → Str → Except JsError (List SchemaError))
    (data : JsValue) (schema : Schema) (path : Str)
    (h : ∀ value sub subPath, valueSize value < valueSize data →
      Terminates fun fuel => validate fuel value sub subPath) :
    Terminates fun fuel => objectErrors (validate fuel) data schema path := by
  have hprops : Terminates fun fuel =>
      (match schema.properties with
        | some properties => propertyErrors (validate fuel) data path properties
        | none => .ok []) := by
    cases schema.properties with
    | none => exact terminates_const _ (by simp)
    | some props =>
      exact propertyErrors_terminates validate data path props fun p _ value hv =>
        h value p.2 _ (valueSize_getProperty data value p.1 hv)
  have := terminates_map _
    (fun propResult : Except JsError (List SchemaError) =>
      if schema.type == some ("object" : Str) && typeOf data == ("object" : Str) &&
          !isArray data then
        match (match schema.required with
          | some required => requiredErrors data path required
          | none => .ok []) with
        | .error e => .error e
        | .ok reqErrs =>
          match propResult with
          | .error e => .error e
          | .ok propErrs =>
            match (match schema.additionalProperties, schema.properties with
              | some false, some properties => additionalErrors data path properties
              | _, _ => .ok []) with
            | .error e => .error e
            | .ok addErrs => .ok (reqErrs ++ propErrs ++ addErrs)
      else .ok [])
    (by
      intro r hr
      simp only
      split
      · have h1 : (match schema.required with
            | some required => requiredErrors data path required
            | none => .ok []) ≠ .error .stackOverflow := by
          split
          · exact requiredErrors_ne_overflow _ _ _
          · simp
        have h2 : (match schema.additionalProperties, schema.properties with
            | some false, some properties => additionalErrors data path properties
            | _, _ => .ok []) ≠ .error .stackOverflow := by
          split
          · exact additionalErrors_ne_overflow _ _ _
          · simp
        revert h1 h2
        generalize (match schema.required with
            | some required => requiredErrors data path required
            | none => .ok []) = a
        generalize (match schema.additionalProperties, schema.properties with
            | some false, some properties => additionalErrors data path properties
            | _, _ => Except.ok []) = b
        intro h1 h2
        cases a with
        | error e => simpa using h1
        | ok reqErrs =>
          cases r with
          | error e => simpa using hr
          | ok propErrs =>
            cases b with
            | error e => simpa using h2
            | ok addErrs => simp
      · simp) hprops
  obtain ⟨n, r, hr, hn⟩ := this
  refine ⟨n, r, hr, fun fuel hfuel => ?_⟩
  rw [← hn fuel hfuel]
  rfl

theorem arrayErrors_terminates (env : JsEnv)
    (validate : Nat → JsValue → Schema → Str → Except JsError (List SchemaError))
    (data : JsValue) (schema : Schema) (path : Str)
    (h : ∀ value sub subPath, valueSize value < valueSize data →
      Terminates fun fuel => validate fuel value sub subPath) :
    Terminates fun fuel => arrayErrors env (validate fuel) data schema path := by
  cases data with
  | json v =>
    cases v with
    | arr xs =>
      cases hty : schema.type == some ("array" : Str) with
      | false =>
        refine ⟨0, .ok [], by simp, fun fuel _ => ?_⟩
        simp only [arrayErrors, hty, Bool.false_eq_true, if_false]
      | true =>
        cases hi : schema.items with
        | none =>
          refine ⟨0, .ok (match schema.minItems with
            | some m =>
              if m.natLt xs.length then
                [(⟨pathOrRoot path, msgMinItems env xs.length m⟩ : SchemaError)]
              else []
            | none => []), (fun h => by cases h), fun fuel _ => ?_⟩
          simp only [arrayErrors, hty, if_true, hi]
        | some items =>
          have h1 := itemErrors_terminates validate items path xs
            (fun x hx subPath => h (.json x) items subPath (valueSize_item xs x hx)) 0
          have := terminates_map _
            (fun r : Except JsError (List SchemaError) =>
              match r with
              | .error e => .error e
              | .ok errs =>
                .ok ((match schema.minItems with
                  | some m =>
                    if m.natLt xs.length then
                      [(⟨pathOrRoot path, msgMinItems env xs.length m⟩ : SchemaError)]
                    else []
                  | none => []) ++ errs))
            (by
              intro r hr
              cases r with
              | error e => simpa using hr
              | ok errs => simp) h1
          obtain ⟨n, r, hr, hn⟩ := this
          refine ⟨n, r, hr, fun fuel hfuel => ?_⟩
          rw [← hn fuel hfuel]
          simp only [arrayErrors, hty, if_true, hi]
    | null => exact ⟨0, .ok [], by simp, fun _ _ => rfl⟩
    | bool b => exact ⟨0, .ok [], by simp, fun _ _ => rfl⟩
    | num n => exact ⟨0, .ok [], by simp, fun _ _ => rfl⟩
    | str s => exact ⟨0, .ok [], by simp, fun _ _ => rfl⟩
    | obj ms => exact ⟨0, .ok [], by simp, fun _ _ => rfl⟩
  | inheritedFunction k => exact ⟨0, .ok [], by simp, fun _ _ => rfl⟩
  | objectPrototype => exact ⟨0, .ok [], by simp, fun _ _ => rfl⟩

theorem checksAfterType_terminates (env : JsEnv)
    (validate : Nat → JsValue → Schema → Str → Except JsError (List SchemaError))
    (data : JsValue) (schema : Schema) (path : Str)
    (h : ∀ value sub subPath, valueSize value < valueSize data →
      Terminates fun fuel => validate fuel value sub subPath) :
    Terminates fun fuel => checksAfterType env (validate fuel) data schema path := by
  have := terminates_pair _ _
    (fun objResult arrResult : Except JsError (List SchemaError) =>
      match patternErrors env data schema path with
      | .error e => .error e
      | .ok patErrs =>
        match objResult with
        | .error e => .error e
        | .ok objErrs =>
          match arrResult with
          | .error e => .error e
          | .ok arrErrs =>
            .ok (constErrors env data schema path ++ enumErrors env data schema path ++
              minLengthErrors env data schema path ++ patErrs ++ objErrs ++ arrErrs))
    (by
      intro a b ha hb
      have hp := patternErrors_ne_overflow env data schema path
      revert hp
      generalize patternErrors env data schema path = p
      intro hp
      cases p with
      | error e => simpa using hp
      | ok patErrs =>
        cases a with
        | error e => simpa using ha
        | ok objErrs =>
          cases b with
          | error e => simpa using hb
          | ok arrErrs => simp)
    (objectErrors_terminates validate data schema path h)
    (arrayErrors_terminates env validate data schema path h)
  obtain ⟨n, r, hr, hn⟩ := this
  refine ⟨n, r, hr, fun fuel hfuel => ?_⟩
  rw [← hn fuel hfuel]
  rfl

theorem validateJsonSchema_terminates_aux (env : JsEnv) (rootSchema : Schema)
    (hwf : RefsWellFounded rootSchema) :
    ∀ n data, valueSize data < n → ∀ schema path,
      Terminates fun fuel => validateJsonSchema env fuel data schema rootSchema path := by
  intro n
  induction n with
  | zero =>
    intro data h
    omega
  | succ n ih =>
    intro data hd schema
    refine hwf.induction
      (C := fun schema => ∀ path,
        Terminates fun fuel => validateJsonSchema env fuel data schema rootSchema path)
      schema ?_
    intro schema ihs path
    cases hone : schema.oneOf with
    | some branches =>
      have h1 := oneOfSome_terminates
        (fun fuel sub => validateJsonSchema env fuel data sub rootSchema path) branches
        (fun sub hsub => ihs sub (Or.inl ⟨branches, hone, hsub⟩) path)
      exact terminates_succ _ _
        (fun r => match r with
          | .error e => .error e
          | .ok valid => .ok (if !valid then [⟨pathOrRoot path, msgOneOf⟩] else []))
        (fun fuel =>
          (validateJsonSchema_oneOf_eq env fuel data schema rootSchema path branches hone).trans
            rfl)
        (by
          intro r hr
          cases r with
          | error e => simpa using hr
          | ok valid => simp) h1
    | none =>
      cases href : truthyString schema.ref with
      | some ref =>
        cases hres : resolveRef rootSchema (replaceFirst "#/$defs/" "" ref) with
        | resolved d =>
          have h1 := ihs d (Or.inr ⟨hone, ref, href, hres⟩) path
          exact terminates_succ _ _ id
            (fun fuel => by
              rw [validateJsonSchema_ref_eq env fuel data schema rootSchema path ref hone href,
                hres]
              rfl)
            (fun r hr => hr) h1
        | inherited =>
          refine ⟨1, .ok [], (fun h => by cases h), fun fuel hfuel => ?_⟩
          cases fuel with
          | zero => omega
          | succ k =>
            show validateJsonSchema env (k + 1) data schema rootSchema path = _
            rw [validateJsonSchema_ref_eq env k data schema rootSchema path ref hone href, hres]
        | unresolved =>
          refine ⟨1, .ok [⟨path, msgUnresolvedRef ref⟩], (fun h => by cases h),
            fun fuel hfuel => ?_⟩
          cases fuel with
          | zero => omega
          | succ k =>
            show validateJsonSchema env (k + 1) data schema rootSchema path = _
            rw [validateJsonSchema_ref_eq env k data schema rootSchema path ref hone href, hres]
      | none =>
        cases hty : typeError data schema path with
        | some err =>
          refine ⟨1, .ok [err], (fun h => by cases h), fun fuel hfuel => ?_⟩
          cases fuel with
          | zero => omega
          | succ k =>
            show validateJsonSchema env (k + 1) data schema rootSchema path = _
            rw [validateJsonSchema_node_eq env k data schema rootSchema path hone href, hty]
        | none =>
          have h1 := checksAfterType_terminates env
            (fun fuel value sub subPath =>
              validateJsonSchema env fuel value sub rootSchema subPath)
            data schema path
            (fun value sub subPath hv => ih value (by omega) sub subPath)
          exact terminates_succ _ _ id
            (fun fuel => by
              rw [validateJsonSchema_node_eq env fuel data schema rootSchema path hone href,
                hty]
              rfl)
            (fun r hr => hr) h1

theorem loopNode_overflow (env : JsEnv) (data : JsValue) (path : Str) :
    ∀ fuel, validateJsonSchema env fuel data loopNode selfReference path =
      .error .stackOverflow := by
  intro fuel
  induction fuel with
  | zero => rfl
  | succ k ih =>
    rw [validateJsonSchema_ref_eq env k data loopNode selfReference path "#/$defs/loop" rfl rfl]
    exact ih

theorem sameDataStep_loopNode : SameDataStep selfReference loopNode loopNode :=
  Or.inr ⟨rfl, "#/$defs/loop", rfl, rfl⟩

theorem sizeOf_branch (schema : Schema) (branches : List Schema)
    (h : schema.oneOf = some branches) (sub : Schema) (hsub : sub ∈ branches) :
    sizeOf sub < sizeOf schema := by
  cases schema with
  | mk o r t c e ml p rq pr ap mi it d =>
    simp only [Schema.oneOf] at h
    subst h
    have := List.sizeOf_lt_of_mem hsub
    simp only [Schema.mk.sizeOf_spec, Option.some.sizeOf_spec]
    omega

theorem resolveRef_textReference (name : Str) (next : Schema)
    (h : resolveRef textReference name = .resolved next) : next = Schema.ofType "string" := by
  have hdefs : textReference.defs = some [(("text" : Str), Schema.ofType "string")] := rfl
  unfold resolveRef at h
  rw [hdefs] at h
  simp only [List.lookup] at h
  cases hk : name == ("text" : Str) with
  | true =>
    rw [hk] at h
    simp only [RefLookup.resolved.injEq] at h
    exact h.symm
  | false =>
    rw [hk] at h
    simp only at h
    split at h <;> cases h

/-- The references of `textReference` are well-founded: its only definition
has neither `oneOf` nor `$ref`. -/
theorem textReference_wellFounded : RefsWellFounded textReference := by
  have hd : Acc (fun next schema => SameDataStep textReference schema next)
      (Schema.ofType "string") := by
    refine Acc.intro _ ?_
    rintro next (⟨branches, h, -⟩ | ⟨-, ref, h, -⟩)
    · cases h
    · cases h
  have hall : ∀ n schema, sizeOf schema < n →
      Acc (fun next schema => SameDataStep textReference schema next) schema := by
    intro n
    induction n with
    | zero =>
      intro schema h
      omega
    | succ n ih =>
      intro schema hs
      refine Acc.intro _ ?_
      rintro next (⟨branches, h, hmem⟩ | ⟨-, ref, -, hres⟩)
      · have := sizeOf_branch schema branches h next hmem
        exact ih next (by omega)
      · have hnext : next = Schema.ofType "string" :=
          resolveRef_textReference _ next hres
        rw [hnext]
        exact hd
  exact ⟨fun schema => hall (sizeOf schema + 1) schema (Nat.lt_succ_self _)⟩

/-- C26: on every root schema whose `oneOf` branches and `$ref` links, followed
on the same data, never come back to a node already being validated,
`validateJsonSchema` terminates on every value, node and path: some capacity
of the call stack suffices, and from that capacity on the outcome is the same
list of errors (or exception other than a stack overflow).  Without that
precondition it need not: on the root schema `selfReference`, whose
definition refers to itself, the call overflows the stack whatever its
capacity, on every data and path. -/
theorem validateJsonSchema_terminates (env : JsEnv) :
    (∀ rootSchema, RefsWellFounded rootSchema → ∀ data schema path,
        Terminates fun fuel => validateJsonSchema env fuel data schema rootSchema path) ∧
      (∀ fuel data path,
        validateJsonSchema env fuel data selfReference selfReference path =
          .error .stackOverflow) ∧
      ¬ RefsWellFounded selfReference := by
  refine ⟨?_, ?_, ?_⟩
  · intro rootSchema hwf data schema path
    exact validateJsonSchema_terminates_aux env rootSchema hwf (valueSize data + 1) data
      (Nat.lt_succ_self _) schema path
  · intro fuel data path
    cases fuel with
    | zero => rfl
    | succ k =>
      rw [validateJsonSchema_ref_eq env k data selfReference selfReference path
        "#/$defs/loop" rfl rfl]
      exact loopNode_overflow env data path k
  · intro hwf
    have h : ∀ s, Acc (fun next schema => SameDataStep selfReference schema next) s →
        s ≠ loopNode := by
      intro s hs
      induction hs with
      | intro x _ ih =>
        intro hx
        subst hx
        exact ih loopNode sameDataStep_loopNode rfl
    exact h loopNode (hwf.apply loopNode) rfl

/-- On the root schema `textReference`, whose references are well-founded,
the validation of the number `5` terminates. -/
theorem validateJsonSchema_terminates_witness :
    RefsWellFounded textReference ∧
      Terminates fun fuel =>
        validateJsonSchema sampleEnv fuel (.json five) textReference textReference [] :=
  ⟨textReference_wellFounded,
    (validateJsonSchema_terminates sampleEnv).1 textReference textReference_wellFounded
      (.json five) textReference []⟩

end AdfValidate
